import Mathlib

/-!
Verification development for the japanese-gentle-converter repository.

Texts are modelled as lists of characters (`Str`); JavaScript numbers that
carry scores and confidences are modelled as rationals; `Math.random()` is
modelled as an injected stream of rationals in `[0,1)` consumed sequentially;
the ambient wall clock is an explicit `hour`/`now` parameter.  JavaScript
objects become structures, with `Option` fields for properties that some code
paths leave `undefined`.  `String.prototype.replace` with a global regexp of a
literal word is `replaceAll` below (leftmost, non-overlapping, replacement not
rescanned), matching the JS scan semantics.
-/

namespace JGC

abbrev Str := List Char

def lit (s : String) : Str := s.data

/-- containsB s pat is true when pat occurs as a contiguous substring of s,
    the model of JavaScript String.prototype.includes and of test/match with
    a fixed literal pattern. -/
def containsB (s pat : Str) : Bool :=
  match s with
  | [] => pat.isEmpty
  | _ :: cs => pat.isPrefixOf s || containsB cs pat

/-- countOccAux is the fuelled scan behind countOcc; the fuel only serves
    structural termination and is irrelevant once it covers the length. -/
def countOccAux (pat : Str) : Nat → Str → Nat
  | _, [] => 0
  | 0, _ => 0
  | fuel + 1, c :: cs =>
    if pat ≠ [] ∧ pat.isPrefixOf (c :: cs) then
      1 + countOccAux pat fuel ((c :: cs).drop pat.length)
    else
      countOccAux pat fuel cs

/-- countOcc counts leftmost non-overlapping occurrences of pat in s, the
    length of the array returned by String.prototype.match with a global
    literal regexp. -/
def countOcc (pat s : Str) : Nat := countOccAux pat s.length s

/-- replaceAllAux is the fuelled scan behind replaceAll; the fuel only serves
    structural termination and is irrelevant once it covers the length. -/
def replaceAllAux (k v : Str) : Nat → Str → Str
  | _, [] => []
  | 0, s => s
  | fuel + 1, c :: cs =>
    if k ≠ [] ∧ k.isPrefixOf (c :: cs) then
      v ++ replaceAllAux k v fuel ((c :: cs).drop k.length)
    else
      c :: replaceAllAux k v fuel cs

/-- replaceAll k v s replaces every leftmost non-overlapping occurrence of k
    in s by v, scanning left to right over the original string; replacements
    are not rescanned.  This is s.replace(new RegExp(k, 'g'), v) for a literal
    k with no regexp metacharacters. -/
def replaceAll (k v s : Str) : Str := replaceAllAux k v s.length s

theorem replaceAllAux_congr (k v : Str) :
    ∀ f1 f2 s, s.length ≤ f1 → s.length ≤ f2 →
      replaceAllAux k v f1 s = replaceAllAux k v f2 s := by
  intro f1
  induction f1 with
  | zero =>
    intro f2 s h1 _
    have : s = [] := List.eq_nil_of_length_eq_zero (Nat.le_zero.mp h1)
    subst this
    cases f2 <;> rfl
  | succ f ih =>
    intro f2 s h1 h2
    match s with
    | [] => cases f2 <;> rfl
    | c :: cs =>
      match f2, h2 with
      | f2' + 1, _ =>
        show replaceAllAux k v (f + 1) (c :: cs) = replaceAllAux k v (f2' + 1) (c :: cs)
        by_cases hc : k ≠ [] ∧ k.isPrefixOf (c :: cs)
        · have hk1 : k.length ≠ 0 := by simpa using hc.1
          simp only [replaceAllAux, if_pos hc]
          congr 1
          refine ih f2' _ ?_ ?_ <;>
            (simp only [List.length_drop, List.length_cons] at *; omega)
        · simp only [replaceAllAux, if_neg hc]
          congr 1
          refine ih f2' cs ?_ ?_ <;> (simp only [List.length_cons] at *; omega)

theorem countOccAux_congr (pat : Str) :
    ∀ f1 f2 s, s.length ≤ f1 → s.length ≤ f2 →
      countOccAux pat f1 s = countOccAux pat f2 s := by
  intro f1
  induction f1 with
  | zero =>
    intro f2 s h1 _
    have : s = [] := List.eq_nil_of_length_eq_zero (Nat.le_zero.mp h1)
    subst this
    cases f2 <;> rfl
  | succ f ih =>
    intro f2 s h1 h2
    match s with
    | [] => cases f2 <;> rfl
    | c :: cs =>
      match f2, h2 with
      | f2' + 1, _ =>
        show countOccAux pat (f + 1) (c :: cs) = countOccAux pat (f2' + 1) (c :: cs)
        by_cases hc : pat ≠ [] ∧ pat.isPrefixOf (c :: cs)
        · have hk1 : pat.length ≠ 0 := by simpa using hc.1
          simp only [countOccAux, if_pos hc]
          congr 1
          refine ih f2' _ ?_ ?_ <;>
            (simp only [List.length_drop, List.length_cons] at *; omega)
        · simp only [countOccAux, if_neg hc]
          refine ih f2' cs ?_ ?_ <;> (simp only [List.length_cons] at *; omega)

/-- lookupA is association-list lookup with list-of-chars keys, the model of
    JavaScript property access on an object literal. -/
def lookupA (m : List (Str × Str)) (k : Str) : Option Str :=
  match m with
  | [] => none
  | kv :: rest => if kv.1 = k then some kv.2 else lookupA rest k

/-- jsSpread a b is the object spread {...a, ...b}: keys of a in order with
    values overridden by b on collision, then keys of b not present in a, in
    b's order. -/
def jsSpread (a b : List (Str × Str)) : List (Str × Str) :=
  a.map (fun kv => (kv.1, (lookupA b kv.1).getD kv.2)) ++
    b.filter (fun kv => (lookupA a kv.1).isNone)

theorem containsB_iff (s pat : Str) : containsB s pat = true ↔ pat <:+: s := by
  induction s with
  | nil =>
    simp only [containsB, List.isEmpty_iff]
    constructor
    · rintro rfl; exact List.infix_rfl
    · intro h; exact List.eq_nil_of_infix_nil h
  | cons c cs ih =>
    simp only [containsB, Bool.or_eq_true, List.isPrefixOf_iff_prefix, ih,
      List.infix_cons_iff]

theorem not_containsB_iff (s pat : Str) : containsB s pat = false ↔ ¬ pat <:+: s := by
  rw [← containsB_iff s pat]
  cases containsB s pat <;> simp

theorem infix_iff_drop (p s : Str) : p <:+: s ↔ ∃ i, p <+: s.drop i := by
  constructor
  · rintro ⟨a, b, rfl⟩
    exact ⟨a.length, by simp [List.drop_append_of_le_length, List.prefix_append]⟩
  · rintro ⟨i, h⟩
    exact h.isInfix.trans (List.drop_suffix i s).isInfix

theorem prefix_append_left {p a b : Str} (h : p <+: a ++ b) (hl : p.length ≤ a.length) :
    p <+: a := by
  have h1 : p = (a ++ b).take p.length := List.prefix_iff_eq_take.mp h
  have h2 : (a ++ b).take p.length = a.take p.length := by
    rw [List.take_append_of_le_length hl]
  exact List.prefix_iff_eq_take.mpr (h1.trans h2)

theorem prefix_append_long {p a b : Str} (h : p <+: a ++ b) (hl : a.length ≤ p.length) :
    a <+: p ∧ p.drop a.length <+: b := by
  have ha : a <+: p := (List.prefix_of_prefix_length_le (List.prefix_append a b) h hl)
  refine ⟨ha, ?_⟩
  obtain ⟨t, rfl⟩ := ha
  obtain ⟨u, hu⟩ := h
  rw [List.append_assoc] at hu
  have := List.append_cancel_left hu
  simp only [List.drop_left]
  exact ⟨u, this⟩

theorem infix_append_split {p a b : Str} (h : p <:+: a ++ b) :
    p <:+: a ∨ p <:+: b ∨
      ∃ i, 0 < i ∧ i < p.length ∧ p.take i <:+ a ∧ p.drop i <+: b := by
  rw [infix_iff_drop] at h
  obtain ⟨i, hi⟩ := h
  by_cases hia : i < a.length
  · rw [List.drop_append_of_le_length (le_of_lt hia)] at hi
    by_cases hl : p.length ≤ a.length - i
    · left
      rw [infix_iff_drop]
      exact ⟨i, prefix_append_left hi (by simpa using hl)⟩
    · push_neg at hl
      have hlen : (a.drop i).length ≤ p.length := by
        simp only [List.length_drop]; omega
      obtain ⟨hpre, hdrop⟩ := prefix_append_long hi hlen
      by_cases hz : (a.drop i).length = 0
      · right; left
        rw [infix_iff_drop]
        refine ⟨0, ?_⟩
        simpa [hz] using hdrop
      · by_cases hpl : (a.drop i).length = p.length
        · left
          have : p = a.drop i := (List.IsPrefix.eq_of_length hpre hpl).symm
          rw [this]
          exact (List.drop_suffix i a).isInfix
        · right; right
          refine ⟨(a.drop i).length, by omega, by omega, ?_, ?_⟩
          · have : p.take (a.drop i).length = a.drop i := by
              have := List.prefix_iff_eq_take.mp hpre
              simpa [List.length_drop] using this.symm
            rw [this]
            exact List.drop_suffix i a
          · simpa [List.length_drop] using hdrop
  · right; left
    rw [List.drop_append_eq_append_drop, List.drop_eq_nil_of_le (by omega),
      List.nil_append] at hi
    rw [infix_iff_drop]
    exact ⟨i - a.length, hi⟩

theorem suffix_tail {c : Char} {q p : Str} (h : (c :: q) <:+ p) : q <:+ p := by
  obtain ⟨w, hw⟩ := h
  exact ⟨w ++ [c], by simpa using hw⟩

theorem suffix_chars {q p : Str} (h : q <:+ p) : ∀ c ∈ q, c ∈ p :=
  fun _ hc => h.isInfix.subset hc

/-- charDisjoint p v holds when no character of p occurs in v; it rules out
    every way an occurrence of p could intersect an inserted copy of v. -/
def charDisjoint (p v : Str) : Prop := ∀ c ∈ p, c ∉ v

instance (p v : Str) : Decidable (charDisjoint p v) := by
  unfold charDisjoint; infer_instance

theorem replaceAll_nil (k v : Str) : replaceAll k v [] = [] := rfl

theorem replaceAll_pos (k v : Str) {c : Char} {cs : Str}
    (h : k ≠ [] ∧ k.isPrefixOf (c :: cs)) :
    replaceAll k v (c :: cs) = v ++ replaceAll k v ((c :: cs).drop k.length) := by
  have hk1 : k.length ≠ 0 := by simpa using h.1
  show replaceAllAux k v (cs.length + 1) (c :: cs) = _
  simp only [replaceAllAux, if_pos h]
  congr 1
  refine replaceAllAux_congr k v cs.length _ _ ?_ le_rfl
  simp only [List.length_drop, List.length_cons]
  omega

theorem replaceAll_neg (k v : Str) {c : Char} {cs : Str}
    (h : ¬ (k ≠ [] ∧ k.isPrefixOf (c :: cs))) :
    replaceAll k v (c :: cs) = c :: replaceAll k v cs := by
  show replaceAllAux k v (cs.length + 1) (c :: cs) = _
  simp only [replaceAllAux, if_neg h]
  rfl

theorem suffix_eq_drop {q p : Str} (h : q <:+ p) :
    q = p.drop (p.length - q.length) := by
  obtain ⟨w, rfl⟩ := h
  have hl : (w ++ q).length - q.length = w.length := by simp
  rw [hl, List.drop_left]

/-- prefix_through_replaceAll: a nonempty suffix of p appearing as a prefix of
    the output of replaceAll already appears as a prefix of the input, provided
    no nonempty suffix of p is a prefix of v and v is not an infix of p. -/
theorem prefix_through_replaceAll (k v p : Str)
    (hA : ∀ i, i < p.length → ¬ p.drop i <+: v)
    (hB : ¬ v <:+: p) :
    ∀ n s q, s.length ≤ n → q ≠ [] → q <:+ p → q <+: replaceAll k v s → q <+: s := by
  intro n
  induction n with
  | zero =>
    intro s q hs hq _ hpre
    have hsn : s = [] := List.eq_nil_of_length_eq_zero (Nat.le_zero.mp hs)
    subst hsn
    rw [replaceAll_nil] at hpre
    exact absurd (List.prefix_nil.mp hpre) hq
  | succ n ih =>
    intro s q hs hq hqp hpre
    match s with
    | [] =>
      rw [replaceAll_nil] at hpre
      exact absurd (List.prefix_nil.mp hpre) hq
    | c :: cs =>
      by_cases hcond : k ≠ [] ∧ k.isPrefixOf (c :: cs)
      · rw [replaceAll_pos k v hcond] at hpre
        by_cases hlen : q.length ≤ v.length
        · exfalso
          have hqv : q <+: v := prefix_append_left hpre hlen
          have hq1 : 0 < q.length := List.length_pos.mpr hq
          have hql : q.length ≤ p.length := hqp.length_le
          refine hA (p.length - q.length) (by omega) ?_
          rw [← suffix_eq_drop hqp]
          exact hqv
        · exfalso
          push_neg at hlen
          have hvq : v <+: q := (prefix_append_long hpre (le_of_lt hlen)).1
          exact hB (hvq.isInfix.trans hqp.isInfix)
      · rw [replaceAll_neg k v hcond] at hpre
        match q, hq with
        | d :: q', _ =>
          obtain ⟨rfl, hpre'⟩ := List.cons_prefix_cons.mp hpre
          by_cases hq' : q' = []
          · subst hq'
            simp
          · have hcs : cs.length ≤ n := by
              simpa using Nat.lt_succ_iff.mp (Nat.lt_of_lt_of_le (by simp) hs)
            have := ih cs q' hcs hq' (suffix_tail hqp) hpre'
            exact List.cons_prefix_cons.mpr ⟨rfl, this⟩

/-- not_infix_replaceAll: if p does not occur in the input (or p is the very
    word being replaced), and p cannot overlap the replacement v in any way,
    then p does not occur in the output of replaceAll. -/
theorem not_infix_replaceAll (k v p : Str) (hp : p ≠ [])
    (h1 : ¬ p <:+: v)
    (hA : ∀ i, i < p.length → ¬ p.drop i <+: v)
    (hB : ¬ v <:+: p)
    (hC : ∀ i, 0 < i → i < p.length → ¬ p.take i <:+ v) :
    ∀ n s, s.length ≤ n → (k = p ∨ ¬ p <:+: s) → ¬ p <:+: replaceAll k v s := by
  intro n
  induction n with
  | zero =>
    intro s hs _ hinf
    have hsn : s = [] := List.eq_nil_of_length_eq_zero (Nat.le_zero.mp hs)
    subst hsn
    rw [replaceAll_nil] at hinf
    exact hp (List.eq_nil_of_infix_nil hinf)
  | succ n ih =>
    intro s hs hd hinf
    match s with
    | [] =>
      rw [replaceAll_nil] at hinf
      exact hp (List.eq_nil_of_infix_nil hinf)
    | c :: cs =>
      by_cases hcond : k ≠ [] ∧ k.isPrefixOf (c :: cs)
      · rw [replaceAll_pos k v hcond] at hinf
        rcases infix_append_split hinf with hv | hrest | ⟨i, hi0, hil, htk, _⟩
        · exact h1 hv
        · have hk1 : k.length ≠ 0 := by simpa using hcond.1
          have hlen : ((c :: cs).drop k.length).length ≤ n := by
            simp only [List.length_drop, List.length_cons]
            simp only [List.length_cons] at hs
            omega
          refine ih ((c :: cs).drop k.length) hlen ?_ hrest
          rcases hd with hkp | hns
          · exact Or.inl hkp
          · exact Or.inr fun hx => hns (hx.trans (List.drop_suffix _ _).isInfix)
        · exact hC i hi0 hil htk
      · rw [replaceAll_neg k v hcond] at hinf
        have hself : ¬ p <+: (c :: cs) := by
          intro hps
          rcases hd with hkp | hns
          · subst hkp
            exact hcond ⟨hp, List.isPrefixOf_iff_prefix.mpr hps⟩
          · exact hns hps.isInfix
        rcases List.infix_cons_iff.mp hinf with hpre | htail
        · match p, hp with
          | d :: p', _ =>
            obtain ⟨rfl, hpre'⟩ := List.cons_prefix_cons.mp hpre
            by_cases hp' : p' = []
            · subst hp'
              exact hself (List.cons_prefix_cons.mpr ⟨rfl, List.nil_prefix⟩)
            · have hcs : cs.length ≤ n := by
                simpa using Nat.lt_succ_iff.mp (Nat.lt_of_lt_of_le (by simp) hs)
              have hsuf : p' <:+ d :: p' := ⟨[d], rfl⟩
              have := prefix_through_replaceAll k v (d :: p') hA hB n cs p' hcs hp' hsuf hpre'
              exact hself (List.cons_prefix_cons.mpr ⟨rfl, this⟩)
        · have hcs : cs.length ≤ n := by
            simpa using Nat.lt_succ_iff.mp (Nat.lt_of_lt_of_le (by simp) hs)
          refine ih cs hcs ?_ htail
          rcases hd with hkp | hns
          · exact Or.inl hkp
          · exact Or.inr fun hx => hns (hx.trans (List.infix_cons_iff.mpr (Or.inr List.infix_rfl)))

/-- infix_replaceAll_self: when the replaced word k occurs in the input, the
    replacement v occurs in the output. -/
theorem infix_replaceAll_self (k v : Str) (hk : k ≠ []) :
    ∀ n s, s.length ≤ n → k <:+: s → v <:+: replaceAll k v s := by
  intro n
  induction n with
  | zero =>
    intro s hs hin
    have hsn : s = [] := List.eq_nil_of_length_eq_zero (Nat.le_zero.mp hs)
    subst hsn
    exact absurd (List.eq_nil_of_infix_nil hin) hk
  | succ n ih =>
    intro s hs hin
    match s with
    | [] => exact absurd (List.eq_nil_of_infix_nil hin) hk
    | c :: cs =>
      by_cases hcond : k ≠ [] ∧ k.isPrefixOf (c :: cs)
      · rw [replaceAll_pos k v hcond]
        exact (List.prefix_append v _).isInfix
      · rw [replaceAll_neg k v hcond]
        rcases List.infix_cons_iff.mp hin with hpre | htail
        · exact absurd ⟨hk, List.isPrefixOf_iff_prefix.mpr hpre⟩ hcond
        · have hcs : cs.length ≤ n := by
            simpa using Nat.lt_succ_iff.mp (Nat.lt_of_lt_of_le (by simp) hs)
          exact (ih cs hcs htail).trans (List.infix_cons_iff.mpr (Or.inr List.infix_rfl))

/-- prefix_keep_replaceAll: a nonempty suffix of u that is a prefix of the
    input stays a prefix of the output, provided u cannot overlap the
    replaced word k. -/
theorem prefix_keep_replaceAll (k v u : Str)
    (hT : ∀ i, i < u.length → ¬ u.drop i <+: k)
    (hb : ¬ k <:+: u) :
    ∀ n s q, s.length ≤ n → q ≠ [] → q <:+ u → q <+: s → q <+: replaceAll k v s := by
  intro n
  induction n with
  | zero =>
    intro s q hs hq _ hpre
    have hsn : s = [] := List.eq_nil_of_length_eq_zero (Nat.le_zero.mp hs)
    subst hsn
    exact absurd (List.prefix_nil.mp hpre) hq
  | succ n ih =>
    intro s q hs hq hqu hpre
    match s with
    | [] => exact absurd (List.prefix_nil.mp hpre) hq
    | c :: cs =>
      by_cases hcond : k ≠ [] ∧ k.isPrefixOf (c :: cs)
      · exfalso
        have hks : k <+: c :: cs := List.isPrefixOf_iff_prefix.mp hcond.2
        by_cases hlen : q.length ≤ k.length
        · have hqk : q <+: k := List.prefix_of_prefix_length_le hpre hks hlen
          have hq1 : 0 < q.length := List.length_pos.mpr hq
          have hql : q.length ≤ u.length := hqu.length_le
          refine hT (u.length - q.length) (by omega) ?_
          rw [← suffix_eq_drop hqu]
          exact hqk
        · push_neg at hlen
          have hkq : k <+: q := List.prefix_of_prefix_length_le hks hpre (le_of_lt hlen)
          exact hb (hkq.isInfix.trans hqu.isInfix)
      · rw [replaceAll_neg k v hcond]
        match q, hq with
        | d :: q', _ =>
          obtain ⟨rfl, hpre'⟩ := List.cons_prefix_cons.mp hpre
          by_cases hq' : q' = []
          · subst hq'
            simp
          · have hcs : cs.length ≤ n := by
              simpa using Nat.lt_succ_iff.mp (Nat.lt_of_lt_of_le (by simp) hs)
            have := ih cs q' hcs hq' (suffix_tail hqu) hpre'
            exact List.cons_prefix_cons.mpr ⟨rfl, this⟩

/-- infix_replaceAll_preserve: an occurrence of u in the input survives
    replaceAll when u cannot overlap the replaced word k in any way. -/
theorem infix_replaceAll_preserve (k v u : Str) (hu : u ≠ [])
    (ha : ¬ u <:+: k) (hb : ¬ k <:+: u)
    (hT : ∀ i, i < u.length → ¬ u.drop i <+: k)
    (hK : ∀ i, 0 < i → i < k.length → ¬ k.drop i <+: u) :
    ∀ n s, s.length ≤ n → u <:+: s → u <:+: replaceAll k v s := by
  intro n
  induction n with
  | zero =>
    intro s hs hin
    have hsn : s = [] := List.eq_nil_of_length_eq_zero (Nat.le_zero.mp hs)
    subst hsn
    exact absurd (List.eq_nil_of_infix_nil hin) hu
  | succ n ih =>
    intro s hs hin
    match s with
    | [] => exact absurd (List.eq_nil_of_infix_nil hin) hu
    | c :: cs =>
      by_cases hcond : k ≠ [] ∧ k.isPrefixOf (c :: cs)
      · have hks : k <+: c :: cs := List.isPrefixOf_iff_prefix.mp hcond.2
        have hk1 : k.length ≠ 0 := by simpa using hcond.1
        rw [replaceAll_pos k v hcond]
        obtain ⟨i, hi⟩ := (infix_iff_drop u (c :: cs)).mp hin
        by_cases hik : i < k.length
        · rcases Nat.eq_zero_or_pos i with rfl | hi0
          · exfalso
            simp only [List.drop_zero] at hi
            by_cases hlen : u.length ≤ k.length
            · exact ha (List.prefix_of_prefix_length_le hi hks hlen).isInfix
            · push_neg at hlen
              exact hb (List.prefix_of_prefix_length_le hks hi (le_of_lt hlen)).isInfix
          · exfalso
            obtain ⟨t, ht⟩ := hks
            have hdk : (c :: cs).drop i = k.drop i ++ t := by
              rw [← ht, List.drop_append_eq_append_drop,
                Nat.sub_eq_zero_of_le (le_of_lt hik), List.drop_zero]
            rw [hdk] at hi
            have hkd : k.drop i <+: k.drop i ++ t := List.prefix_append _ _
            by_cases hlen : (k.drop i).length ≤ u.length
            · refine hK i hi0 hik ?_
              exact List.prefix_of_prefix_length_le hkd hi hlen
            · push_neg at hlen
              have : u <+: k.drop i :=
                List.prefix_of_prefix_length_le hi hkd (le_of_lt hlen)
              exact ha (this.isInfix.trans (List.drop_suffix i k).isInfix)
        · push_neg at hik
          have hrec : u <:+: (c :: cs).drop k.length := by
            rw [infix_iff_drop]
            refine ⟨i - k.length, ?_⟩
            rw [List.drop_drop]
            have heq : k.length + (i - k.length) = i := by omega
            rw [heq]
            exact hi
          have hlen2 : ((c :: cs).drop k.length).length ≤ n := by
            simp only [List.length_drop, List.length_cons]
            simp only [List.length_cons] at hs
            omega
          exact (ih _ hlen2 hrec).trans (List.suffix_append v _).isInfix
      · rw [replaceAll_neg k v hcond]
        rcases List.infix_cons_iff.mp hin with hpre | htail
        · match u, hu with
          | d :: u', _ =>
            obtain ⟨rfl, hpre'⟩ := List.cons_prefix_cons.mp hpre
            by_cases hu' : u' = []
            · subst hu'
              exact (List.cons_prefix_cons.mpr ⟨rfl, List.nil_prefix⟩).isInfix
            · have hcs : cs.length ≤ n := by
                simpa using Nat.lt_succ_iff.mp (Nat.lt_of_lt_of_le (by simp) hs)
              have hsuf : u' <:+ d :: u' := ⟨[d], rfl⟩
              have := prefix_keep_replaceAll k v (d :: u') hT hb n cs u' hcs hu' hsuf hpre'
              exact (List.cons_prefix_cons.mpr ⟨rfl, this⟩).isInfix
        · have hcs : cs.length ≤ n := by
            simpa using Nat.lt_succ_iff.mp (Nat.lt_of_lt_of_le (by simp) hs)
          exact (ih cs hcs htail).trans (List.infix_cons_iff.mpr (Or.inr List.infix_rfl))

theorem charDisj_conds {p v : Str} (hp : p ≠ []) (hv : v ≠ []) (hd : charDisjoint p v) :
    ¬ p <:+: v ∧ (∀ i, i < p.length → ¬ p.drop i <+: v) ∧ ¬ v <:+: p ∧
      (∀ i, 0 < i → i < p.length → ¬ p.take i <:+ v) := by
  refine ⟨?_, ?_, ?_, ?_⟩
  · intro h
    exact hd (p.head hp) (List.head_mem hp) (h.subset (List.head_mem hp))
  · intro i hi h
    have hne : p.drop i ≠ [] := by
      intro hx
      rw [List.drop_eq_nil_iff_le] at hx
      omega
    have hmem : (p.drop i).head hne ∈ p := (List.drop_suffix i p).subset (List.head_mem hne)
    exact hd _ hmem (h.subset (List.head_mem hne))
  · intro h
    exact hd (v.head hv) (h.subset (List.head_mem hv)) (List.head_mem hv)
  · intro i hi0 _ h
    have hne : p.take i ≠ [] := by
      simp only [ne_eq, List.take_eq_nil_iff, not_or]
      exact ⟨by omega, hp⟩
    have hmem : (p.take i).head hne ∈ p := (List.take_prefix i p).subset (List.head_mem hne)
    exact hd _ hmem (h.subset (List.head_mem hne))

theorem not_infix_replaceAll_of_charDisj {k v p : Str} (hp : p ≠ []) (hv : v ≠ [])
    (hd : charDisjoint p v) (s : Str) (hs : ¬ p <:+: s) :
    ¬ p <:+: replaceAll k v s := by
  obtain ⟨h1, hA, hB, hC⟩ := charDisj_conds hp hv hd
  exact not_infix_replaceAll k v p hp h1 hA hB hC s.length s le_rfl (Or.inr hs)

theorem not_infix_replaceAll_self_pair {p v : Str} (hp : p ≠ [])
    (h1 : ¬ p <:+: v)
    (hA : ∀ i, i < p.length → ¬ p.drop i <+: v)
    (hB : ¬ v <:+: p)
    (hC : ∀ i, 0 < i → i < p.length → ¬ p.take i <:+ v) (s : Str) :
    ¬ p <:+: replaceAll p v s :=
  not_infix_replaceAll p v p hp h1 hA hB hC s.length s le_rfl (Or.inl rfl)

theorem infix_replaceAll_keep {k v u : Str} (hu : u ≠ [])
    (ha : ¬ u <:+: k) (hb : ¬ k <:+: u)
    (hT : ∀ i, i < u.length → ¬ u.drop i <+: k)
    (hK : ∀ i, 0 < i → i < k.length → ¬ k.drop i <+: u)
    (s : Str) (h : u <:+: s) : u <:+: replaceAll k v s :=
  infix_replaceAll_preserve k v u hu ha hb hT hK s.length s le_rfl h

theorem infix_replaceAll_inserted {k v : Str} (hk : k ≠ []) (s : Str)
    (h : k <:+: s) : v <:+: replaceAll k v s :=
  infix_replaceAll_self k v hk s.length s le_rfl h

namespace ContextAnalyzer

/-- intentPatterns, in source enumeration order.  Every source pattern is a
    literal (the regex /\?/ is the literal question mark), so a non-global
    match contributes 1 to the score exactly when the literal occurs. -/
def intentPatterns : List (String × List Str) := [
  ("request", [lit "して", lit "してください", lit "お願い", lit "頼む", lit "やって",
    lit "確認", lit "チェック", lit "見て", lit "教えて", lit "送って", lit "作って",
    lit "修正", lit "対応", lit "処理"]),
  ("question", [lit "?", lit "？", lit "どう", lit "いかが", lit "どこ", lit "いつ",
    lit "なぜ", lit "なに", lit "どれ", lit "大丈夫", lit "可能", lit "できる",
    lit "わかる", lit "知って"]),
  ("report", [lit "報告", lit "お知らせ", lit "完了", lit "終了", lit "済み",
    lit "できました", lit "しました", lit "進捗", lit "状況", lit "結果",
    lit "について", lit "件で"]),
  ("apology", [lit "すみません", lit "申し訳", lit "ごめん", lit "失礼", lit "遅れ",
    lit "ミス", lit "間違い", lit "忘れ", lit "できません", lit "困って"]),
  ("greeting", [lit "おはよう", lit "こんにちは", lit "こんばんは", lit "お疲れ",
    lit "失礼します", lit "よろしく", lit "ありがとう", lit "感謝"]),
  ("complaint", [lit "問題", lit "困る", lit "おかしい", lit "変", lit "ダメ",
    lit "不具合", lit "エラー", lit "動かない", lit "できない", lit "遅い"])]

/-- countMatches scores a pattern set against a text: each pattern is tested
    with a non-global match, contributing 0 or 1. -/
def countMatches (text : Str) (pats : List Str) : Nat :=
  pats.countP (fun p => containsB text p)

/-- firstMaxLabel is the shared body of analyzeIntent and
    estimateRelationship: take the maximum score, return "unknown" when it is
    zero, otherwise the first label attaining it (Object.keys(...).find). -/
def firstMaxLabel (scores : List (String × Nat)) : String :=
  let maxScore : Nat := (scores.map (fun sc => sc.2)).foldr max 0
  if maxScore = 0 then "unknown"
  else ((scores.find? (fun sc => sc.2 = maxScore)).map (fun sc => sc.1)).getD "unknown"

def analyzeIntent (text : Str) : String :=
  firstMaxLabel (intentPatterns.map (fun kv => (kv.1, countMatches text kv.2)))

def urgencyIndicators : List (String × List Str) := [
  ("urgent", [lit "急", lit "緊急", lit "至急", lit "ASAP", lit "今すぐ", lit "すぐに",
    lit "早く", lit "急いで", lit "待って", lit "ヤバい", lit "マジで", lit "本当に",
    lit "大変", lit "危険"]),
  ("normal", [lit "よろしく", lit "お願い", lit "いつでも", lit "可能でしたら",
    lit "お時間"]),
  ("relaxed", [lit "ゆっくり", lit "のんびり", lit "空いてる時", lit "余裕",
    lit "後で", lit "今度", lit "いつか", lit "そのうち"])]

def detectUrgency (text : Str) : String :=
  ((urgencyIndicators.findSome? (fun kv =>
    if kv.2.any (fun p => containsB text p) then some kv.1 else none)).getD "normal")

def relationshipIndicators : List (String × List Str) := [
  ("superior", [lit "部長", lit "課長", lit "社長", lit "お疲れ様", lit "恐れ入り",
    lit "失礼", lit "申し訳", lit "いつもお世話", lit "ありがとうございます"]),
  ("colleague", [lit "さん", lit "君", lit "よろしく", lit "一緒に", lit "手伝",
    lit "相談", lit "どう思う"]),
  ("subordinate", [lit "頼む", lit "やって", lit "確認して", lit "急いで",
    lit "大丈夫？"]),
  ("customer", [lit "お客", lit "ご利用", lit "サービス", lit "お問い合わせ",
    lit "ご質問", lit "ご不明"])]

def estimateRelationship (text : Str) : String :=
  firstMaxLabel (relationshipIndicators.map (fun kv => (kv.1, countMatches text kv.2)))

def businessKeywords : List Str := [lit "会議", lit "資料", lit "企画",
  lit "プロジェクト", lit "売上", lit "予算", lit "契約", lit "クライアント",
  lit "顧客", lit "営業", lit "部署", lit "チーム"]

def technicalKeywords : List Str := [lit "システム", lit "アプリ", lit "サーバー",
  lit "データベース", lit "API", lit "バグ", lit "デプロイ", lit "テスト",
  lit "実装", lit "設計"]

def casualKeywords : List Str := [lit "飲み", lit "ランチ", lit "休憩", lit "趣味",
  lit "映画", lit "ゲーム", lit "旅行", lit "週末", lit "プライベート"]

def detectSituation (text : Str) : String :=
  if businessKeywords.any (fun p => containsB text p) then "business"
  else if technicalKeywords.any (fun p => containsB text p) then "technical"
  else if casualKeywords.any (fun p => containsB text p) then "casual"
  else "general"

def formalIndicators : List Str := [lit "です", lit "ます", lit "ございます",
  lit "いただき", lit "いたします", lit "申し上げ", lit "恐れ入り", lit "失礼",
  lit "お世話になっております"]

def casualIndicators : List Str := [lit "だよ", lit "だね", lit "じゃん", lit "って",
  lit "やつ", lit "すげー", lit "マジで", lit "ヤバい", lit "オッケー"]

def assessFormality (text : Str) : String :=
  let s : Int := 2 * (countMatches text formalIndicators : Int) -
    3 * (countMatches text casualIndicators : Int)
  if s ≥ 3 then "very-formal"
  else if s ≥ 1 then "formal"
  else if s ≥ -2 then "neutral"
  else if s ≥ -5 then "casual"
  else "very-casual"

def timePatterns : List (String × List Str) := [
  ("morning", [lit "おはよう", lit "朝", lit "午前", lit "今朝"]),
  ("afternoon", [lit "こんにちは", lit "午後", lit "昼", lit "ランチ"]),
  ("evening", [lit "こんばんは", lit "夕方", lit "夜", lit "お疲れ様"]),
  ("general", [lit "今日", lit "明日", lit "昨日", lit "今週", lit "来週"])]

def timeFromText (text : Str) : Option String :=
  timePatterns.findSome? (fun kv =>
    if kv.2.any (fun p => containsB text p) then some kv.1 else none)

/-- detectTimeContext takes the ambient clock hour explicitly: the source
    falls back to new Date().getHours() when no textual time indicator
    matches. -/
def detectTimeContext (hour : Nat) (text : Str) : String :=
  match timeFromText text with
  | some t => t
  | none => if hour < 12 then "morning" else if hour < 18 then "afternoon" else "evening"

def casualWordList : List Str := [lit "アプデ", lit "バグ", lit "レス", lit "リスケ",
  lit "ググる", lit "ヤバい", lit "マジで", lit "やって", lit "して", lit "ダメ",
  lit "オッケー", lit "NG", lit "OK", lit "チェック"]

def findCasualWords (text : Str) : List Str :=
  casualWordList.filter (fun w => containsB text w)

structure NeedsImp where
  needsImprovement : Bool
  issues : List String
  severity : Option String
deriving DecidableEq, Repr

def headIsCasualCmd (text : Str) : Bool :=
  match text with
  | [] => false
  | c :: _ => c = 'や' || c = 'し' || c = 'て'

def needsImprovement (text : Str) : NeedsImp :=
  let issues : List String :=
    (if findCasualWords text ≠ [] then ["casual_language"] else []) ++
    (if ¬ (containsB text (lit "お疲れ") || containsB text (lit "よろしく") ||
        containsB text (lit "ありがとう") || containsB text (lit "すみません")) = true
      then ["lacks_politeness_markers"] else []) ++
    (if text.length < 10 then ["too_brief"] else []) ++
    (if headIsCasualCmd text then ["too_direct"] else [])
  { needsImprovement := issues.length > 0
    issues := issues
    severity := some (if issues.length ≥ 3 then "high"
      else if issues.length ≥ 1 then "medium" else "low") }

structure Context where
  intent : String
  urgency : String
  relationship : String
  situation : String
  formalityLevel : String
  timeContext : String
  needsImprovement : NeedsImp
  casualWords : List Str
deriving DecidableEq, Repr

def analyzeContext (hour : Nat) (text : Str) : Context :=
  { intent := analyzeIntent text
    urgency := detectUrgency text
    relationship := estimateRelationship text
    situation := detectSituation text
    formalityLevel := assessFormality text
    timeContext := detectTimeContext hour text
    needsImprovement := needsImprovement text
    casualWords := findCasualWords text }

def generateSuggestions (ctx : Context) : List String :=
  (if ctx.needsImprovement.issues.contains "casual_language"
    then ["カジュアルな表現をより丁寧な言葉に変換することをお勧めします"] else []) ++
  (if ctx.needsImprovement.issues.contains "lacks_politeness_markers"
    then ["挨拶や締めの言葉を追加すると、より丁寧な印象になります"] else []) ++
  (if ctx.needsImprovement.issues.contains "too_brief"
    then ["もう少し詳しい説明を加えると、相手に気遣いが伝わります"] else []) ++
  (if ctx.needsImprovement.issues.contains "too_direct"
    then ["直接的な表現を柔らかい依頼形に変更することをお勧めします"] else [])

end ContextAnalyzer

theorem foldr_max_le (l : List Nat) : ∀ x ∈ l, x ≤ l.foldr max 0 := by
  induction l with
  | nil => simp
  | cons y ys ih =>
    intro x hx
    rcases List.mem_cons.mp hx with rfl | hmem
    · exact le_max_left _ _
    · exact (ih x hmem).trans (le_max_right _ _)

theorem foldr_max_mem (l : List Nat) (h : l.foldr max 0 ≠ 0) : l.foldr max 0 ∈ l := by
  induction l with
  | nil => simp at h
  | cons y ys ih =>
    simp only [List.foldr_cons] at h ⊢
    rcases le_total (ys.foldr max 0) y with hle | hle
    · rw [max_eq_left hle]
      exact List.mem_cons_self _ _
    · rw [max_eq_right hle] at h ⊢
      exact List.mem_cons_of_mem _ (ih h)

theorem find?_split {α : Type} (p : α → Bool) (l : List α) (a : α)
    (h : l.find? p = some a) :
    ∃ l1 l2, l = l1 ++ a :: l2 ∧ (∀ x ∈ l1, p x = false) ∧ p a = true := by
  induction l with
  | nil => simp [List.find?] at h
  | cons x xs ih =>
    rw [List.find?] at h
    cases hp : p x with
    | true =>
      rw [hp] at h
      simp only [Option.some.injEq] at h
      subst h
      exact ⟨[], xs, rfl, by simp, hp⟩
    | false =>
      rw [hp] at h
      simp only at h
      obtain ⟨l1, l2, rfl, hall, hpa⟩ := ih h
      refine ⟨x :: l1, l2, rfl, ?_, hpa⟩
      intro y hy
      rcases List.mem_cons.mp hy with rfl | hmem
      · exact hp
      · exact hall y hmem

/-- firstMaxLabel_spec characterises the label choice: either every score is
    zero and the label is "unknown", or the label is the first entry whose
    score attains the (positive) maximum. -/
theorem firstMaxLabel_spec (scores : List (String × Nat)) :
    (ContextAnalyzer.firstMaxLabel scores = "unknown" ∧ ∀ sc ∈ scores, sc.2 = 0) ∨
    (∃ p1 p2 sc0, scores = p1 ++ sc0 :: p2 ∧
      ContextAnalyzer.firstMaxLabel scores = sc0.1 ∧ 0 < sc0.2 ∧
      (∀ sc ∈ scores, sc.2 ≤ sc0.2) ∧ (∀ sc ∈ p1, sc.2 < sc0.2)) := by
  unfold ContextAnalyzer.firstMaxLabel
  by_cases hz : (scores.map (fun sc => sc.2)).foldr max 0 = 0
  · left
    refine ⟨by rw [if_pos hz], ?_⟩
    intro sc hsc
    have := foldr_max_le (scores.map (fun sc => sc.2)) sc.2
      (List.mem_map_of_mem _ hsc)
    omega
  · right
    have hmem := foldr_max_mem _ hz
    obtain ⟨sc1, hsc1, hval⟩ := List.mem_map.mp hmem
    have hsome : (scores.find? (fun sc =>
        sc.2 = (scores.map (fun sc => sc.2)).foldr max 0)).isSome := by
      rw [List.find?_isSome]
      exact ⟨sc1, hsc1, by simp [hval]⟩
    obtain ⟨sc0, hfind⟩ := Option.isSome_iff_exists.mp hsome
    obtain ⟨p1, p2, rfl, hfalse, htrue⟩ := find?_split _ _ _ hfind
    have hsc0 : sc0.2 = ((p1 ++ sc0 :: p2).map (fun sc => sc.2)).foldr max 0 := by
      simpa using htrue
    refine ⟨p1, p2, sc0, rfl, ?_, ?_, ?_, ?_⟩
    · rw [if_neg hz, hfind]
      rfl
    · omega
    · intro sc hsc
      have := foldr_max_le ((p1 ++ sc0 :: p2).map (fun sc => sc.2)) sc.2
        (List.mem_map_of_mem _ hsc)
      omega
    · intro sc hsc
      have hne : ¬ (sc.2 = ((p1 ++ sc0 :: p2).map (fun sc => sc.2)).foldr max 0) := by
        simpa using hfalse sc hsc
      have hle := foldr_max_le ((p1 ++ sc0 :: p2).map (fun sc => sc.2)) sc.2
        (List.mem_map_of_mem _ (by simp [hsc] : sc ∈ p1 ++ sc0 :: p2))
      omega

theorem firstMaxLabel_mem (scores : List (String × Nat)) :
    ContextAnalyzer.firstMaxLabel scores = "unknown" ∨
      ∃ sc ∈ scores, ContextAnalyzer.firstMaxLabel scores = sc.1 := by
  rcases firstMaxLabel_spec scores with ⟨h, _⟩ | ⟨p1, p2, sc0, rfl, h, _⟩
  · exact Or.inl h
  · exact Or.inr ⟨sc0, by simp, h⟩

theorem findSome?_getD_cases {α β : Type} (f : α → Option β) (l : List α) (d : β) :
    (l.findSome? f).getD d = d ∨ ∃ a ∈ l, f a = some ((l.findSome? f).getD d) := by
  induction l with
  | nil => simp [List.findSome?]
  | cons x xs ih =>
    rw [List.findSome?_cons]
    cases hfx : f x with
    | none =>
      rcases ih with h | ⟨a, ha, hfa⟩
      · exact Or.inl h
      · exact Or.inr ⟨a, List.mem_cons_of_mem _ ha, hfa⟩
    | some b =>
      exact Or.inr ⟨x, List.mem_cons_self _ _, by simp [hfx]⟩

theorem map_eq_append_cons {α β : Type} (g : α → β) (l : List α) (p1 p2 : List β)
    (b : β) (h : l.map g = p1 ++ b :: p2) :
    ∃ l1 a l2, l = l1 ++ a :: l2 ∧ l1.map g = p1 ∧ g a = b ∧ l2.map g = p2 := by
  induction l generalizing p1 with
  | nil => simp at h
  | cons x xs ih =>
    cases p1 with
    | nil =>
      simp only [List.map_cons, List.nil_append, List.cons.injEq] at h
      exact ⟨[], x, xs, rfl, rfl, h.1, h.2⟩
    | cons y ys =>
      simp only [List.map_cons, List.cons_append, List.cons.injEq] at h
      obtain ⟨l1, a, l2, rfl, hm1, hga, hm2⟩ := ih ys h.2
      exact ⟨x :: l1, a, l2, rfl, by simp [h.1, hm1], hga, hm2⟩

/-- Claim C3 counterexample: on the empty string every intent score is zero
    and analyzeIntent returns "unknown", which is not among the eight intent
    values enumerated by the claim (the code has no appreciation or general
    intent category). -/
theorem c3_counterexample :
    ContextAnalyzer.analyzeIntent [] = "unknown" ∧
    "unknown" ∉ (["request", "question", "report", "apology", "greeting",
      "complaint", "appreciation", "general"] : List String) := by
  exact ⟨rfl, by decide⟩

/-- Claim C3, amended: analyzeContext is total and each of the five
    categorical fields takes one of its enumerated values, where the intent
    enumeration is request, question, report, apology, greeting, complaint or
    unknown; the intent is chosen by highest pattern-match count, the all-zero
    case yields unknown, and ties are broken by source enumeration order. -/
theorem c3_intent_enumeration : ∀ (hour : Nat) (text : Str),
    (ContextAnalyzer.analyzeContext hour text).intent ∈
      (["request", "question", "report", "apology", "greeting", "complaint",
        "unknown"] : List String) ∧
    (ContextAnalyzer.analyzeContext hour text).urgency ∈
      (["urgent", "normal", "relaxed"] : List String) ∧
    (ContextAnalyzer.analyzeContext hour text).relationship ∈
      (["superior", "colleague", "subordinate", "customer", "unknown"] : List String) ∧
    (ContextAnalyzer.analyzeContext hour text).situation ∈
      (["business", "technical", "casual", "general"] : List String) ∧
    (ContextAnalyzer.analyzeContext hour text).formalityLevel ∈
      (["very-formal", "formal", "neutral", "casual", "very-casual"] : List String) ∧
    ((∀ kv ∈ ContextAnalyzer.intentPatterns,
        ContextAnalyzer.countMatches text kv.2 = 0) →
      (ContextAnalyzer.analyzeContext hour text).intent = "unknown") ∧
    ((∃ kv ∈ ContextAnalyzer.intentPatterns,
        ContextAnalyzer.countMatches text kv.2 ≠ 0) →
      ∃ pre post kv0, ContextAnalyzer.intentPatterns = pre ++ kv0 :: post ∧
        (ContextAnalyzer.analyzeContext hour text).intent = kv0.1 ∧
        (∀ kv ∈ ContextAnalyzer.intentPatterns,
          ContextAnalyzer.countMatches text kv.2 ≤ ContextAnalyzer.countMatches text kv0.2) ∧
        (∀ kv ∈ pre,
          ContextAnalyzer.countMatches text kv.2 < ContextAnalyzer.countMatches text kv0.2)) := by
  intro hour text
  have hproj : (ContextAnalyzer.analyzeContext hour text).intent =
      ContextAnalyzer.analyzeIntent text := rfl
  refine ⟨?_, ?_, ?_, ?_, ?_, ?_, ?_⟩
  · rw [hproj]
    unfold ContextAnalyzer.analyzeIntent
    rcases firstMaxLabel_mem (ContextAnalyzer.intentPatterns.map
        (fun kv => (kv.1, ContextAnalyzer.countMatches text kv.2))) with h | ⟨sc, hsc, h⟩
    · rw [h]; decide
    · rw [h]
      obtain ⟨kv, hkv, rfl⟩ := List.mem_map.mp hsc
      fin_cases hkv <;> simp
  · show ContextAnalyzer.detectUrgency text ∈ _
    unfold ContextAnalyzer.detectUrgency
    rcases findSome?_getD_cases (fun kv : String × List Str =>
        if kv.2.any (fun p => containsB text p) then some kv.1 else none)
        ContextAnalyzer.urgencyIndicators "normal" with h | ⟨a, ha, hfa⟩
    · rw [h]; decide
    · by_cases hc : a.2.any (fun p => containsB text p)
      · rw [if_pos hc] at hfa
        have heq : _ = a.1 := (Option.some.injEq _ _).mp hfa.symm
        rw [heq]
        fin_cases ha <;> simp
      · rw [if_neg hc] at hfa
        exact absurd hfa (by simp)
  · show ContextAnalyzer.estimateRelationship text ∈ _
    unfold ContextAnalyzer.estimateRelationship
    rcases firstMaxLabel_mem (ContextAnalyzer.relationshipIndicators.map
        (fun kv => (kv.1, ContextAnalyzer.countMatches text kv.2))) with h | ⟨sc, hsc, h⟩
    · rw [h]; decide
    · rw [h]
      obtain ⟨kv, hkv, rfl⟩ := List.mem_map.mp hsc
      fin_cases hkv <;> simp
  · show ContextAnalyzer.detectSituation text ∈ _
    unfold ContextAnalyzer.detectSituation
    split
    · decide
    · split
      · decide
      · split <;> decide
  · show ContextAnalyzer.assessFormality text ∈ _
    simp only [ContextAnalyzer.assessFormality]
    split_ifs <;> simp
  · intro hall
    rw [hproj]
    unfold ContextAnalyzer.analyzeIntent
    rcases firstMaxLabel_spec (ContextAnalyzer.intentPatterns.map
        (fun kv => (kv.1, ContextAnalyzer.countMatches text kv.2))) with ⟨h, _⟩ |
        ⟨p1, p2, sc0, heq, _, hpos, _, _⟩
    · exact h
    · exfalso
      have hsc0 : sc0 ∈ ContextAnalyzer.intentPatterns.map
          (fun kv => (kv.1, ContextAnalyzer.countMatches text kv.2)) := by
        rw [heq]; simp
      obtain ⟨kv, hkv, rfl⟩ := List.mem_map.mp hsc0
      have := hall kv hkv
      simp only at hpos
      omega
  · intro ⟨kvw, hkvw, hw⟩
    rw [hproj]
    unfold ContextAnalyzer.analyzeIntent
    rcases firstMaxLabel_spec (ContextAnalyzer.intentPatterns.map
        (fun kv => (kv.1, ContextAnalyzer.countMatches text kv.2))) with ⟨_, hz⟩ |
        ⟨p1, p2, sc0, heq, hlab, _, hub, hlt⟩
    · exfalso
      exact hw (hz _ (List.mem_map_of_mem _ hkvw))
    · obtain ⟨pre, kv0, post, hdec, hm1, hg0, _⟩ :=
        map_eq_append_cons _ ContextAnalyzer.intentPatterns p1 p2 sc0 heq
      refine ⟨pre, post, kv0, hdec, ?_, ?_, ?_⟩
      · rw [hlab, ← hg0]
      · intro kv hkv
        have := hub _ (List.mem_map_of_mem
          (fun kv => (kv.1, ContextAnalyzer.countMatches text kv.2)) hkv)
        rw [← hg0] at this
        exact this
      · intro kv hkv
        have hmem : (fun kv => (kv.1, ContextAnalyzer.countMatches text kv.2)) kv ∈ p1 := by
          rw [← hm1]
          exact List.mem_map_of_mem _ hkv
        have := hlt _ hmem
        rw [← hg0] at this
        exact this

/-- Claim C3 witness: concrete instantiations discharging both conditional
    conjuncts, on the empty string (all-zero case) and on a request text. -/
theorem c3_intent_enumeration_witness :
    ((ContextAnalyzer.analyzeContext 0 []).intent = "unknown") ∧
    (∃ pre post kv0, ContextAnalyzer.intentPatterns = pre ++ kv0 :: post ∧
      (ContextAnalyzer.analyzeContext 0 (lit "確認して")).intent = kv0.1 ∧
      (∀ kv ∈ ContextAnalyzer.intentPatterns,
        ContextAnalyzer.countMatches (lit "確認して") kv.2 ≤
          ContextAnalyzer.countMatches (lit "確認して") kv0.2) ∧
      (∀ kv ∈ pre,
        ContextAnalyzer.countMatches (lit "確認して") kv.2 <
          ContextAnalyzer.countMatches (lit "確認して") kv0.2)) :=
  ⟨(c3_intent_enumeration 0 []).2.2.2.2.2.1 (by decide),
   (c3_intent_enumeration 0 (lit "確認して")).2.2.2.2.2.2 (by decide)⟩

/-- Claim C9 counterexample: on input with no textual time indicator the
    descriptor depends on the ambient clock hour, so analyze is not a pure
    function of its text argument alone. -/
theorem c9_counterexample :
    (ContextAnalyzer.analyzeContext 9 []).timeContext = "morning" ∧
    (ContextAnalyzer.analyzeContext 13 []).timeContext = "afternoon" ∧
    ContextAnalyzer.analyzeContext 9 [] ≠ ContextAnalyzer.analyzeContext 13 [] := by
  exact ⟨rfl, rfl, by decide⟩

/-- Claim C9, amended: analyzeContext performs no I/O and is a pure function
    of its text argument and the ambient clock hour; every field except
    timeContext is independent of the hour, and when the text matches one of
    the fixed time indicator patterns the whole descriptor is independent of
    the hour as well. -/
theorem c9_purity : ∀ (h1 h2 : Nat) (text : Str),
    ((ContextAnalyzer.analyzeContext h1 text).intent =
      (ContextAnalyzer.analyzeContext h2 text).intent ∧
     (ContextAnalyzer.analyzeContext h1 text).urgency =
      (ContextAnalyzer.analyzeContext h2 text).urgency ∧
     (ContextAnalyzer.analyzeContext h1 text).relationship =
      (ContextAnalyzer.analyzeContext h2 text).relationship ∧
     (ContextAnalyzer.analyzeContext h1 text).situation =
      (ContextAnalyzer.analyzeContext h2 text).situation ∧
     (ContextAnalyzer.analyzeContext h1 text).formalityLevel =
      (ContextAnalyzer.analyzeContext h2 text).formalityLevel ∧
     (ContextAnalyzer.analyzeContext h1 text).needsImprovement =
      (ContextAnalyzer.analyzeContext h2 text).needsImprovement ∧
     (ContextAnalyzer.analyzeContext h1 text).casualWords =
      (ContextAnalyzer.analyzeContext h2 text).casualWords) ∧
    ((ContextAnalyzer.timeFromText text).isSome = true →
      ContextAnalyzer.analyzeContext h1 text = ContextAnalyzer.analyzeContext h2 text) := by
  intro h1 h2 text
  refine ⟨⟨rfl, rfl, rfl, rfl, rfl, rfl, rfl⟩, ?_⟩
  intro hsome
  obtain ⟨t, ht⟩ := Option.isSome_iff_exists.mp hsome
  unfold ContextAnalyzer.analyzeContext ContextAnalyzer.detectTimeContext
  rw [ht]

/-- Claim C9 witness: a time-indicating text yields identical descriptors at
    two different clock hours. -/
theorem c9_purity_witness :
    ContextAnalyzer.analyzeContext 0 (lit "今朝") =
      ContextAnalyzer.analyzeContext 13 (lit "今朝") :=
  (c9_purity 0 13 (lit "今朝")).2 (by decide)

/-- Suggestion models the suggestion objects pushed by the converters and the
    engine; fields absent on a given JS object keep their defaults. -/
structure Suggestion where
  type : String
  message : String
  action : Option String := none
  words : List Str := []
  examples : List String := []
deriving DecidableEq, Repr

namespace WordConverter

def words : List (Str × Str) := [
  (lit "アプデ", lit "アップデート"), (lit "バグ", lit "不具合"),
  (lit "レス", lit "お返事"), (lit "リスケ", lit "スケジュール変更"),
  (lit "ググる", lit "検索する"), (lit "ヤバい", lit "大変な状況"),
  (lit "マジで", lit "非常に"), (lit "オッケー", lit "承知いたしました"),
  (lit "NG", lit "お受けできません"), (lit "チェック", lit "確認"),
  (lit "フィックス", lit "修正"), (lit "デバッグ", lit "不具合調査"),
  (lit "リリース", lit "公開"), (lit "デプロイ", lit "配置"),
  (lit "タスク", lit "作業"), (lit "アサイン", lit "担当指定"),
  (lit "アポ", lit "お約束"), (lit "ミーティング", lit "会議"),
  (lit "プレゼン", lit "発表"), (lit "レビュー", lit "確認"),
  (lit "フィードバック", lit "ご意見"), (lit "デッドライン", lit "期限"),
  (lit "スケジュール", lit "予定"), (lit "ステータス", lit "状況"),
  (lit "イシュー", lit "課題"), (lit "リクエスト", lit "ご依頼"),
  (lit "レスポンス", lit "お返事"), (lit "サポート", lit "支援"),
  (lit "ヘルプ", lit "お手伝い")]

def phrases : List (Str × Str) := [
  (lit "やって", lit "やっていただけませんか"), (lit "して", lit "していただけませんか"),
  (lit "確認して", lit "ご確認いただけますでしょうか"),
  (lit "チェックして", lit "お確かめいただけますでしょうか"),
  (lit "教えて", lit "教えていただけませんか"), (lit "送って", lit "お送りいただけませんか"),
  (lit "作って", lit "作成していただけませんか"), (lit "修正して", lit "修正していただけませんか"),
  (lit "対応して", lit "ご対応いただけませんか"), (lit "見て", lit "ご覧いただけませんか"),
  (lit "読んで", lit "お読みいただけませんか"), (lit "連絡して", lit "ご連絡いただけませんか"),
  (lit "報告して", lit "ご報告いただけませんか"), (lit "手伝って", lit "お手伝いいただけませんか"),
  (lit "待って", lit "お待ちいただけませんか"), (lit "変更して", lit "変更していただけませんか"),
  (lit "更新して", lit "更新していただけませんか")]

def contextualBusiness : List (Str × Str) := [
  (lit "やって", lit "お忙しい中恐縮ですが、対応していただけますでしょうか"),
  (lit "確認して", lit "お時間のある際に、ご確認いただけると助かります"),
  (lit "教えて", lit "もしよろしければ、教えていただけませんでしょうか")]

def contextualUrgent : List (Str × Str) := [
  (lit "やって", lit "急ぎで恐縮ですが、対応していただけませんでしょうか"),
  (lit "確認して", lit "至急確認していただけますでしょうか"),
  (lit "教えて", lit "緊急でお聞きしたいことがあるのですが")]

def contextualSuperior : List (Str × Str) := [
  (lit "やって", lit "お忙しい中申し訳ございませんが、対応していただけますでしょうか"),
  (lit "確認して", lit "恐れ入りますが、ご確認いただけますでしょうか"),
  (lit "教えて", lit "不躾な質問で申し訳ございませんが、教えていただけませんでしょうか")]

/-- Conv is one conversion-log entry; count is absent on pattern entries and
    context is present only on phrase entries, mirroring the JS objects. -/
structure Conv where
  type : String
  original : Str
  converted : Str
  count : Option Nat
  reason : String
  context : Option String
deriving DecidableEq, Repr

def wordReason : String := "カジュアルな表現を丁寧な言葉に変換"

/-- passStep is the loop body shared by the word and phrase passes: when the
    key occurs in the current text, replace it globally and append one log
    entry built by mk from the entry and the pre-replacement text. -/
def passStep (mk : Str × Str → Str → Conv) (acc : Str × List Conv)
    (kv : Str × Str) : Str × List Conv :=
  if containsB acc.1 kv.1 then
    (replaceAll kv.1 kv.2 acc.1, acc.2 ++ [mk kv acc.1])
  else acc

def wordEntry (kv : Str × Str) (t : Str) : Conv :=
  { type := "word", original := kv.1, converted := kv.2,
    count := some (countOcc kv.1 t), reason := wordReason, context := none }

def convertWords (text : Str) : Str × List Conv :=
  words.foldl (passStep wordEntry) (text, [])

/-- phraseSetFor builds the phrase map used by the phrase pass: base phrases
    spread with the business, urgent, and superior maps in that order when the
    corresponding context field selects them. -/
def phraseSetFor (ctx : ContextAnalyzer.Context) : List (Str × Str) :=
  let s0 := phrases
  let s1 := if ctx.situation = "business" then jsSpread s0 contextualBusiness else s0
  let s2 := if ctx.urgency = "urgent" then jsSpread s1 contextualUrgent else s1
  if ctx.relationship = "superior" then jsSpread s2 contextualSuperior else s2

def phraseReason : String := "直接的な表現を丁寧な依頼形に変換"

def phraseEntry (ctx : ContextAnalyzer.Context) (kv : Str × Str) (t : Str) : Conv :=
  { type := "phrase", original := kv.1, converted := kv.2,
    count := some (countOcc kv.1 t), reason := phraseReason,
    context := some (ctx.situation ++ " / " ++ ctx.urgency ++ " / " ++
      ctx.relationship) }

def convertPhrases (ctx : ContextAnalyzer.Context) (text : Str) : Str × List Conv :=
  (phraseSetFor ctx).foldl (passStep (phraseEntry ctx)) (text, [])

/-- dotChar is the JS regexp dot: any character except the four line
    terminators. -/
def dotChar (c : Char) : Bool :=
  !(c = '\n' || c = '\r' || c = ' ' || c = ' ')

def occursAtB (pat s : Str) (j : Nat) : Bool := pat.isPrefixOf (s.drop j)

/-- validTailJ L s i j: the regex (.+)L can match at start position i with the
    L occurrence at j (the dot excludes line terminators, and the capture
    needs at least one character). -/
def validTailJ (L s : Str) (i j : Nat) : Bool :=
  decide (i < j) && decide (j + L.length ≤ s.length) && occursAtB L s j &&
    ((s.drop i).take (j - i)).all dotChar

/-- findTailMatch models the JS regex scan for /(.+)L/: earliest start
    position wins and the greedy capture extends to the last feasible L. -/
def findTailMatch (L : Str) (s : Str) : Option (Nat × Nat) :=
  (List.range s.length).findSome? (fun i =>
    ((List.range (s.length + 1)).reverse.find? (fun j => validTailJ L s i j)).map
      (fun j => (i, j)))

theorem findTailMatch_lt {L s : Str} {i j : Nat}
    (h : findTailMatch L s = some (i, j)) : i < j ∧ j + L.length ≤ s.length := by
  obtain ⟨a, _, hfa⟩ := List.exists_of_findSome?_eq_some h
  cases hf : ((List.range (s.length + 1)).reverse.find? (fun j => validTailJ L s a j)) with
  | none => rw [hf] at hfa; simp at hfa
  | some j0 =>
    rw [hf] at hfa
    simp only [Option.map_some', Option.some.injEq, Prod.mk.injEq] at hfa
    obtain ⟨rfl, rfl⟩ := hfa
    have hv := List.find?_some hf
    simp only [validTailJ, Bool.and_eq_true, decide_eq_true_eq] at hv
    exact ⟨hv.1.1.1, hv.1.1.2⟩

def patternEntry (matched converted : Str) (reason : String) : Conv :=
  { type := "pattern", original := matched, converted := converted,
    count := none, reason := reason, context := none }

/-- gReplaceTailAux is the fuelled loop behind gReplaceTail. -/
def gReplaceTailAux (L R : Str) (reason : String) : Nat → Str → Str × List Conv
  | 0, s => (s, [])
  | fuel + 1, s =>
    match findTailMatch L s with
    | none => (s, [])
    | some (i, j) =>
      let rest := gReplaceTailAux L R reason fuel (s.drop (j + L.length))
      (s.take j ++ R ++ rest.1,
       patternEntry ((s.drop i).take (j + L.length - i))
         ((s.drop i).take (j - i) ++ R) reason :: rest.2)

/-- gReplaceTail is String.prototype.replace with a global /(.+)L/ regex whose
    callback returns the capture followed by the literal R, logging one entry
    per match. -/
def gReplaceTail (L R : Str) (reason : String) (s : Str) : Str × List Conv :=
  gReplaceTailAux L R reason s.length s

theorem gReplaceTailAux_congr (L R : Str) (reason : String) :
    ∀ f1 f2 s, s.length ≤ f1 → s.length ≤ f2 →
      gReplaceTailAux L R reason f1 s = gReplaceTailAux L R reason f2 s := by
  intro f1
  induction f1 with
  | zero =>
    intro f2 s h1 _
    have : s = [] := List.eq_nil_of_length_eq_zero (Nat.le_zero.mp h1)
    subst this
    cases f2 <;> rfl
  | succ f ih =>
    intro f2 s h1 h2
    match f2 with
    | 0 =>
      have : s = [] := List.eq_nil_of_length_eq_zero (Nat.le_zero.mp h2)
      subst this
      rfl
    | f2' + 1 =>
      show gReplaceTailAux L R reason (f + 1) s = gReplaceTailAux L R reason (f2' + 1) s
      simp only [gReplaceTailAux]
      cases h : findTailMatch L s with
      | none => rfl
      | some ij =>
        obtain ⟨i, j⟩ := ij
        have hb := findTailMatch_lt h
        have hrec := ih f2' (s.drop (j + L.length))
          (by simp only [List.length_drop]; omega)
          (by simp only [List.length_drop]; omega)
        simp only [hrec]

theorem gReplaceTail_none {L s : Str} (R : Str) (reason : String)
    (h : findTailMatch L s = none) : gReplaceTail L R reason s = (s, []) := by
  match s with
  | [] => rfl
  | c :: cs =>
    show gReplaceTailAux L R reason (cs.length + 1) (c :: cs) = _
    simp only [gReplaceTailAux, h]

theorem gReplaceTail_some {L s : Str} (R : Str) (reason : String) {i j : Nat}
    (h : findTailMatch L s = some (i, j)) :
    gReplaceTail L R reason s =
      (s.take j ++ R ++ (gReplaceTail L R reason (s.drop (j + L.length))).1,
       patternEntry ((s.drop i).take (j + L.length - i))
         ((s.drop i).take (j - i) ++ R) reason ::
         (gReplaceTail L R reason (s.drop (j + L.length))).2) := by
  have hb := findTailMatch_lt h
  match s with
  | [] =>
    exfalso
    rw [show findTailMatch L [] = none from rfl] at h
    exact Option.noConfusion h
  | c :: cs =>
    show gReplaceTailAux L R reason (cs.length + 1) (c :: cs) = _
    simp only [gReplaceTailAux, h]
    have hrec : gReplaceTailAux L R reason cs.length ((c :: cs).drop (j + L.length)) =
        gReplaceTail L R reason ((c :: cs).drop (j + L.length)) := by
      refine gReplaceTailAux_congr L R reason cs.length _ _ ?_ le_rfl
      simp only [List.length_drop, List.length_cons] at *
      omega
    simp only [hrec]

def validWhyJ (s : Str) (i j : Nat) : Bool :=
  occursAtB (lit "なんで") s i && decide (i + 3 < j) && decide (j < s.length) &&
    occursAtB (lit "？") s j && ((s.drop (i + 3)).take (j - (i + 3))).all dotChar

/-- findWhyMatch models the JS regex scan for /なんで(.+)？/. -/
def findWhyMatch (s : Str) : Option (Nat × Nat) :=
  (List.range s.length).findSome? (fun i =>
    ((List.range (s.length + 1)).reverse.find? (fun j => validWhyJ s i j)).map
      (fun j => (i, j)))

theorem findWhyMatch_lt {s : Str} {i j : Nat}
    (h : findWhyMatch s = some (i, j)) : i + 3 < j ∧ j < s.length := by
  obtain ⟨a, _, hfa⟩ := List.exists_of_findSome?_eq_some h
  cases hf : ((List.range (s.length + 1)).reverse.find? (fun j => validWhyJ s a j)) with
  | none => rw [hf] at hfa; simp at hfa
  | some j0 =>
    rw [hf] at hfa
    simp only [Option.map_some', Option.some.injEq, Prod.mk.injEq] at hfa
    obtain ⟨rfl, rfl⟩ := hfa
    have hv := List.find?_some hf
    simp only [validWhyJ, Bool.and_eq_true, decide_eq_true_eq] at hv
    exact ⟨hv.1.1.1.2, hv.1.1.2⟩

def whyReason : String := "カジュアルな質問を丁寧な疑問文に変換"

/-- gReplaceWhyAux is the fuelled loop behind gReplaceWhy. -/
def gReplaceWhyAux : Nat → Str → Str × List Conv
  | 0, s => (s, [])
  | fuel + 1, s =>
    match findWhyMatch s with
    | none => (s, [])
    | some (i, j) =>
      let rest := gReplaceWhyAux fuel (s.drop (j + 1))
      (s.take i ++ lit "なぜ" ++ (s.drop (i + 3)).take (j - (i + 3)) ++
        lit "のでしょうか？" ++ rest.1,
       patternEntry ((s.drop i).take (j + 1 - i))
         (lit "なぜ" ++ (s.drop (i + 3)).take (j - (i + 3)) ++ lit "のでしょうか？")
         whyReason :: rest.2)

/-- gReplaceWhy is replace with the global /なんで(.+)？/ regex, rewriting to
    なぜ, the capture, and のでしょうか？. -/
def gReplaceWhy (s : Str) : Str × List Conv := gReplaceWhyAux s.length s

theorem gReplaceWhyAux_congr :
    ∀ f1 f2 s, s.length ≤ f1 → s.length ≤ f2 →
      gReplaceWhyAux f1 s = gReplaceWhyAux f2 s := by
  intro f1
  induction f1 with
  | zero =>
    intro f2 s h1 _
    have : s = [] := List.eq_nil_of_length_eq_zero (Nat.le_zero.mp h1)
    subst this
    cases f2 <;> rfl
  | succ f ih =>
    intro f2 s h1 h2
    match f2 with
    | 0 =>
      have : s = [] := List.eq_nil_of_length_eq_zero (Nat.le_zero.mp h2)
      subst this
      rfl
    | f2' + 1 =>
      show gReplaceWhyAux (f + 1) s = gReplaceWhyAux (f2' + 1) s
      simp only [gReplaceWhyAux]
      cases h : findWhyMatch s with
      | none => rfl
      | some ij =>
        obtain ⟨i, j⟩ := ij
        have hb := findWhyMatch_lt h
        have hrec := ih f2' (s.drop (j + 1))
          (by simp only [List.length_drop]; omega)
          (by simp only [List.length_drop]; omega)
        simp only [hrec]

theorem gReplaceWhy_none {s : Str} (h : findWhyMatch s = none) :
    gReplaceWhy s = (s, []) := by
  match s with
  | [] => rfl
  | c :: cs =>
    show gReplaceWhyAux (cs.length + 1) (c :: cs) = _
    simp only [gReplaceWhyAux, h]

theorem gReplaceWhy_some {s : Str} {i j : Nat} (h : findWhyMatch s = some (i, j)) :
    gReplaceWhy s =
      (s.take i ++ lit "なぜ" ++ (s.drop (i + 3)).take (j - (i + 3)) ++
        lit "のでしょうか？" ++ (gReplaceWhy (s.drop (j + 1))).1,
       patternEntry ((s.drop i).take (j + 1 - i))
         (lit "なぜ" ++ (s.drop (i + 3)).take (j - (i + 3)) ++ lit "のでしょうか？")
         whyReason :: (gReplaceWhy (s.drop (j + 1))).2) := by
  have hb := findWhyMatch_lt h
  match s with
  | [] =>
    exfalso
    rw [show findWhyMatch [] = none from rfl] at h
    exact Option.noConfusion h
  | c :: cs =>
    show gReplaceWhyAux (cs.length + 1) (c :: cs) = _
    simp only [gReplaceWhyAux, h]
    have hrec : gReplaceWhyAux cs.length ((c :: cs).drop (j + 1)) =
        gReplaceWhy ((c :: cs).drop (j + 1)) := by
      refine gReplaceWhyAux_congr cs.length _ _ ?_ le_rfl
      simp only [List.length_drop, List.length_cons] at *
      omega
    simp only [hrec]

def kanaRange (c : Char) : Bool :=
  ('ぁ' ≤ c && c ≤ 'ん') || ('ァ' ≤ c && c ≤ 'ヶ') || c = 'ー'

def simpleReason : String := "簡潔すぎる表現に丁寧な依頼形を追加"

/-- simpleCore strips the single trailing newline that the JS dollar anchor
    tolerates; simpleTl is that stripped tail. -/
def simpleCore (s : Str) : Str :=
  if s.getLast? = some '\n' then s.dropLast else s

def simpleTl (s : Str) : Str :=
  if s.getLast? = some '\n' then ['\n'] else []

/-- simpleCommand is the /^([ぁ-んァ-ヶー]+)$/g rewrite: the anchors match a
    whole line, where the JS dollar also matches before one trailing newline;
    texts ending in して or やって are returned unchanged and unlogged. -/
def simpleCommand (s : Str) : Str × List Conv :=
  if simpleCore s ≠ [] ∧ (simpleCore s).all kanaRange then
    if (lit "して").isSuffixOf (simpleCore s) || (lit "やって").isSuffixOf (simpleCore s)
      then (s, [])
    else (simpleCore s ++ lit "をお願いします" ++ simpleTl s,
      [patternEntry (simpleCore s) (simpleCore s ++ lit "をお願いします") simpleReason])
  else (s, [])

def handleSpecialPatterns (text : Str) : Str × List Conv :=
  let p1 := gReplaceTail (lit "だっけ？") (lit "でしたでしょうか？")
    "カジュアルな疑問文を丁寧な表現に変換" text
  let p2 := gReplaceTail (lit "じゃん") (lit "ですね")
    "カジュアルな文末を丁寧語に変換" p1.1
  let p3 := gReplaceTail (lit "だよね") (lit "ですよね")
    "カジュアルな同意表現を丁寧語に変換" p2.1
  let p4 := gReplaceTail (lit "って言って") (lit "とお伝えください")
    "カジュアルな伝言表現を丁寧語に変換" p3.1
  let p5 := gReplaceWhy p4.1
  let p6 := simpleCommand p5.1
  (p6.1, p1.2 ++ p2.2 ++ p3.2 ++ p4.2 ++ p5.2 ++ p6.2)

structure WordResult where
  text : Str
  conversions : List Conv
  originalLength : Nat
  convertedLength : Nat
deriving DecidableEq, Repr

def convertText (text : Str) (ctx : ContextAnalyzer.Context) : WordResult :=
  let w := convertWords text
  let p := convertPhrases ctx w.1
  let sp := handleSpecialPatterns p.1
  { text := sp.1
    conversions := w.2 ++ p.2 ++ sp.2
    originalLength := text.length
    convertedLength := sp.1.length }

def casualPatternList : List Str := [lit "やっぱり", lit "やっぱ", lit "てか",
  lit "というか", lit "つーか", lit "まじ", lit "やばい", lit "すげー",
  lit "でかい", lit "ちっちゃい", lit "うざい", lit "むかつく", lit "だりー"]

def dedupFirst (l : List Str) : List Str :=
  l.foldl (fun acc x => if acc.contains x then acc else acc ++ [x]) []

def findCasualWords (text : Str) : List Str :=
  dedupFirst ((words.map Prod.fst).filter (fun w => containsB text w) ++
    casualPatternList.filter (fun p => containsB text p))

def politenessMarkerPats : List Str := [lit "お疲れ", lit "よろしく",
  lit "ありがとう", lit "すみません", lit "恐縮", lit "失礼", lit "お忙しい",
  lit "恐れ入り", lit "申し訳", lit "いつもお世話"]

def isAbrupt (text : Str) : Bool :=
  let hasMarkers := politenessMarkerPats.any (fun p => containsB text p)
  let hasDirectCommands :=
    (match text with
     | [] => false
     | c :: _ => c = 'や' || c = 'し' || c = 'て') ||
    (lit "確認").isPrefixOf text || (lit "送").isPrefixOf text ||
    (lit "作").isPrefixOf text || (lit "修正").isPrefixOf text ||
    (lit "対応").isPrefixOf text
  !hasMarkers && (hasDirectCommands || decide (text.length < 15))

def joinComma (l : List Str) : String :=
  String.intercalate ", " (l.map String.mk)

def getSuggestions (text : Str) (ctx : ContextAnalyzer.Context) : List Suggestion :=
  (let cw := findCasualWords text
   if cw ≠ [] then
     [{ type := "improvement",
        message := "以下のカジュアルな表現が残っています: " ++ joinComma cw,
        words := cw }]
   else []) ++
  (if isAbrupt text then
     [{ type := "tone",
        message := "文章がやや直接的です。クッション言葉を追加することをお勧めします。",
        examples := ["お忙しい中恐縮ですが", "もしよろしければ", "お時間のある時に"] }]
   else []) ++
  (if ctx.urgency = "urgent" ∧ ¬ (containsB text (lit "急") = true) ∧
      ¬ (containsB text (lit "至急") = true) then
     [{ type := "urgency",
        message := "緊急性を示す表現を追加することをお勧めします。",
        examples := ["急ぎで恐縮ですが", "至急お願いしたいのですが"] }]
   else []) ++
  (if ctx.relationship = "superior" ∧ ¬ (containsB text (lit "恐れ入り") = true) ∧
      ¬ (containsB text (lit "申し訳") = true) then
     [{ type := "relationship",
        message := "上司への敬意を示す表現を追加することをお勧めします。",
        examples := ["恐れ入りますが", "申し訳ございませんが",
          "お忙しい中申し訳ございませんが"] }]
   else [])

end WordConverter

theorem lookupA_append (m1 m2 : List (Str × Str)) (k : Str) :
    lookupA (m1 ++ m2) k = (lookupA m1 k).orElse (fun _ => lookupA m2 k) := by
  induction m1 with
  | nil => rfl
  | cons kv rest ih =>
    simp only [List.cons_append, lookupA]
    by_cases h : kv.1 = k
    · simp [h, Option.orElse]
    · simp only [if_neg h]
      exact ih

theorem lookupA_mapOverlay (a b : List (Str × Str)) (k : Str) :
    lookupA (a.map (fun kv => (kv.1, (lookupA b kv.1).getD kv.2))) k =
      (lookupA a k).map (fun v => (lookupA b k).getD v) := by
  induction a with
  | nil => rfl
  | cons kv rest ih =>
    simp only [List.map_cons, lookupA]
    by_cases h : kv.1 = k
    · subst h
      simp
    · simp only [if_neg h]
      exact ih

theorem lookupA_filterNone (a b : List (Str × Str)) (k : Str) :
    lookupA (b.filter (fun kv => (lookupA a kv.1).isNone)) k =
      if (lookupA a k).isNone then lookupA b k else none := by
  induction b with
  | nil => simp [lookupA]
  | cons kv rest ih =>
    by_cases hp : (lookupA a kv.1).isNone
    · rw [List.filter_cons_of_pos (by simpa using hp)]
      by_cases h : kv.1 = k
      · subst h
        simp [lookupA, hp]
      · simp only [lookupA, if_neg h]
        exact ih
    · rw [List.filter_cons_of_neg (by simpa using hp)]
      by_cases h : kv.1 = k
      · subst h
        rw [ih, if_neg hp]
        have hne : lookupA a kv.1 ≠ none := by
          simpa [Option.isNone_iff_eq_none] using hp
        simp [lookupA, hne]
      · rw [ih]
        simp [lookupA, if_neg h]

/-- lookupA_jsSpread: lookup in an object spread prefers the right object and
    falls back to the left one, for every key. -/
theorem lookupA_jsSpread (a b : List (Str × Str)) (k : Str) :
    lookupA (jsSpread a b) k = (lookupA b k).orElse (fun _ => lookupA a k) := by
  unfold jsSpread
  rw [lookupA_append, lookupA_mapOverlay, lookupA_filterNone]
  cases lookupA a k <;> cases lookupA b k <;> simp [Option.orElse]

/-- specPhraseMapLookup is the phrase map described by the specification: the
    base map overlaid by the business, urgent, and superior maps in that
    order, later overlays replacing earlier entries on key collision, each
    overlay applied only when the context selects it. -/
def specPhraseMapLookup (ctx : ContextAnalyzer.Context) (k : Str) : Option Str :=
  if ctx.relationship = "superior" ∧ (lookupA WordConverter.contextualSuperior k).isSome
    then lookupA WordConverter.contextualSuperior k
  else if ctx.urgency = "urgent" ∧ (lookupA WordConverter.contextualUrgent k).isSome
    then lookupA WordConverter.contextualUrgent k
  else if ctx.situation = "business" ∧ (lookupA WordConverter.contextualBusiness k).isSome
    then lookupA WordConverter.contextualBusiness k
  else lookupA WordConverter.phrases k

/-- Claim C6: for every context descriptor and key, the phrase map used by the
    phrase pass (phraseSetFor, folded over by convertPhrases) agrees with the
    base map overlaid with the business, then urgent, then superior maps, the
    later overlay winning on key collision. -/
theorem c6_phrase_overlay : ∀ (ctx : ContextAnalyzer.Context) (k : Str),
    lookupA (WordConverter.phraseSetFor ctx) k = specPhraseMapLookup ctx k := by
  intro ctx k
  unfold WordConverter.phraseSetFor specPhraseMapLookup
  by_cases hs : ctx.relationship = "superior" <;>
    by_cases hu : ctx.urgency = "urgent" <;>
    by_cases hb : ctx.situation = "business" <;>
    simp only [hs, hu, hb, if_true, if_false, ite_true, ite_false, eq_self_iff_true,
      lookupA_jsSpread] <;>
    cases h1 : lookupA WordConverter.contextualSuperior k <;>
    cases h2 : lookupA WordConverter.contextualUrgent k <;>
    cases h3 : lookupA WordConverter.contextualBusiness k <;>
    simp [h1, h2, h3, Option.orElse, hs, hu, hb]

set_option maxRecDepth 1000000

/-- Claim C10: in the word pass, each substitution applies to the already
    substituted text in dictionary order: for the input リスケの件, リスケ is
    first mapped to スケジュール変更, whose スケジュール part is then rewritten
    by the later dictionary entry, so the final text carries 予定変更 and not
    the mapped value スケジュール変更, and the log records one entry for each
    of リスケ and スケジュール. -/
theorem c10_sequential_substitution :
    lookupA WordConverter.words (lit "リスケ") = some (lit "スケジュール変更") ∧
    lookupA WordConverter.words (lit "スケジュール") = some (lit "予定") ∧
    (lit "リスケ") <:+: (lit "リスケの件") ∧
    (WordConverter.convertText (lit "リスケの件")
      (ContextAnalyzer.analyzeContext 0 (lit "リスケの件"))).text = lit "予定変更の件" ∧
    (lit "予定変更") <:+:
      (WordConverter.convertText (lit "リスケの件")
        (ContextAnalyzer.analyzeContext 0 (lit "リスケの件"))).text ∧
    ¬ (lit "スケジュール変更") <:+:
      (WordConverter.convertText (lit "リスケの件")
        (ContextAnalyzer.analyzeContext 0 (lit "リスケの件"))).text ∧
    ((WordConverter.convertText (lit "リスケの件")
      (ContextAnalyzer.analyzeContext 0 (lit "リスケの件"))).conversions.filter
        (fun cv => cv.original = lit "リスケ")).length = 1 ∧
    ((WordConverter.convertText (lit "リスケの件")
      (ContextAnalyzer.analyzeContext 0 (lit "リスケの件"))).conversions.filter
        (fun cv => cv.original = lit "スケジュール")).length = 1 := by
  refine ⟨by decide, by decide, ?_, by decide, ?_, ?_, by decide, by decide⟩
  · rw [← containsB_iff]; decide
  · rw [← containsB_iff]; decide
  · rw [← containsB_iff]; decide

/-- Claim C4 counterexample: the claim fails as stated.  For the input
    リスケの件 (containing dictionary word リスケ) the output does not contain
    the corresponding polite form スケジュール変更, because the later
    dictionary entry スケジュール→予定 rewrites it; and for the input
    レスポンス (itself a dictionary word) the log has no entry for レスポンス,
    because the earlier entry レス pre-empts it. -/
theorem c4_counterexample :
    ((lit "リスケ", lit "スケジュール変更") ∈ WordConverter.words ∧
     (lit "リスケ") <:+: (lit "リスケの件") ∧
     ¬ (lit "スケジュール変更") <:+:
       (WordConverter.convertText (lit "リスケの件")
         (ContextAnalyzer.analyzeContext 0 (lit "リスケの件"))).text) ∧
    ((lit "レスポンス", lit "お返事") ∈ WordConverter.words ∧
     (lit "レスポンス") <:+: (lit "レスポンス") ∧
     ((WordConverter.convertText (lit "レスポンス")
       (ContextAnalyzer.analyzeContext 0 (lit "レスポンス"))).conversions.filter
         (fun cv => cv.original = lit "レスポンス")).length = 0) := by
  refine ⟨⟨by decide, ?_, ?_⟩, ⟨by decide, ?_, by decide⟩⟩
  · rw [← containsB_iff]; decide
  · rw [← containsB_iff]; decide
  · rw [← containsB_iff]; decide

theorem lookupA_mem {m : List (Str × Str)} {k v : Str} (h : lookupA m k = some v) :
    (k, v) ∈ m := by
  induction m with
  | nil => simp [lookupA] at h
  | cons kv rest ih =>
    rw [lookupA] at h
    by_cases hk : kv.1 = k
    · rw [if_pos hk] at h
      have hv : kv.2 = v := by simpa using h
      have : kv = (k, v) := by
        rw [← hk, ← hv]
      rw [← this]
      exact List.mem_cons_self _ _
    · rw [if_neg hk] at h
      exact List.mem_cons_of_mem _ (ih h)

theorem mem_jsSpread {a b : List (Str × Str)} {kv : Str × Str}
    (h : kv ∈ jsSpread a b) : kv ∈ a ∨ kv ∈ b := by
  unfold jsSpread at h
  rcases List.mem_append.mp h with hm | hf
  · obtain ⟨kv0, hkv0, heq⟩ := List.mem_map.mp hm
    cases hb : lookupA b kv0.1 with
    | none =>
      left
      rw [← heq]
      simpa [hb] using hkv0
    | some bv =>
      right
      rw [← heq]
      simpa [hb] using lookupA_mem hb
  · exact Or.inr (List.mem_filter.mp hf).1

theorem mem_phraseSetFor {ctx : ContextAnalyzer.Context} {kv : Str × Str}
    (h : kv ∈ WordConverter.phraseSetFor ctx) :
    kv ∈ WordConverter.phrases ∨ kv ∈ WordConverter.contextualBusiness ∨
      kv ∈ WordConverter.contextualUrgent ∨ kv ∈ WordConverter.contextualSuperior := by
  unfold WordConverter.phraseSetFor at h
  by_cases h1 : ctx.relationship = "superior" <;>
    by_cases h2 : ctx.urgency = "urgent" <;>
    by_cases h3 : ctx.situation = "business" <;>
    simp only [h1, h2, h3, if_true, if_false, ite_true, ite_false] at h <;>
    [skip; skip; skip; skip; skip; skip; skip; skip] <;>
    (repeat' rcases (mem_jsSpread h : _ ∨ _) with h | h) <;> tauto

instance (l₁ l₂ : Str) : Decidable (l₁ <+: l₂) :=
  decidable_of_iff (l₁.isPrefixOf l₂ = true) List.isPrefixOf_iff_prefix

/-- presCond u k: u cannot overlap an occurrence of the replaced key k in any
    way, so occurrences of u survive a global replacement of k. -/
def presCond (u k : Str) : Prop :=
  ¬ u <:+: k ∧ ¬ k <:+: u ∧ (∀ i, i < u.length → ¬ u.drop i <+: k) ∧
    (∀ i, i < k.length → 0 < i → ¬ k.drop i <+: u)

instance (u k : Str) : Decidable (presCond u k) := by
  unfold presCond; infer_instance

/-- absCond p v: the replacement value v is nonempty and shares no character
    with p, so a global replacement cannot create an occurrence of p. -/
def absCond (p v : Str) : Prop := v ≠ [] ∧ charDisjoint p v

instance (p v : Str) : Decidable (absCond p v) := by
  unfold absCond; infer_instance

theorem passStep_fold_keep (mk : Str × Str → Str → WordConverter.Conv)
    (u p : Str) (hu : u ≠ []) (hp : p ≠ []) :
    ∀ entries : List (Str × Str),
      (∀ kv ∈ entries, presCond u kv.1 ∧ absCond p kv.2) →
      ∀ t log, u <:+: t → ¬ p <:+: t →
        u <:+: (entries.foldl (WordConverter.passStep mk) (t, log)).1 ∧
        ¬ p <:+: (entries.foldl (WordConverter.passStep mk) (t, log)).1 := by
  intro entries
  induction entries with
  | nil =>
    intro _ t log h1 h2
    exact ⟨h1, h2⟩
  | cons kv rest ih =>
    intro hc t log h1 h2
    rw [List.foldl_cons]
    obtain ⟨hpres, habs⟩ := hc kv (List.mem_cons_self _ _)
    have hstep : u <:+: (WordConverter.passStep mk (t, log) kv).1 ∧
        ¬ p <:+: (WordConverter.passStep mk (t, log) kv).1 := by
      unfold WordConverter.passStep
      by_cases hct : containsB t kv.1
      · simp only [hct, if_true]
        exact ⟨infix_replaceAll_keep hu hpres.1 hpres.2.1 hpres.2.2.1
            (fun i h1 h2 => hpres.2.2.2 i h2 h1) t h1,
          not_infix_replaceAll_of_charDisj hp habs.1 habs.2 t h2⟩
      · simp only [hct, if_false]
        exact ⟨h1, h2⟩
    have hrest := ih (fun kv h => hc kv (List.mem_cons_of_mem _ h))
      (WordConverter.passStep mk (t, log) kv).1
      (WordConverter.passStep mk (t, log) kv).2 hstep.1 hstep.2
    simpa using hrest

theorem passStep_fold_log (mk : Str × Str → Str → WordConverter.Conv) :
    ∀ (entries : List (Str × Str)) (t : Str) (log : List WordConverter.Conv),
      ∃ extra, (entries.foldl (WordConverter.passStep mk) (t, log)).2 = log ++ extra ∧
        ∀ cv ∈ extra, ∃ kv ∈ entries, ∃ tt, cv = mk kv tt := by
  intro entries
  induction entries with
  | nil =>
    intro t log
    exact ⟨[], by simp, by simp⟩
  | cons kv rest ih =>
    intro t log
    rw [List.foldl_cons]
    unfold WordConverter.passStep
    by_cases hct : containsB t kv.1
    · simp only [hct, if_true]
      obtain ⟨extra, hext, hall⟩ := ih (replaceAll kv.1 kv.2 t) (log ++ [mk kv t])
      refine ⟨mk kv t :: extra, by simpa using hext, ?_⟩
      intro cv hcv
      rcases List.mem_cons.mp hcv with rfl | hmem
      · exact ⟨kv, List.mem_cons_self _ _, t, rfl⟩
      · obtain ⟨kv', hkv', tt, hcv'⟩ := hall cv hmem
        exact ⟨kv', List.mem_cons_of_mem _ hkv', tt, hcv'⟩
    · simp only [hct, if_false]
      obtain ⟨extra, hext, hall⟩ := ih t log
      refine ⟨extra, hext, ?_⟩
      intro cv hcv
      obtain ⟨kv', hkv', tt, hcv'⟩ := hall cv hcv
      exact ⟨kv', List.mem_cons_of_mem _ hkv', tt, hcv'⟩

theorem infix_of_take (s : Str) (j : Nat) : s.take j <:+: s :=
  (List.take_prefix j s).isInfix

theorem infix_of_drop_take (s : Str) (a b : Nat) : (s.drop a).take b <:+: s :=
  ((List.take_prefix b _).isInfix).trans (List.drop_suffix a s).isInfix

theorem no_lit_inside {p b : Str} (hd : charDisjoint p b) (hp : p ≠ []) :
    ¬ p <:+: b :=
  fun h => hd (p.head hp) (List.head_mem hp) (h.subset (List.head_mem hp))

theorem no_span_into {p b rest q : Str} (hd : charDisjoint p b) (hb : b ≠ [])
    (hq : q ≠ []) (hsub : ∀ c ∈ q, c ∈ p) (h : q <+: b ++ rest) : False := by
  match q, hq, b, hb with
  | qc :: _, _, bc :: _, _ =>
    have hhd : qc = bc := (List.cons_prefix_cons.mp h).1
    exact hd qc (hsub qc (List.mem_cons_self _ _)) (hhd ▸ List.mem_cons_self _ _)

theorem take_chars {p : Str} (a : Nat) : ∀ c ∈ p.take a, c ∈ p :=
  fun _ hc => (List.take_prefix a p).subset hc

theorem drop_chars {p : Str} (a : Nat) : ∀ c ∈ p.drop a, c ∈ p :=
  fun _ hc => (List.drop_suffix a p).subset hc

theorem drop_nonempty {p : Str} {a : Nat} (ha : a < p.length) : p.drop a ≠ [] := by
  intro hx
  rw [List.drop_eq_nil_iff] at hx
  omega

theorem take_nonempty {p : Str} {a : Nat} (ha : 0 < a) (hp : p ≠ []) :
    p.take a ≠ [] := by
  simp only [ne_eq, List.take_eq_nil_iff, not_or]
  exact ⟨by omega, hp⟩

theorem suffix_append_cases {q x y : Str} (h : q <:+ x ++ y) :
    q <:+ y ∨ y <:+ q := by
  rcases le_total q.length y.length with hl | hl
  · left
    rw [← List.reverse_prefix] at h ⊢
    rw [List.reverse_append] at h
    exact prefix_append_left h (by simpa using hl)
  · right
    rw [← List.reverse_prefix] at h ⊢
    rw [List.reverse_append] at h
    have hy : y.reverse <+: y.reverse ++ x.reverse := List.prefix_append _ _
    exact List.prefix_of_prefix_length_le hy h (by simpa using hl)

/-- no_span_from_lit: a nonempty take of p cannot be a suffix of a literal
    char-disjoint from p. -/
theorem no_span_from_lit {p b : Str} (hd : charDisjoint p b) {a : Nat}
    (h0 : 0 < a) (hp : p ≠ []) (h : p.take a <:+ b) : False := by
  have hne : p.take a ≠ [] := take_nonempty h0 hp
  exact hd _ (take_chars a _ (List.head_mem hne)) (h.subset (List.head_mem hne))

/-- occ_char_clash: occurrences of two character-disjoint strings in the same
    string occupy disjoint index ranges. -/
theorem occ_char_clash {u L s : Str} (hd : charDisjoint u L) (hu : u ≠ [])
    (hL : L ≠ []) {q0 j : Nat} (hq : u <+: s.drop q0) (hLj : L <+: s.drop j) :
    q0 + u.length ≤ j ∨ j + L.length ≤ q0 := by
  by_contra hc
  push_neg at hc
  obtain ⟨hc1, hc2⟩ := hc
  have hul : 0 < u.length := List.length_pos.mpr hu
  have hLl : 0 < L.length := List.length_pos.mpr hL
  have hmu : max q0 j - q0 < u.length := by
    rcases max_cases q0 j with ⟨h1, h2⟩ | ⟨h1, h2⟩ <;> omega
  have hmL : max q0 j - j < L.length := by
    rcases max_cases q0 j with ⟨h1, h2⟩ | ⟨h1, h2⟩ <;> omega
  have hue : u = (s.drop q0).take u.length := List.prefix_iff_eq_take.mp hq
  have hLe : L = (s.drop j).take L.length := List.prefix_iff_eq_take.mp hLj
  have e1 : u[max q0 j - q0]? = s[max q0 j]? := by
    conv_lhs => rw [hue]
    rw [List.getElem?_take, if_pos hmu, List.getElem?_drop]
    congr 1
    rcases max_cases q0 j with ⟨h1, _⟩ | ⟨h1, _⟩ <;> omega
  have e2 : L[max q0 j - j]? = s[max q0 j]? := by
    conv_lhs => rw [hLe]
    rw [List.getElem?_take, if_pos hmL, List.getElem?_drop]
    congr 1
    rcases max_cases q0 j with ⟨h1, _⟩ | ⟨h1, _⟩ <;> omega
  have hsome : (u[max q0 j - q0]?).isSome := by
    simp [List.getElem?_eq_getElem hmu]
  obtain ⟨c, hc⟩ := Option.isSome_iff_exists.mp hsome
  have hcu : c ∈ u := List.getElem?_mem hc
  have hcL : c ∈ L := by
    have he : L[max q0 j - j]? = some c := by rw [e2, ← e1, hc]
    exact List.getElem?_mem he
  exact hd c hcu hcL

theorem prefix_take_of_le {u w : Str} {m : Nat} (h : u <+: w) (hm : u.length ≤ m) :
    u <+: w.take m := by
  have h1 : u = w.take u.length := List.prefix_iff_eq_take.mp h
  rw [List.prefix_iff_eq_take, List.take_take, min_eq_left hm]
  exact h1

theorem findTailMatch_occurs {L s : Str} {i j : Nat}
    (h : WordConverter.findTailMatch L s = some (i, j)) : L <+: s.drop j := by
  obtain ⟨a, _, hfa⟩ := List.exists_of_findSome?_eq_some h
  cases hf : ((List.range (s.length + 1)).reverse.find?
      (fun j => WordConverter.validTailJ L s a j)) with
  | none => rw [hf] at hfa; simp at hfa
  | some j0 =>
    rw [hf] at hfa
    simp only [Option.map_some', Option.some.injEq, Prod.mk.injEq] at hfa
    obtain ⟨rfl, rfl⟩ := hfa
    have hv := List.find?_some hf
    simp only [WordConverter.validTailJ, WordConverter.occursAtB, Bool.and_eq_true,
      decide_eq_true_eq, List.isPrefixOf_iff_prefix] at hv
    exact hv.1.2

/-- gReplaceTail_blocks: the tail-literal rewrite cannot create an
    occurrence of p when p shares no character with the inserted literal R. -/
theorem gReplaceTail_blocks (L R : Str) (reason : String) (p : Str)
    (hp : p ≠ []) (hR : R ≠ []) (hd : charDisjoint p R) :
    ∀ n s, s.length ≤ n → ¬ p <:+: s →
      ¬ p <:+: (WordConverter.gReplaceTail L R reason s).1 := by
  intro n
  induction n with
  | zero =>
    intro s hs hns
    have hsn : s = [] := List.eq_nil_of_length_eq_zero (Nat.le_zero.mp hs)
    subst hsn
    exact hns
  | succ n ih =>
    intro s hs hns hinf
    cases h : WordConverter.findTailMatch L s with
    | none =>
      rw [WordConverter.gReplaceTail_none R reason h] at hinf
      exact hns hinf
    | some ij =>
      obtain ⟨i, j⟩ := ij
      have hb := WordConverter.findTailMatch_lt h
      rw [WordConverter.gReplaceTail_some R reason h] at hinf
      rcases infix_append_split hinf with hA | hB | ⟨a, ha0, hal, htk, _⟩
      · rcases infix_append_split hA with h1 | h2 | ⟨a, ha0, hal, _, hdr⟩
        · exact hns (h1.trans (infix_of_take s j))
        · exact no_lit_inside hd hp h2
        · have hdr2 : p.drop a <+: R ++ ([] : Str) := by simpa using hdr
          exact no_span_into hd hR (drop_nonempty hal) (drop_chars a) hdr2
      · refine ih (s.drop (j + L.length)) ?_ ?_ hB
        · simp only [List.length_drop]
          omega
        · intro hx
          exact hns (hx.trans (List.drop_suffix _ s).isInfix)
      · rcases suffix_append_cases htk with hsf | hsf
        · exact no_span_from_lit hd ha0 hp hsf
        · exact hd (R.head hR) ((hsf.isInfix.trans (List.take_prefix a p).isInfix).subset
            (List.head_mem hR)) (List.head_mem hR)

/-- gReplaceTail_keeps: occurrences of u survive the tail-literal rewrite
    when u shares no character with the matched literal L. -/
theorem gReplaceTail_keeps (L R : Str) (reason : String) (u : Str)
    (hu : u ≠ []) (hL : L ≠ []) (hd : charDisjoint u L) :
    ∀ n s, s.length ≤ n → u <:+: s →
      u <:+: (WordConverter.gReplaceTail L R reason s).1 := by
  intro n
  induction n with
  | zero =>
    intro s hs hin
    have hsn : s = [] := List.eq_nil_of_length_eq_zero (Nat.le_zero.mp hs)
    subst hsn
    exact hin
  | succ n ih =>
    intro s hs hin
    cases h : WordConverter.findTailMatch L s with
    | none =>
      rw [WordConverter.gReplaceTail_none R reason h]
      exact hin
    | some ij =>
      obtain ⟨i, j⟩ := ij
      have hb := WordConverter.findTailMatch_lt h
      have hLj := findTailMatch_occurs h
      rw [WordConverter.gReplaceTail_some R reason h]
      obtain ⟨q0, hq⟩ := (infix_iff_drop u s).mp hin
      rcases occ_char_clash hd hu hL hq hLj with hcase | hcase
      · have hpre : u <+: (s.take j).drop q0 := by
          rw [List.drop_take]
          exact prefix_take_of_le hq (by omega)
        have : u <:+: s.take j :=
          hpre.isInfix.trans (List.drop_suffix q0 (s.take j)).isInfix
        exact this.trans ((List.prefix_append _ _).isInfix.trans
          (List.prefix_append _ _).isInfix)
      · have hq' : u <+: (s.drop (j + L.length)).drop (q0 - (j + L.length)) := by
          rw [List.drop_drop]
          have heq : j + L.length + (q0 - (j + L.length)) = q0 := by omega
          rw [heq]
          exact hq
        have hrec : u <:+: s.drop (j + L.length) :=
          hq'.isInfix.trans (List.drop_suffix _ _).isInfix
        have := ih (s.drop (j + L.length)) (by simp only [List.length_drop]; omega) hrec
        exact this.trans (List.suffix_append _ _).isInfix

theorem findWhyMatch_occurs {s : Str} {i j : Nat}
    (h : WordConverter.findWhyMatch s = some (i, j)) :
    lit "なんで" <+: s.drop i ∧ lit "？" <+: s.drop j := by
  obtain ⟨a, _, hfa⟩ := List.exists_of_findSome?_eq_some h
  cases hf : ((List.range (s.length + 1)).reverse.find?
      (fun j => WordConverter.validWhyJ s a j)) with
  | none => rw [hf] at hfa; simp at hfa
  | some j0 =>
    rw [hf] at hfa
    simp only [Option.map_some', Option.some.injEq, Prod.mk.injEq] at hfa
    obtain ⟨rfl, rfl⟩ := hfa
    have hv := List.find?_some hf
    simp only [WordConverter.validWhyJ, WordConverter.occursAtB, Bool.and_eq_true,
      decide_eq_true_eq, List.isPrefixOf_iff_prefix] at hv
    exact ⟨hv.1.1.1.1, hv.1.2⟩

/-- gReplaceWhy_blocks: the なんで...？ rewrite cannot create an occurrence
    of p when p shares no character with either inserted literal. -/
theorem gReplaceWhy_blocks (p : Str) (hp : p ≠ [])
    (hd1 : charDisjoint p (lit "なぜ")) (hd2 : charDisjoint p (lit "のでしょうか？")) :
    ∀ n s, s.length ≤ n → ¬ p <:+: s →
      ¬ p <:+: (WordConverter.gReplaceWhy s).1 := by
  have hNZ : lit "なぜ" ≠ [] := by decide
  have hND : lit "のでしょうか？" ≠ [] := by decide
  intro n
  induction n with
  | zero =>
    intro s hs hns
    have hsn : s = [] := List.eq_nil_of_length_eq_zero (Nat.le_zero.mp hs)
    subst hsn
    exact hns
  | succ n ih =>
    intro s hs hns hinf
    cases h : WordConverter.findWhyMatch s with
    | none =>
      rw [WordConverter.gReplaceWhy_none h] at hinf
      exact hns hinf
    | some ij =>
      obtain ⟨i, j⟩ := ij
      have hb := WordConverter.findWhyMatch_lt h
      rw [WordConverter.gReplaceWhy_some h] at hinf
      rcases infix_append_split hinf with hA | hB | ⟨a, ha0, hal, htk, _⟩
      · rcases infix_append_split hA with hA2 | h2 | ⟨a, ha0, hal, _, hdr⟩
        · rcases infix_append_split hA2 with hA3 | h3 | ⟨a, ha0, hal, htk3, _⟩
          · rcases infix_append_split hA3 with h4 | h5 | ⟨a, ha0, hal, _, hdr5⟩
            · exact hns (h4.trans (infix_of_take s i))
            · exact no_lit_inside hd1 hp h5
            · have hdr2 : p.drop a <+: lit "なぜ" ++ ([] : Str) := by simpa using hdr5
              exact no_span_into hd1 hNZ (drop_nonempty hal) (drop_chars a) hdr2
          · exact hns (h3.trans (infix_of_drop_take s (i + 3) (j - (i + 3))))
          · rcases suffix_append_cases htk3 with hsf | hsf
            · exact no_span_from_lit hd1 ha0 hp hsf
            · exact hd1 ((lit "なぜ").head hNZ)
                ((hsf.isInfix.trans (List.take_prefix a p).isInfix).subset
                  (List.head_mem hNZ)) (List.head_mem hNZ)
        · exact no_lit_inside hd2 hp h2
        · have hdr2 : p.drop a <+: lit "のでしょうか？" ++ ([] : Str) := by
            simpa using hdr
          exact no_span_into hd2 hND (drop_nonempty hal) (drop_chars a) hdr2
      · refine ih (s.drop (j + 1)) ?_ ?_ hB
        · simp only [List.length_drop]
          omega
        · intro hx
          exact hns (hx.trans (List.drop_suffix _ s).isInfix)
      · rcases suffix_append_cases htk with hsf | hsf
        · exact no_span_from_lit hd2 ha0 hp hsf
        · exact hd2 ((lit "のでしょうか？").head hND)
            ((hsf.isInfix.trans (List.take_prefix a p).isInfix).subset
              (List.head_mem hND)) (List.head_mem hND)

/-- gReplaceWhy_keeps: occurrences of u survive the なんで...？ rewrite
    when u shares no character with なんで or ？. -/
theorem gReplaceWhy_keeps (u : Str) (hu : u ≠ [])
    (hd1 : charDisjoint u (lit "なんで")) (hd2 : charDisjoint u (lit "？")) :
    ∀ n s, s.length ≤ n → u <:+: s →
      u <:+: (WordConverter.gReplaceWhy s).1 := by
  have hNN : lit "なんで" ≠ [] := by decide
  have hQM : lit "？" ≠ [] := by decide
  intro n
  induction n with
  | zero =>
    intro s hs hin
    have hsn : s = [] := List.eq_nil_of_length_eq_zero (Nat.le_zero.mp hs)
    subst hsn
    exact hin
  | succ n ih =>
    intro s hs hin
    cases h : WordConverter.findWhyMatch s with
    | none =>
      rw [WordConverter.gReplaceWhy_none h]
      exact hin
    | some ij =>
      obtain ⟨i, j⟩ := ij
      have hb := WordConverter.findWhyMatch_lt h
      obtain ⟨hocc1, hocc2⟩ := findWhyMatch_occurs h
      rw [WordConverter.gReplaceWhy_some h]
      obtain ⟨q0, hq⟩ := (infix_iff_drop u s).mp hin
      have hcl1 := occ_char_clash hd1 hu hNN hq hocc1
      have hcl2 := occ_char_clash hd2 hu hQM hq hocc2
      rcases hcl1 with hcase | hcase
      · -- u lies entirely inside s.take i
        have hpre : u <+: (s.take i).drop q0 := by
          rw [List.drop_take]
          refine prefix_take_of_le hq ?_
          omega
        have hti : u <:+: s.take i :=
          hpre.isInfix.trans (List.drop_suffix q0 (s.take i)).isInfix
        exact hti.trans ((List.prefix_append _ _).isInfix.trans
          ((List.prefix_append _ _).isInfix.trans
            ((List.prefix_append _ _).isInfix.trans
              (List.prefix_append _ _).isInfix)))
      · have hli : (lit "なんで").length = 3 := by decide
        rw [hli] at hcase
        rcases hcl2 with hcase2 | hcase2
        · -- u lies inside the captured content, between なんで and ？
          have hcontent : u <+:
              (((s.drop (i + 3)).take (j - (i + 3))).drop (q0 - (i + 3))) := by
            rw [List.drop_take, List.drop_drop]
            have h1 : i + 3 + (q0 - (i + 3)) = q0 := by omega
            rw [h1]
            exact prefix_take_of_le hq (by omega)
          have hC : u <:+: (s.drop (i + 3)).take (j - (i + 3)) :=
            hcontent.isInfix.trans (List.drop_suffix _ _).isInfix
          exact hC.trans ((List.suffix_append _ _).isInfix.trans
            ((List.prefix_append _ _).isInfix.trans
              (List.prefix_append _ _).isInfix))
        · -- u lies in the remainder after the ？
          have hlq : (lit "？").length = 1 := by decide
          have hq' : u <+: (s.drop (j + 1)).drop (q0 - (j + 1)) := by
            rw [List.drop_drop]
            have heq : j + 1 + (q0 - (j + 1)) = q0 := by omega
            rw [heq]
            exact hq
          have hrec : u <:+: s.drop (j + 1) :=
            hq'.isInfix.trans (List.drop_suffix _ _).isInfix
          have := ih (s.drop (j + 1)) (by simp only [List.length_drop]; omega) hrec
          exact this.trans (List.suffix_append _ _).isInfix

theorem simpleCore_within (s : Str) : WordConverter.simpleCore s <:+: s := by
  unfold WordConverter.simpleCore
  split
  · exact (List.dropLast_prefix s).isInfix
  · exact List.infix_rfl

theorem simpleTl_chars (s : Str) : ∀ c ∈ WordConverter.simpleTl s, c = '\n' := by
  unfold WordConverter.simpleTl
  split <;> simp

theorem simpleCore_append_tl (s : Str) :
    WordConverter.simpleCore s ++ WordConverter.simpleTl s = s := by
  unfold WordConverter.simpleCore WordConverter.simpleTl
  split
  case isTrue hg =>
    have hne : s ≠ [] := by
      intro h
      subst h
      simp at hg
    have hl : s.getLast hne = '\n' := by
      rw [List.getLast?_eq_getLast s hne] at hg
      exact Option.some_injective _ hg
    rw [show (['\n'] : Str) = [s.getLast hne] from by rw [hl]]
    exact List.dropLast_append_getLast hne
  case isFalse => simp

/-- simpleCommand_blocks: the whole-line kana rewrite cannot create an
    occurrence of p when p shares no character with をお願いします or the
    newline. -/
theorem simpleCommand_blocks (p : Str) (hp : p ≠ [])
    (hd : charDisjoint p (lit "をお願いします")) (hnl : charDisjoint p ['\n']) :
    ∀ s, ¬ p <:+: s → ¬ p <:+: (WordConverter.simpleCommand s).1 := by
  have hW : lit "をお願いします" ≠ [] := by decide
  intro s hns hinf
  simp only [WordConverter.simpleCommand] at hinf
  split_ifs at hinf with h1 h2
  · exact hns hinf
  · rcases infix_append_split hinf with hA | hB | ⟨a, ha0, hal, htk, hdr⟩
    · rcases infix_append_split hA with h3 | h4 | ⟨a, ha0, hal, _, hdr4⟩
      · exact hns (h3.trans (simpleCore_within s))
      · exact no_lit_inside hd hp h4
      · have hdr2 : p.drop a <+: lit "をお願いします" ++ ([] : Str) := by
          simpa using hdr4
        exact no_span_into hd hW (drop_nonempty hal) (drop_chars a) hdr2
    · have hc := hB.subset (List.head_mem hp)
      exact hnl _ (List.head_mem hp) (List.mem_singleton.mpr (simpleTl_chars s _ hc))
    · have hne := drop_nonempty hal
      have hc : (p.drop a).head hne ∈ WordConverter.simpleTl s :=
        hdr.subset (List.head_mem hne)
      exact hnl _ (drop_chars a _ (List.head_mem hne))
        (List.mem_singleton.mpr (simpleTl_chars s _ hc))
  · exact hns hinf

/-- simpleCommand_keeps: occurrences of u survive the whole-line kana
    rewrite when u does not contain the newline character. -/
theorem simpleCommand_keeps (u : Str) (hu : u ≠ [])
    (hnl : charDisjoint u ['\n']) :
    ∀ s, u <:+: s → u <:+: (WordConverter.simpleCommand s).1 := by
  intro s hin
  simp only [WordConverter.simpleCommand]
  split_ifs with h1 h2
  · exact hin
  · have hsplit : u <:+: WordConverter.simpleCore s ++ WordConverter.simpleTl s := by
      rw [simpleCore_append_tl]
      exact hin
    rcases infix_append_split hsplit with hA | hB | ⟨a, ha0, hal, _, hdr⟩
    · exact hA.trans ((List.prefix_append _ _).isInfix.trans
        (List.prefix_append _ _).isInfix)
    · exact absurd (List.mem_singleton.mpr (simpleTl_chars s _
        (hB.subset (List.head_mem hu)))) (fun hm => hnl _ (List.head_mem hu) hm)
    · have hne := drop_nonempty hal
      have hc : (u.drop a).head hne ∈ WordConverter.simpleTl s :=
        hdr.subset (List.head_mem hne)
      exact absurd (List.mem_singleton.mpr (simpleTl_chars s _ hc))
        (fun hm => hnl _ (drop_chars a _ (List.head_mem hne)) hm)
  · exact hin

/-- handleSpecial_blocks: the whole special-pattern pass cannot create an
    occurrence of p when p shares no character with any inserted literal. -/
theorem handleSpecial_blocks (p : Str) (hp : p ≠ [])
    (hd1 : charDisjoint p (lit "でしたでしょうか？"))
    (hd2 : charDisjoint p (lit "ですね"))
    (hd3 : charDisjoint p (lit "ですよね"))
    (hd4 : charDisjoint p (lit "とお伝えください"))
    (hd5 : charDisjoint p (lit "なぜ"))
    (hd6 : charDisjoint p (lit "のでしょうか？"))
    (hd7 : charDisjoint p (lit "をお願いします"))
    (hd8 : charDisjoint p ['\n']) :
    ∀ t, ¬ p <:+: t → ¬ p <:+: (WordConverter.handleSpecialPatterns t).1 := by
  intro t hns
  simp only [WordConverter.handleSpecialPatterns]
  exact simpleCommand_blocks p hp hd7 hd8 _
    (gReplaceWhy_blocks p hp hd5 hd6 _ _ le_rfl
      (gReplaceTail_blocks _ _ _ p hp (by decide) hd4 _ _ le_rfl
        (gReplaceTail_blocks _ _ _ p hp (by decide) hd3 _ _ le_rfl
          (gReplaceTail_blocks _ _ _ p hp (by decide) hd2 _ _ le_rfl
            (gReplaceTail_blocks _ _ _ p hp (by decide) hd1 _ _ le_rfl hns)))))

/-- handleSpecial_keeps: occurrences of u survive the whole
    special-pattern pass when u shares no character with any matched literal. -/
theorem handleSpecial_keeps (u : Str) (hu : u ≠ [])
    (hk1 : charDisjoint u (lit "だっけ？"))
    (hk2 : charDisjoint u (lit "じゃん"))
    (hk3 : charDisjoint u (lit "だよね"))
    (hk4 : charDisjoint u (lit "って言って"))
    (hk5 : charDisjoint u (lit "なんで"))
    (hk6 : charDisjoint u (lit "？"))
    (hk7 : charDisjoint u ['\n']) :
    ∀ t, u <:+: t → u <:+: (WordConverter.handleSpecialPatterns t).1 := by
  intro t hin
  simp only [WordConverter.handleSpecialPatterns]
  exact simpleCommand_keeps u hu hk7 _
    (gReplaceWhy_keeps u hu hk5 hk6 _ _ le_rfl
      (gReplaceTail_keeps _ _ _ u hu (by decide) hk4 _ _ le_rfl
        (gReplaceTail_keeps _ _ _ u hu (by decide) hk3 _ _ le_rfl
          (gReplaceTail_keeps _ _ _ u hu (by decide) hk2 _ _ le_rfl
            (gReplaceTail_keeps _ _ _ u hu (by decide) hk1 _ _ le_rfl hin)))))

theorem gReplaceTailAux_log_type (L R : Str) (reason : String) :
    ∀ fuel s cv, cv ∈ (WordConverter.gReplaceTailAux L R reason fuel s).2 →
      cv.type = "pattern" := by
  intro fuel
  induction fuel with
  | zero =>
    intro s cv hcv
    cases s <;> simp [WordConverter.gReplaceTailAux] at hcv
  | succ f ih =>
    intro s cv hcv
    cases h : WordConverter.findTailMatch L s with
    | none =>
      simp only [WordConverter.gReplaceTailAux, h] at hcv
      simp at hcv
    | some ij =>
      obtain ⟨i, j⟩ := ij
      simp only [WordConverter.gReplaceTailAux, h, List.mem_cons] at hcv
      rcases hcv with rfl | hm
      · rfl
      · exact ih _ cv hm

theorem gReplaceTail_log_type (L R : Str) (reason : String) (s : Str) :
    ∀ cv ∈ (WordConverter.gReplaceTail L R reason s).2, cv.type = "pattern" :=
  fun cv hcv => gReplaceTailAux_log_type L R reason s.length s cv hcv

theorem gReplaceWhyAux_log_type :
    ∀ fuel s cv, cv ∈ (WordConverter.gReplaceWhyAux fuel s).2 →
      cv.type = "pattern" := by
  intro fuel
  induction fuel with
  | zero =>
    intro s cv hcv
    simp [WordConverter.gReplaceWhyAux] at hcv
  | succ f ih =>
    intro s cv hcv
    cases h : WordConverter.findWhyMatch s with
    | none =>
      simp only [WordConverter.gReplaceWhyAux, h] at hcv
      simp at hcv
    | some ij =>
      obtain ⟨i, j⟩ := ij
      simp only [WordConverter.gReplaceWhyAux, h, List.mem_cons] at hcv
      rcases hcv with rfl | hm
      · rfl
      · exact ih _ cv hm

theorem gReplaceWhy_log_type (s : Str) :
    ∀ cv ∈ (WordConverter.gReplaceWhy s).2, cv.type = "pattern" :=
  fun cv hcv => gReplaceWhyAux_log_type s.length s cv hcv

theorem simpleCommand_log_type (s : Str) :
    ∀ cv ∈ (WordConverter.simpleCommand s).2, cv.type = "pattern" := by
  intro cv hcv
  simp only [WordConverter.simpleCommand] at hcv
  split_ifs at hcv
  · simp at hcv
  · rw [List.mem_singleton] at hcv
    subst hcv
    rfl
  · simp at hcv

theorem handleSpecial_log_type (t : Str) :
    ∀ cv ∈ (WordConverter.handleSpecialPatterns t).2, cv.type = "pattern" := by
  intro cv hcv
  simp only [WordConverter.handleSpecialPatterns, List.mem_append] at hcv
  rcases hcv with ((((h | h) | h) | h) | h) | h
  · exact gReplaceTail_log_type _ _ _ _ cv h
  · exact gReplaceTail_log_type _ _ _ _ cv h
  · exact gReplaceTail_log_type _ _ _ _ cv h
  · exact gReplaceTail_log_type _ _ _ _ cv h
  · exact gReplaceWhy_log_type _ cv h
  · exact simpleCommand_log_type _ cv h

theorem countOccAux_pos (pat : Str) (hp : pat ≠ []) :
    ∀ fuel s, s.length ≤ fuel → pat <:+: s → 1 ≤ countOccAux pat fuel s := by
  intro fuel
  induction fuel with
  | zero =>
    intro s hs hin
    have hsn : s = [] := List.eq_nil_of_length_eq_zero (Nat.le_zero.mp hs)
    subst hsn
    exact absurd (List.eq_nil_of_infix_nil hin) hp
  | succ f ih =>
    intro s hs hin
    cases s with
    | nil => exact absurd (List.eq_nil_of_infix_nil hin) hp
    | cons c cs =>
      by_cases hpre : pat.isPrefixOf (c :: cs)
      · simp only [countOccAux, hp, hpre, ne_eq, not_false_iff, true_and, if_true]
        omega
      · have hcond : ¬ (pat ≠ [] ∧ pat.isPrefixOf (c :: cs) = true) := by
          intro hx
          exact hpre hx.2
        simp only [countOccAux, if_neg hcond]
        have hin2 : pat <:+: cs := by
          rcases List.infix_cons_iff.mp hin with hpf | hm
          · exact absurd ((List.isPrefixOf_iff_prefix).mpr hpf) hpre
          · exact hm
        exact ih cs (by simp only [List.length_cons] at hs; omega) hin2

theorem countOcc_pos {pat s : Str} (hp : pat ≠ []) (h : pat <:+: s) :
    1 ≤ countOcc pat s :=
  countOccAux_pos pat hp s.length s le_rfl h

/-- Claim C4 (amended): for every input containing the dictionary word アプデ
    and every context, convertText output contains the polite form アップデート
    and no longer contains アプデ, and the conversion log contains exactly one
    word entry for アプデ, whose count is at least 1.  (The original claim
    fails for other dictionary words because entries interfere; see the
    counterexample with リスケ and レスポンス.) -/
theorem c4_update_word (text : Str) (ctx : ContextAnalyzer.Context)
    (h : lit "アプデ" <:+: text) :
    lit "アップデート" <:+: (WordConverter.convertText text ctx).text ∧
    ¬ lit "アプデ" <:+: (WordConverter.convertText text ctx).text ∧
    (WordConverter.convertText text ctx).conversions.filter
        (fun cv => decide (cv.type = "word" ∧ cv.original = lit "アプデ")) =
      [WordConverter.wordEntry (lit "アプデ", lit "アップデート") text] ∧
    1 ≤ countOcc (lit "アプデ") text := by
  have hct : containsB text (lit "アプデ") = true := (containsB_iff _ _).mpr h
  have hw : WordConverter.convertWords text =
      WordConverter.words.tail.foldl (WordConverter.passStep WordConverter.wordEntry)
        (replaceAll (lit "アプデ") (lit "アップデート") text,
         [WordConverter.wordEntry (lit "アプデ", lit "アップデート") text]) := by
    unfold WordConverter.convertWords
    rw [show WordConverter.words =
        (lit "アプデ", lit "アップデート") :: WordConverter.words.tail from rfl,
      List.foldl_cons]
    congr 1
    unfold WordConverter.passStep
    simp [hct]
  have hu1 : lit "アップデート" <:+: replaceAll (lit "アプデ") (lit "アップデート") text :=
    infix_replaceAll_inserted (by decide) text h
  have hp1 : ¬ lit "アプデ" <:+: replaceAll (lit "アプデ") (lit "アップデート") text :=
    not_infix_replaceAll_self_pair (by decide) (by decide) (by decide) (by decide)
      (fun i h0 hi =>
        (by decide : ∀ i, i < (lit "アプデ").length → 0 < i →
          ¬ (lit "アプデ").take i <:+ lit "アップデート") i hi h0) text
  have hsideW : ∀ kv ∈ WordConverter.words.tail,
      presCond (lit "アップデート") kv.1 ∧ absCond (lit "アプデ") kv.2 := by decide
  have hfoldW := passStep_fold_keep WordConverter.wordEntry (lit "アップデート")
    (lit "アプデ") (by decide) (by decide) WordConverter.words.tail hsideW
    (replaceAll (lit "アプデ") (lit "アップデート") text)
    [WordConverter.wordEntry (lit "アプデ", lit "アップデート") text] hu1 hp1
  rw [← hw] at hfoldW
  have hPh : ∀ kv ∈ WordConverter.phrases,
      presCond (lit "アップデート") kv.1 ∧ absCond (lit "アプデ") kv.2 := by decide
  have hPb : ∀ kv ∈ WordConverter.contextualBusiness,
      presCond (lit "アップデート") kv.1 ∧ absCond (lit "アプデ") kv.2 := by decide
  have hPu : ∀ kv ∈ WordConverter.contextualUrgent,
      presCond (lit "アップデート") kv.1 ∧ absCond (lit "アプデ") kv.2 := by decide
  have hPs : ∀ kv ∈ WordConverter.contextualSuperior,
      presCond (lit "アップデート") kv.1 ∧ absCond (lit "アプデ") kv.2 := by decide
  have hsideP : ∀ kv ∈ WordConverter.phraseSetFor ctx,
      presCond (lit "アップデート") kv.1 ∧ absCond (lit "アプデ") kv.2 := by
    intro kv hkv
    rcases mem_phraseSetFor hkv with h1 | h1 | h1 | h1
    · exact hPh kv h1
    · exact hPb kv h1
    · exact hPu kv h1
    · exact hPs kv h1
  have hcp : WordConverter.convertPhrases ctx (WordConverter.convertWords text).1 =
      (WordConverter.phraseSetFor ctx).foldl
        (WordConverter.passStep (WordConverter.phraseEntry ctx))
        ((WordConverter.convertWords text).1, []) := rfl
  have hfoldP := passStep_fold_keep (WordConverter.phraseEntry ctx) (lit "アップデート")
    (lit "アプデ") (by decide) (by decide) (WordConverter.phraseSetFor ctx) hsideP
    (WordConverter.convertWords text).1 [] hfoldW.1 hfoldW.2
  rw [← hcp] at hfoldP
  have hS1 : lit "アップデート" <:+:
      (WordConverter.handleSpecialPatterns
        (WordConverter.convertPhrases ctx (WordConverter.convertWords text).1).1).1 :=
    handleSpecial_keeps _ (by decide) (by decide) (by decide) (by decide)
      (by decide) (by decide) (by decide) (by decide) _ hfoldP.1
  have hS2 : ¬ lit "アプデ" <:+:
      (WordConverter.handleSpecialPatterns
        (WordConverter.convertPhrases ctx (WordConverter.convertWords text).1).1).1 :=
    handleSpecial_blocks _ (by decide) (by decide) (by decide) (by decide)
      (by decide) (by decide) (by decide) (by decide) (by decide) _ hfoldP.2
  obtain ⟨extraW, hlogW, hallW⟩ := passStep_fold_log WordConverter.wordEntry
    WordConverter.words.tail (replaceAll (lit "アプデ") (lit "アップデート") text)
    [WordConverter.wordEntry (lit "アプデ", lit "アップデート") text]
  rw [← hw] at hlogW
  obtain ⟨extraP, hlogP, hallP⟩ := passStep_fold_log (WordConverter.phraseEntry ctx)
    (WordConverter.phraseSetFor ctx) (WordConverter.convertWords text).1 []
  rw [← hcp, List.nil_append] at hlogP
  have hkeys : ∀ kv ∈ WordConverter.words.tail, kv.1 ≠ lit "アプデ" := by decide
  have hpred0 : (decide ((WordConverter.wordEntry
      (lit "アプデ", lit "アップデート") text).type = "word" ∧
      (WordConverter.wordEntry (lit "アプデ", lit "アップデート") text).original =
        lit "アプデ")) = true := by rfl
  have hfW : (WordConverter.convertWords text).2.filter
      (fun cv => decide (cv.type = "word" ∧ cv.original = lit "アプデ")) =
      [WordConverter.wordEntry (lit "アプデ", lit "アップデート") text] := by
    rw [hlogW, List.filter_append]
    have hex : extraW.filter
        (fun cv => decide (cv.type = "word" ∧ cv.original = lit "アプデ")) = [] := by
      refine List.filter_eq_nil.mpr (fun cv hcv => ?_)
      obtain ⟨kv, hkv, tt, rfl⟩ := hallW cv hcv
      simp only [WordConverter.wordEntry, decide_eq_true_eq, not_and]
      intro _ h2
      exact hkeys kv hkv h2
    rw [hex, List.append_nil]
    simp only [List.filter_cons, List.filter_nil, hpred0, if_true]
  have hfP : (WordConverter.convertPhrases ctx
      (WordConverter.convertWords text).1).2.filter
      (fun cv => decide (cv.type = "word" ∧ cv.original = lit "アプデ")) = [] := by
    rw [hlogP]
    refine List.filter_eq_nil.mpr (fun cv hcv => ?_)
    obtain ⟨kv, hkv, tt, rfl⟩ := hallP cv hcv
    simp only [WordConverter.phraseEntry, decide_eq_true_eq, not_and]
    intro h1
    exact absurd h1 (by decide)
  have hfS : (WordConverter.handleSpecialPatterns
      (WordConverter.convertPhrases ctx (WordConverter.convertWords text).1).1).2.filter
      (fun cv => decide (cv.type = "word" ∧ cv.original = lit "アプデ")) = [] := by
    refine List.filter_eq_nil.mpr (fun cv hcv => ?_)
    have hty := handleSpecial_log_type _ cv hcv
    simp only [decide_eq_true_eq, not_and]
    intro h1
    rw [hty] at h1
    exact absurd h1 (by decide)
  refine ⟨?_, ?_, ?_, countOcc_pos (by decide) h⟩
  · simp only [WordConverter.convertText]
    exact hS1
  · simp only [WordConverter.convertText]
    exact hS2
  · simp only [WordConverter.convertText]
    rw [List.filter_append, List.filter_append, hfW, hfP, hfS]
    simp

theorem c4_update_word_witness :
    lit "アプデ" <:+: lit "アプデしといてくれる？" ∧
    (lit "アップデート" <:+:
       (WordConverter.convertText (lit "アプデしといてくれる？")
         (ContextAnalyzer.analyzeContext 0 (lit "アプデしといてくれる？"))).text ∧
     ¬ lit "アプデ" <:+:
       (WordConverter.convertText (lit "アプデしといてくれる？")
         (ContextAnalyzer.analyzeContext 0 (lit "アプデしといてくれる？"))).text ∧
     (WordConverter.convertText (lit "アプデしといてくれる？")
         (ContextAnalyzer.analyzeContext 0 (lit "アプデしといてくれる？"))).conversions.filter
         (fun cv => decide (cv.type = "word" ∧ cv.original = lit "アプデ")) =
       [WordConverter.wordEntry (lit "アプデ", lit "アップデート")
         (lit "アプデしといてくれる？")] ∧
     1 ≤ countOcc (lit "アプデ") (lit "アプデしといてくれる？")) :=
  ⟨by rw [← containsB_iff]; decide,
   c4_update_word (lit "アプデしといてくれる？")
     (ContextAnalyzer.analyzeContext 0 (lit "アプデしといてくれる？"))
     (by rw [← containsB_iff]; decide)⟩

namespace QualityAssessment

/-- Scores is the object assembled by assessConversion: one score per metric,
    in the fixed insertion order of this.metrics. -/
structure Scores where
  naturalness : ℚ
  intentPreservation : ℚ
  appropriateness : ℚ
  completeness : ℚ
deriving DecidableEq, Repr

def scoresEntries (s : Scores) : List (String × ℚ) :=
  [("naturalness", s.naturalness), ("intentPreservation", s.intentPreservation),
   ("appropriateness", s.appropriateness), ("completeness", s.completeness)]

def weights : List (String × ℚ) :=
  [("naturalness", 3/10), ("intentPreservation", 3/10),
   ("appropriateness", 1/4), ("completeness", 3/20)]

/-- weightFor is the lookup this.weights[metric] followed by the JS
    短絡 default: a missing key, and the falsy weight 0, both give 0.25. -/
def weightFor (metric : String) : ℚ :=
  match weights.find? (fun kv => kv.1 == metric) with
  | some kv => if kv.2 = 0 then 1/4 else kv.2
  | none => 1/4

def calculateOverallScore (s : Scores) : ℚ :=
  let step := (scoresEntries s).foldl
    (fun acc kv => (acc.1 + kv.2 * weightFor kv.1, acc.2 + weightFor kv.1))
    ((0 : ℚ), (0 : ℚ))
  if step.2 > 0 then step.1 / step.2 else 1/2

def getQualityGrade (score : ℚ) : String :=
  if score ≥ 9/10 then "A+"
  else if score ≥ 8/10 then "A"
  else if score ≥ 7/10 then "B+"
  else if score ≥ 6/10 then "B"
  else if score ≥ 5/10 then "C+"
  else if score ≥ 4/10 then "C"
  else if score ≥ 3/10 then "D"
  else "F"

end QualityAssessment

/-- Claim C8: for every set of four axis scores, the overall score is the
    weighted sum with weights naturalness 0.30, intent preservation 0.30,
    appropriateness 0.25, completeness 0.15, normalized by the total weight;
    and the grade bands are A+ from 0.9, A from 0.8, B+ from 0.7, B from 0.6,
    C+ from 0.5, C from 0.4, D from 0.3, and F below, each band ending where
    the next higher one begins. -/
theorem c8_quality_score (s : QualityAssessment.Scores) (q : ℚ) :
    QualityAssessment.calculateOverallScore s =
      (s.naturalness * (3/10) + s.intentPreservation * (3/10) +
       s.appropriateness * (1/4) + s.completeness * (3/20)) /
      (3/10 + 3/10 + 1/4 + 3/20) ∧
    (9/10 ≤ q → QualityAssessment.getQualityGrade q = "A+") ∧
    (8/10 ≤ q → q < 9/10 → QualityAssessment.getQualityGrade q = "A") ∧
    (7/10 ≤ q → q < 8/10 → QualityAssessment.getQualityGrade q = "B+") ∧
    (6/10 ≤ q → q < 7/10 → QualityAssessment.getQualityGrade q = "B") ∧
    (5/10 ≤ q → q < 6/10 → QualityAssessment.getQualityGrade q = "C+") ∧
    (4/10 ≤ q → q < 5/10 → QualityAssessment.getQualityGrade q = "C") ∧
    (3/10 ≤ q → q < 4/10 → QualityAssessment.getQualityGrade q = "D") ∧
    (q < 3/10 → QualityAssessment.getQualityGrade q = "F") := by
  refine ⟨?_, ?_, ?_, ?_, ?_, ?_, ?_, ?_, ?_⟩
  · have e1 : ("naturalness" == "intentPreservation") = false := by decide
    have e2 : ("naturalness" == "appropriateness") = false := by decide
    have e3 : ("intentPreservation" == "appropriateness") = false := by decide
    have e4 : ("naturalness" == "completeness") = false := by decide
    have e5 : ("intentPreservation" == "completeness") = false := by decide
    have e6 : ("appropriateness" == "completeness") = false := by decide
    have hn : QualityAssessment.weightFor "naturalness" = 3/10 := by
      norm_num [QualityAssessment.weightFor, QualityAssessment.weights, List.find?]
    have hi : QualityAssessment.weightFor "intentPreservation" = 3/10 := by
      norm_num [QualityAssessment.weightFor, QualityAssessment.weights, List.find?,
        e1]
    have ha : QualityAssessment.weightFor "appropriateness" = 1/4 := by
      norm_num [QualityAssessment.weightFor, QualityAssessment.weights, List.find?,
        e2, e3]
    have hc : QualityAssessment.weightFor "completeness" = 3/20 := by
      norm_num [QualityAssessment.weightFor, QualityAssessment.weights, List.find?,
        e4, e5, e6]
    simp only [QualityAssessment.calculateOverallScore,
      QualityAssessment.scoresEntries, List.foldl, hn, hi, ha, hc]
    rw [if_pos (by norm_num)]
    ring
  · intro h1
    unfold QualityAssessment.getQualityGrade
    rw [if_pos (by linarith)]
  · intro h1 h2
    unfold QualityAssessment.getQualityGrade
    rw [if_neg (by linarith), if_pos (by linarith)]
  · intro h1 h2
    unfold QualityAssessment.getQualityGrade
    rw [if_neg (by linarith), if_neg (by linarith), if_pos (by linarith)]
  · intro h1 h2
    unfold QualityAssessment.getQualityGrade
    rw [if_neg (by linarith), if_neg (by linarith), if_neg (by linarith),
      if_pos (by linarith)]
  · intro h1 h2
    unfold QualityAssessment.getQualityGrade
    rw [if_neg (by linarith), if_neg (by linarith), if_neg (by linarith),
      if_neg (by linarith), if_pos (by linarith)]
  · intro h1 h2
    unfold QualityAssessment.getQualityGrade
    rw [if_neg (by linarith), if_neg (by linarith), if_neg (by linarith),
      if_neg (by linarith), if_neg (by linarith), if_pos (by linarith)]
  · intro h1 h2
    unfold QualityAssessment.getQualityGrade
    rw [if_neg (by linarith), if_neg (by linarith), if_neg (by linarith),
      if_neg (by linarith), if_neg (by linarith), if_neg (by linarith),
      if_pos (by linarith)]
  · intro h1
    unfold QualityAssessment.getQualityGrade
    rw [if_neg (by linarith), if_neg (by linarith), if_neg (by linarith),
      if_neg (by linarith), if_neg (by linarith), if_neg (by linarith),
      if_neg (by linarith)]

theorem c8_quality_score_witness :
    QualityAssessment.calculateOverallScore
      ⟨(1 : ℚ), 1/2, 1/2, 0⟩ =
      ((1 : ℚ) * (3/10) + (1/2) * (3/10) + (1/2) * (1/4) + 0 * (3/20)) /
      (3/10 + 3/10 + 1/4 + 3/20) ∧
    QualityAssessment.getQualityGrade (17/20) = "A" ∧
    QualityAssessment.getQualityGrade (1/4) = "F" :=
  ⟨(c8_quality_score ⟨(1 : ℚ), 1/2, 1/2, 0⟩ 0).1,
   (c8_quality_score ⟨(1 : ℚ), 1/2, 1/2, 0⟩ (17/20)).2.2.1 (by norm_num) (by norm_num),
   (c8_quality_score ⟨(1 : ℚ), 1/2, 1/2, 0⟩ (1/4)).2.2.2.2.2.2.2.2 (by norm_num)⟩

namespace SentenceGenerator

def greetingsMorning : List Str :=
  [lit "おはようございます", lit "お疲れ様です", lit "朝からお忙しい中"]

def greetingsAfternoon : List Str :=
  [lit "お疲れ様です", lit "いつもお世話になっております", lit "午後もお忙しい中"]

def greetingsEvening : List Str :=
  [lit "お疲れ様でした", lit "遅い時間に恐縮です", lit "本日もお疲れ様です"]

def greetingsGeneral : List Str :=
  [lit "いつもお世話になっております", lit "お疲れ様です", lit "恐れ入ります"]

def cushionsRequest : List Str :=
  [lit "お忙しい中恐縮ですが", lit "もしよろしければ", lit "お手数をおかけしますが",
   lit "ご都合がつく際に", lit "お時間のある時に", lit "恐れ入りますが"]

def cushionsUrgent : List Str :=
  [lit "急ぎで恐縮ですが", lit "緊急でお願いがあります", lit "至急で申し訳ございませんが",
   lit "大変恐縮ですが急ぎで", lit "お忙しい中申し訳ございませんが緊急で"]

def cushionsSuperior : List Str :=
  [lit "お忙しい中申し訳ございませんが", lit "恐れ入りますが",
   lit "不躾なお願いで申し訳ございませんが", lit "ご多忙中恐縮ですが",
   lit "お時間をいただき恐縮ですが"]

def cushionsCasual : List Str :=
  [lit "よろしければ", lit "もしお時間があるときに", lit "お疲れ様です",
   lit "いつもありがとうございます"]

def closingsRequest : List Str :=
  [lit "よろしくお願いいたします", lit "ご検討のほどよろしくお願いします",
   lit "お忙しい中ありがとうございます", lit "どうぞよろしくお願いします"]

def closingsQuestion : List Str :=
  [lit "お教えいただけますと幸いです", lit "ご回答いただければと思います",
   lit "お聞かせいただけませんでしょうか", lit "ご意見をお聞かせください"]

def closingsUrgent : List Str :=
  [lit "急ぎで申し訳ございませんが、よろしくお願いします",
   lit "お忙しい中恐縮ですが、お急ぎでお願いします",
   lit "至急対応していただけますと助かります"]

def closingsGratitude : List Str :=
  [lit "いつもありがとうございます", lit "お忙しい中ありがとうございました",
   lit "ご協力いただきありがとうございます", lit "心より感謝申し上げます"]

/-- getRandomElement models array[Math.floor(Math.random()*array.length)],
    with the random stream rho read at index r and the index advanced; an
    out-of-range subscript (impossible while rho stays in [0,1)) yields the
    empty string, the falsy stand-in for undefined. -/
def getRandomElement (arr : List Str) (rho : Nat → ℚ) (r : Nat) : Str × Nat :=
  (arr.getD (Int.toNat ⌊rho r * (arr.length : ℚ)⌋) [], r + 1)

def testAny (pats : List Str) (t : Str) : Bool := pats.any (fun p => containsB t p)

/-- stripAltsAux scans once left to right, deleting the first alternative of
    pats that matches at each position: replace(/a|b|c/g, ''). -/
def stripAltsAux (pats : List Str) : Nat → Str → Str
  | _, [] => []
  | 0, s => s
  | fuel + 1, c :: cs =>
    match pats.find? (fun p => p.isPrefixOf (c :: cs)) with
    | some p => stripAltsAux pats fuel ((c :: cs).drop p.length)
    | none => c :: stripAltsAux pats fuel cs

def stripAlts (pats : List Str) (s : Str) : Str := stripAltsAux pats s.length s

/-- jsWs is the JS \s class (the whitespace set of trim as well). -/
def jsWs (c : Char) : Bool :=
  c = ' ' || c = '\t' || c = '\n' || c = '\r' || c = '\u000b' || c = '\u000c' ||
    c = ' ' || c = '　' || c = '﻿' || c = ' ' || c = ' '

def jsTrim (s : Str) : Str :=
  ((s.dropWhile jsWs).reverse.dropWhile jsWs).reverse

/-- collapseWsAux is replace(/\s+/g, ' '): each maximal whitespace run
    becomes one space. -/
def collapseWsAux : Nat → Str → Str
  | _, [] => []
  | 0, s => s
  | fuel + 1, c :: cs =>
    if jsWs c then ' ' :: collapseWsAux fuel (cs.dropWhile jsWs)
    else c :: collapseWsAux fuel cs

def collapseWs (s : Str) : Str := collapseWsAux s.length s

/-- Components is what analyzeTextComponents returns; the keyWords and length
    fields are never read by the generation path and are omitted. -/
structure Components where
  mainContent : Str
  requestType : String
  emotionalTone : String
  hasQuestion : Bool
  hasRequest : Bool
deriving DecidableEq, Repr

def extractMainContent (text : Str) : Str :=
  jsTrim (stripAlts [lit "だよね", lit "じゃん", lit "だっけ"]
    (stripAlts [lit "ちょっと", lit "やっぱり", lit "とりあえず"] text))

def identifyRequestType (t : Str) : String :=
  if testAny [lit "確認", lit "チェック", lit "見て"] t then "verification"
  else if testAny [lit "教えて", lit "聞きたい", lit "質問"] t then "information"
  else if testAny [lit "作って", lit "やって", lit "対応"] t then "action"
  else if testAny [lit "送って", lit "共有"] t then "sharing"
  else if testAny [lit "会議", lit "打ち合わせ", lit "ミーティング"] t then "meeting"
  else if testAny [lit "報告", lit "連絡", lit "お知らせ"] t then "notification"
  else "general"

def detectEmotionalTone (t : Str) : String :=
  if testAny [lit "急", lit "緊急", lit "至急", lit "ヤバい", lit "マジで"] t then
    "urgent"
  else if testAny [lit "ありがとう", lit "感謝", lit "助かる"] t then "grateful"
  else if testAny [lit "すみません", lit "申し訳", lit "ごめん"] t then "apologetic"
  else if testAny [lit "困って", lit "問題", lit "トラブル"] t then "troubled"
  else if testAny [lit "よろしく", lit "お願い"] t then "requesting"
  else "neutral"

def analyzeTextComponents (text : Str) : Components :=
  { mainContent := extractMainContent text
    requestType := identifyRequestType text
    emotionalTone := detectEmotionalTone text
    hasQuestion := containsB text (lit "？") || containsB text (lit "?")
    hasRequest := testAny [lit "して", lit "やって", lit "お願い"] text }

structure Plan where
  greeting : Str
  cushion : Option Str
  mainBody : Str
  closing : Option Str
  additionalCourtesy : Option Str
deriving DecidableEq, Repr

def selectGreeting (ctx : ContextAnalyzer.Context) (rho : Nat → ℚ) (r : Nat) :
    Str × Nat :=
  if ctx.timeContext = "" then getRandomElement greetingsGeneral rho r
  else
    getRandomElement
      (if ctx.timeContext = "morning" then greetingsMorning
       else if ctx.timeContext = "afternoon" then greetingsAfternoon
       else if ctx.timeContext = "evening" then greetingsEvening
       else greetingsGeneral) rho r

def selectCushion (comp : Components) (ctx : ContextAnalyzer.Context)
    (level : Nat) (rho : Nat → ℚ) (r : Nat) : Option Str × Nat :=
  if level ≤ 2 then (none, r)
  else if comp.emotionalTone = "urgent" then
    let g := getRandomElement cushionsUrgent rho r
    (some g.1, g.2)
  else if ctx.relationship = "superior" then
    let g := getRandomElement cushionsSuperior rho r
    (some g.1, g.2)
  else if comp.requestType = "action" || comp.hasRequest then
    let g := getRandomElement cushionsRequest rho r
    (some g.1, g.2)
  else
    let g := getRandomElement cushionsCasual rho r
    (some g.1, g.2)

def wordMappings : List (Str × Str) := [
  (lit "アプデ", lit "アップデート"), (lit "バグ", lit "不具合"),
  (lit "チェック", lit "ご確認"), (lit "やって", lit "ご対応"),
  (lit "して", lit "していただく"), (lit "マジで", lit "非常に"),
  (lit "ヤバい", lit "大変な状況")]

def applyWordTransformations (t : Str) : Str :=
  wordMappings.foldl (fun acc kv => replaceAll kv.1 kv.2 acc) t

def applyPhraseTransformations (t : Str) (level : Nat) : Str :=
  let r1 := replaceAll (lit "確認して")
    (if 4 ≤ level then lit "ご確認いただけますでしょうか" else lit "ご確認ください") t
  let r2 := replaceAll (lit "教えて")
    (if 3 ≤ level then lit "お教えいただけませんでしょうか" else lit "お教えください") r1
  replaceAll (lit "送って")
    (if 3 ≤ level then lit "お送りいただけませんでしょうか" else lit "お送りください") r2

def applySentenceAdjustments (t : Str) (comp : Components) (level : Nat) : Str :=
  if !((lit "。").isSuffixOf t || (lit "？").isSuffixOf t ||
      (lit "です").isSuffixOf t || (lit "ます").isSuffixOf t) then
    if comp.hasQuestion then
      t ++ (if 3 ≤ level then lit "でしょうか？" else lit "ですか？")
    else
      t ++ (if 3 ≤ level then lit "いただけますでしょうか。" else lit "お願いします。")
  else t

def transformMainContent (comp : Components) (level : Nat) : Str :=
  applySentenceAdjustments
    (applyPhraseTransformations (applyWordTransformations comp.mainContent) level)
    comp level

def selectClosing (comp : Components) (level : Nat) (rho : Nat → ℚ) (r : Nat) :
    Option Str × Nat :=
  if level ≤ 2 then (none, r)
  else if comp.hasQuestion then
    let g := getRandomElement closingsQuestion rho r
    (some g.1, g.2)
  else if comp.emotionalTone = "urgent" then
    let g := getRandomElement closingsUrgent rho r
    (some g.1, g.2)
  else if comp.emotionalTone = "grateful" then
    let g := getRandomElement closingsGratitude rho r
    (some g.1, g.2)
  else
    let g := getRandomElement closingsRequest rho r
    (some g.1, g.2)

def addCourtesyElements (ctx : ContextAnalyzer.Context) (rho : Nat → ℚ)
    (r : Nat) : Option Str × Nat :=
  let e1 : List Str :=
    if rho r > 1/2 then
      [lit "何かご不明な点がございましたら、お気軽にお声かけください。"]
    else []
  let e2 : List Str :=
    if ctx.relationship = "superior" then
      [lit "ご多忙中にも関わらず、いつもありがとうございます。"]
    else []
  (if e1 ++ e2 ≠ [] then some (List.intercalate (lit " ") (e1 ++ e2)) else none,
   r + 1)

def planSentenceStructure (comp : Components) (ctx : ContextAnalyzer.Context)
    (level : Nat) (rho : Nat → ℚ) (r : Nat) : Plan × Nat :=
  let g := selectGreeting ctx rho r
  let cu := selectCushion comp ctx level rho g.2
  let cl := selectClosing comp level rho cu.2
  let ac := if 4 ≤ level then addCourtesyElements ctx rho cl.2 else (none, cl.2)
  ({ greeting := g.1, cushion := cu.1,
     mainBody := transformMainContent comp level,
     closing := cl.1, additionalCourtesy := ac.1 }, ac.2)

def emojisRequest : List Str := [lit "🙏", lit "💦", lit "✨"]
def emojisQuestion : List Str := [lit "❓", lit "🤔", lit "💭"]
def emojisUrgent : List Str := [lit "⚡", lit "🔥", lit "💦"]
def emojisGrateful : List Str := [lit "😊", lit "🙏", lit "✨"]
def emojisGeneral : List Str := [lit "😊", lit "✨", lit "🌸"]

def determineEmojiContext (t : Str) : String :=
  if testAny [lit "お願い", lit "いただけ"] t then "request"
  else if testAny [lit "でしょうか", lit "ますか"] t then "question"
  else if testAny [lit "急", lit "至急", lit "緊急"] t then "urgent"
  else if testAny [lit "ありがとう", lit "感謝"] t then "grateful"
  else "general"

def addEmoji (t : Str) (rho : Nat → ℚ) (r : Nat) : Str × Nat :=
  let k := determineEmojiContext t
  let avail :=
    if k = "request" then emojisRequest
    else if k = "question" then emojisQuestion
    else if k = "urgent" then emojisUrgent
    else if k = "grateful" then emojisGrateful
    else emojisGeneral
  let e := getRandomElement avail rho r
  (t ++ lit " " ++ e.1, e.2)

def assembleSentence (st : Plan) (level : Nat) (rho : Nat → ℚ) (r : Nat) :
    Str × Nat :=
  let parts : List Str :=
    (if 3 ≤ level ∧ st.greeting ≠ [] then [st.greeting ++ lit "。"] else []) ++
    (match st.cushion with
     | some c => if c ≠ [] then [c ++ lit "、"] else []
     | none => []) ++
    [st.mainBody] ++
    (match st.closing with
     | some c => if c ≠ [] then [c ++ lit "。"] else []
     | none => []) ++
    (match st.additionalCourtesy with
     | some a => if a ≠ [] then [a] else []
     | none => [])
  let joined := jsTrim (collapseWs (List.intercalate (lit " ") parts))
  if 4 ≤ level then addEmoji joined rho r else (joined, r)

def generatePoliteVersion (text : Str) (ctx : ContextAnalyzer.Context)
    (level : Nat) (rho : Nat → ℚ) (r : Nat) : Str × Nat :=
  let comp := analyzeTextComponents text
  let ps := planSentenceStructure comp ctx level rho r
  assembleSentence ps.1 level rho ps.2

/-- Variation is one candidate record; characteristics is present only on the
    four level variations and style only on the two style variations. -/
structure Variation where
  level : Nat
  text : Str
  description : String
  characteristics : Option (List String)
  style : Option String
deriving DecidableEq, Repr

def getLevelDescription (level : Nat) : String :=
  if level = 1 then "基本的な丁寧語"
  else if level = 2 then "標準的な敬語"
  else if level = 3 then "丁寧で気遣いのある表現"
  else if level = 4 then "非常に丁寧で配慮深い表現"
  else if level = 5 then "最高レベルの敬語と絵文字付き"
  else "標準"

def getLevelCharacteristics (level : Nat) : List String :=
  if level = 1 then ["です・ます調", "基本的な敬語"]
  else if level = 2 then ["クッション言葉", "より丁寧な表現"]
  else if level = 3 then ["挨拶付き", "配慮表現", "適切な締め"]
  else if level = 4 then ["高度な敬語", "追加の気遣い", "絵文字"]
  else if level = 5 then ["最高敬語", "複数の配慮表現", "感情豊かな絵文字"]
  else []

def levelVariation (l : Nat) (t : Str) : Variation :=
  { level := l, text := t, description := getLevelDescription l,
    characteristics := some (getLevelCharacteristics l), style := none }

def generateStyleVariations (text : Str) (ctx : ContextAnalyzer.Context)
    (level : Nat) (rho : Nat → ℚ) (r : Nat) : List Variation × Nat :=
  let bv := generatePoliteVersion text
    { ctx with situation := "business", relationship := "superior" } level rho r
  let fv := generatePoliteVersion text
    { ctx with situation := "casual", relationship := "colleague" } level rho bv.2
  ([{ level := level, text := bv.1, description := "ビジネス調",
      characteristics := none, style := some "business" },
    { level := level, text := fv.1, description := "親しみやすい丁寧調",
      characteristics := none, style := some "friendly" }], fv.2)

def generateVariations (text : Str) (ctx : ContextAnalyzer.Context)
    (baseLevel : Nat) (rho : Nat → ℚ) (r : Nat) : List Variation × Nat :=
  let v2 := generatePoliteVersion text ctx 2 rho r
  let v3 := generatePoliteVersion text ctx 3 rho v2.2
  let v4 := generatePoliteVersion text ctx 4 rho v3.2
  let v5 := generatePoliteVersion text ctx 5 rho v4.2
  let sv := generateStyleVariations text ctx baseLevel rho v5.2
  ([levelVariation 2 v2.1, levelVariation 3 v3.1,
    levelVariation 4 v4.1, levelVariation 5 v5.1] ++ sv.1, sv.2)

end SentenceGenerator

namespace Engine

structure Options where
  level : Option Nat
  preferredApproach : Option String
deriving DecidableEq, Repr

/-- EnginePrefs is this.userPreferences; the unused enableEmoji and
    contextSensitivity fields are omitted. -/
structure EnginePrefs where
  defaultLevel : Nat
  preferredApproach : Option String
deriving DecidableEq, Repr

def initialPrefs : EnginePrefs := { defaultLevel := 3, preferredApproach := none }

/-- determineTargetLevel: a truthy in-range explicit level wins; otherwise
    the level starts at 3, is raised by the context rules and the learned
    default level (itself subject to the truthiness check), and is capped
    at 5. -/
def determineTargetLevel (prefs : EnginePrefs) (ctx : ContextAnalyzer.Context)
    (opts : Options) : Nat :=
  match opts.level with
  | some l =>
    if l ≠ 0 ∧ 1 ≤ l ∧ l ≤ 5 then l else autoLevel prefs ctx
  | none => autoLevel prefs ctx
where
  autoLevel (prefs : EnginePrefs) (ctx : ContextAnalyzer.Context) : Nat :=
    let t0 := 3
    let t1 := if ctx.relationship = "superior" then max t0 4
      else if ctx.relationship = "subordinate" then max t0 2 else t0
    let t2 := if ctx.urgency = "urgent" then max t1 3 else t1
    let t3 := if ctx.situation = "business" then max t2 3 else t2
    let t4 := if ctx.formalityLevel = "very-casual" then max t3 4 else t3
    let t5 := if prefs.defaultLevel ≠ 0 then max t4 prefs.defaultLevel else t4
    min 5 t5

/-- Candidate is one element of the conversions array; the details and
    characteristics fields are never read downstream and are omitted. -/
structure Candidate where
  approach : String
  text : Str
  level : Nat
  confidence : ℚ
  description : String
deriving DecidableEq, Repr

def wordCand (tl : Nat) (t : Str) : Candidate :=
  { approach := "word-level", text := t, level := tl, confidence := 3/4,
    description := "単語・フレーズレベルの丁寧語変換" }

def sentCand (tl : Nat) (t : Str) : Candidate :=
  { approach := "sentence-generation", text := t, level := tl,
    confidence := 9/10, description := "フル文章再構築による自然な丁寧語" }

def varCand (vv : SentenceGenerator.Variation) : Candidate :=
  { approach := "level-variation", text := vv.text, level := vv.level,
    confidence := 4/5, description := vv.description }

def ctxCand (sit : String) (tl : Nat) (t : Str) : Candidate :=
  { approach := "context-optimized", text := t, level := tl,
    confidence := 17/20, description := sit ++ "コンテキスト最適化版" }

/-- generateConversions builds the candidate list: word-level, sentence
    generation, the six level variations, and (outside the general
    situation) the context-optimized version, whose spread context equals
    the original context; the context-optimized generation and its random
    draws happen only in that branch. -/
def generateConversions (text : Str) (ctx : ContextAnalyzer.Context)
    (targetLevel : Nat) (rho : Nat → ℚ) (r : Nat) : List Candidate × Nat :=
  let w := WordConverter.convertText text ctx
  let s := SentenceGenerator.generatePoliteVersion text ctx targetLevel rho r
  let v := SentenceGenerator.generateVariations text ctx targetLevel rho s.2
  let co := SentenceGenerator.generatePoliteVersion text ctx targetLevel rho v.2
  ([wordCand targetLevel w.text, sentCand targetLevel s.1] ++
     v.1.map varCand ++
     (if ctx.situation ≠ "general" then [ctxCand ctx.situation targetLevel co.1]
      else []),
   if ctx.situation ≠ "general" then co.2 else v.2)

def scoreConversion (prefs : EnginePrefs) (conv : Candidate)
    (ctx : ContextAnalyzer.Context) (opts : Options) : ℚ :=
  let base := conv.confidence * 100
  let s1 := if conv.approach = "sentence-generation" then base + 10 else base
  let s2 := if conv.approach = "context-optimized" then s1 + 15 else s1
  let tl := determineTargetLevel prefs ctx opts
  let s3 := s2 - |(conv.level : ℚ) - (tl : ℚ)| * 5
  if ctx.needsImprovement.needsImprovement ∧
      ctx.needsImprovement.issues.length * 20 < conv.text.length then
    s3 + 20
  else s3

/-- pickBest models sort((a,b) => b.score - a.score)[0]: the stable
    descending sort leaves the first element of maximal score in front. -/
def pickBest (scored : List (Candidate × ℚ)) : Option (Candidate × ℚ) :=
  match scored with
  | [] => none
  | c :: rest => some (rest.foldl (fun b x => if x.2 > b.2 then x else b) c)

def selectBestConversion (prefs : EnginePrefs) (convs : List Candidate)
    (ctx : ContextAnalyzer.Context) (opts : Options) : Option Candidate :=
  match (match opts.preferredApproach with
         | some a => convs.find? (fun c => decide (c.approach = a))
         | none => none) with
  | some c => some c
  | none =>
    (pickBest (convs.map (fun c => (c, scoreConversion prefs c ctx opts)))).map
      Prod.fst

def analyzeImprovements (originalText convertedText : Str) : List String :=
  (if originalText.length * 13 < convertedText.length * 10 then
    ["文章が十分に丁寧な長さになりました"] else []) ++
  (let added := [lit "お疲れ", lit "よろしく", lit "ありがとう", lit "すみません",
      lit "いつもお世話"].filter (fun m =>
        !(containsB originalText m) && containsB convertedText m)
   if added ≠ [] then
     ["丁寧な表現を追加: " ++ WordConverter.joinComma added] else []) ++
  (let replaced := [lit "アプデ", lit "バグ", lit "やって", lit "して",
      lit "マジで"].filter (fun m =>
        containsB originalText m && !(containsB convertedText m))
   if replaced ≠ [] then
     ["カジュアルな表現を改善: " ++ toString replaced.length ++ "個の単語"] else [])

/-- generateSuggestions of the engine: context advice, word-level advice,
    quality advice (always empty, since analyzeSentenceQuality never fills
    its suggestions array), and the level recommendation. -/
def engineSuggestions (selText : Str) (selLevel : Nat)
    (ctx : ContextAnalyzer.Context) : List Suggestion :=
  (ContextAnalyzer.generateSuggestions ctx).map
    (fun s => ({ type := "context", message := s } : Suggestion)) ++
  WordConverter.getSuggestions selText ctx ++
  (if selLevel < 4 ∧ ctx.relationship = "superior" then
    [({ type := "level",
        message := "上司への連絡の場合、レベル4以上をお勧めします",
        action := some "increase_level" } : Suggestion)]
   else [])

/-- CtxField: the success result carries the full context descriptor; the
    fallback carries the three-field literal object. -/
inductive CtxField where
  | full (c : ContextAnalyzer.Context)
  | partialFallback
deriving DecidableEq, Repr

structure ConvResult where
  original : Str
  converted : Str
  context : CtxField
  level : Nat
  variations : List Candidate
  suggestions : List Suggestion
  processingTime : Nat
  confidence : ℚ
  improvements : List String
  detectedIssues : ContextAnalyzer.NeedsImp
  metaConversions : Nat
  metaTimestamp : String
  metaEngine : String
  metaError : Option String
deriving DecidableEq, Repr

def createFallbackResponse (ts : String) (originalText : Str) (e : String) :
    ConvResult :=
  { original := originalText,
    converted := originalText ++ lit "をお願いします。",
    context := CtxField.partialFallback, level := 2, variations := [],
    suggestions :=
      [{ type := "error",
         message := "システムエラーが発生しました。シンプルな変換を適用しました。" }],
    processingTime := 0, confidence := 3/10, improvements := [],
    detectedIssues :=
      { needsImprovement := true,
        issues := ["processing_error"], severity := none },
    metaConversions := 1, metaTimestamp := ts, metaEngine := "fallback",
    metaError := some e }

/-- convertText: exc injects whether the try body threw (and the thrown
    message); the none branch is the successful pipeline.  The inner
    none-selection branch is unreachable because the candidate list is never
    empty; it stands for the in-try TypeError that the catch would turn into
    the same fallback. -/
def convertText (prefs : EnginePrefs) (hour : Nat) (rho : Nat → ℚ)
    (r ptime : Nat) (ts : String) (text : Str) (opts : Options)
    (exc : Option String) : ConvResult :=
  match exc with
  | some e => createFallbackResponse ts text e
  | none =>
    let ctx := ContextAnalyzer.analyzeContext hour text
    let targetLevel := determineTargetLevel prefs ctx opts
    let convs := generateConversions text ctx targetLevel rho r
    match selectBestConversion prefs convs.1 ctx opts with
    | some sel =>
      { original := text, converted := sel.text,
        context := CtxField.full ctx, level := sel.level,
        variations := convs.1,
        suggestions := engineSuggestions sel.text sel.level ctx,
        processingTime := ptime,
        confidence := if sel.confidence = 0 then 17/20 else sel.confidence,
        improvements := analyzeImprovements text sel.text,
        detectedIssues := ctx.needsImprovement,
        metaConversions := convs.1.length, metaTimestamp := ts,
        metaEngine := "enhanced-v2.0", metaError := none }
    | none => createFallbackResponse ts text "TypeError"

theorem foldl_best_mem (c : Candidate × ℚ) (rest : List (Candidate × ℚ)) :
    rest.foldl (fun b x => if x.2 > b.2 then x else b) c ∈ c :: rest := by
  induction rest generalizing c with
  | nil => simp
  | cons y ys ih =>
    rw [List.foldl_cons]
    rcases List.mem_cons.mp (ih (if y.2 > c.2 then y else c)) with he | hm
    · rw [he]
      split_ifs
      · exact List.mem_cons_of_mem _ (List.mem_cons_self _ _)
      · exact List.mem_cons_self _ _
    · exact List.mem_cons_of_mem _ (List.mem_cons_of_mem _ hm)

theorem foldl_best_ge (c : Candidate × ℚ) (rest : List (Candidate × ℚ)) :
    ∀ x ∈ c :: rest, x.2 ≤ (rest.foldl (fun b x => if x.2 > b.2 then x else b) c).2 := by
  induction rest generalizing c with
  | nil =>
    intro x hx
    rcases List.mem_cons.mp hx with rfl | h
    · exact le_refl _
    · exact absurd h (List.not_mem_nil x)
  | cons y ys ih =>
    intro x hx
    rw [List.foldl_cons]
    have hbase : c.2 ≤ (if y.2 > c.2 then y else c).2 ∧
        y.2 ≤ (if y.2 > c.2 then y else c).2 := by
      split_ifs with h
      · exact ⟨le_of_lt h, le_refl _⟩
      · exact ⟨le_refl _, le_of_not_lt h⟩
    rcases List.mem_cons.mp hx with rfl | hm
    · exact le_trans hbase.1 (ih _ _ (List.mem_cons_self _ _))
    · rcases List.mem_cons.mp hm with rfl | hm2
      · exact le_trans hbase.2 (ih _ _ (List.mem_cons_self _ _))
      · exact ih _ x (List.mem_cons_of_mem _ hm2)

theorem pickBest_spec {scored : List (Candidate × ℚ)} {x : Candidate × ℚ}
    (hx : x ∈ scored) :
    ∃ b, pickBest scored = some b ∧ b ∈ scored ∧ ∀ y ∈ scored, y.2 ≤ b.2 := by
  cases scored with
  | nil => exact absurd hx (List.not_mem_nil x)
  | cons c rest =>
    exact ⟨_, rfl, foldl_best_mem c rest, foldl_best_ge c rest⟩

theorem variations_levels (text : Str) (ctx : ContextAnalyzer.Context)
    (bl : Nat) (rho : Nat → ℚ) (r : Nat) :
    (SentenceGenerator.generateVariations text ctx bl rho r).1.map
      (fun v => v.level) = [2, 3, 4, 5, bl, bl] := rfl

theorem generateConversions_char (text : Str) (ctx : ContextAnalyzer.Context)
    (tl : Nat) (rho : Nat → ℚ) (r : Nat) :
    (∃ c ∈ (generateConversions text ctx tl rho r).1,
       c.approach = "sentence-generation" ∧ c.confidence = 9/10 ∧
       c.level = tl) ∧
    (∀ c ∈ (generateConversions text ctx tl rho r).1,
       c.level = tl ∨ (c.approach = "level-variation" ∧ c.confidence = 4/5 ∧
         (c.level = 2 ∨ c.level = 3 ∨ c.level = 4 ∨ c.level = 5))) := by
  constructor
  · refine ⟨sentCand tl
      (SentenceGenerator.generatePoliteVersion text ctx tl rho r).1, ?_,
      rfl, rfl, rfl⟩
    unfold generateConversions
    simp [List.mem_append]
  · intro c hc
    unfold generateConversions at hc
    simp only [List.mem_append, List.mem_cons, List.mem_map,
      List.not_mem_nil, or_false, List.mem_singleton] at hc
    rcases hc with ((rfl | rfl) | ⟨vv, hvv, rfl⟩) | hite
    · left
      rfl
    · left
      rfl
    · have hl := List.mem_map_of_mem (fun v => v.level) hvv
      rw [variations_levels] at hl
      simp only [List.mem_cons, List.not_mem_nil, or_false] at hl
      rcases hl with h | h | h | h | h | h
      · right
        exact ⟨rfl, rfl, Or.inl h⟩
      · right
        exact ⟨rfl, rfl, Or.inr (Or.inl h)⟩
      · right
        exact ⟨rfl, rfl, Or.inr (Or.inr (Or.inl h))⟩
      · right
        exact ⟨rfl, rfl, Or.inr (Or.inr (Or.inr h))⟩
      · left
        exact h
      · left
        exact h
    · by_cases hsit : ctx.situation ≠ "general"
      · rw [if_pos hsit] at hite
        rw [List.mem_singleton] at hite
        subst hite
        left
        rfl
      · rw [if_neg hsit] at hite
        exact absurd hite (List.not_mem_nil c)

theorem score_lv_bound (prefs : EnginePrefs) (ctx : ContextAnalyzer.Context)
    (opts : Options) (c : Candidate)
    (htl : determineTargetLevel prefs ctx opts = 2)
    (ha : c.approach = "level-variation") (hco : c.confidence = 4/5)
    (hl : c.level = 3 ∨ c.level = 4 ∨ c.level = 5) :
    scoreConversion prefs c ctx opts ≤ 95 := by
  unfold scoreConversion
  rw [htl, ha, hco]
  have e1 : (("level-variation" : String) = "sentence-generation") = False :=
    eq_false (by decide)
  have e2 : (("level-variation" : String) = "context-optimized") = False :=
    eq_false (by decide)
  simp only [e1, e2, if_false]
  have h3 : (3 : ℚ) ≤ (c.level : ℚ) := by
    rcases hl with h | h | h <;> rw [h] <;> push_cast <;> norm_num
  have habs : |(c.level : ℚ) - ((2 : Nat) : ℚ)| =
      (c.level : ℚ) - ((2 : Nat) : ℚ) := by
    apply abs_of_nonneg
    push_cast
    linarith
  rw [habs]
  split_ifs with hb <;> push_cast <;> linarith

theorem score_sent_ge (prefs : EnginePrefs) (ctx : ContextAnalyzer.Context)
    (opts : Options) (c : Candidate)
    (htl : determineTargetLevel prefs ctx opts = 2)
    (ha : c.approach = "sentence-generation") (hco : c.confidence = 9/10)
    (hl : c.level = 2) :
    100 ≤ scoreConversion prefs c ctx opts := by
  unfold scoreConversion
  rw [htl, ha, hco, hl]
  have e1 : (("sentence-generation" : String) = "sentence-generation") = True :=
    eq_true rfl
  have e2 : (("sentence-generation" : String) = "context-optimized") = False :=
    eq_false (by decide)
  simp only [e1, e2, if_true, if_false]
  have habs : |((2 : Nat) : ℚ) - ((2 : Nat) : ℚ)| = 0 := by
    rw [sub_self]
    exact abs_zero
  rw [habs]
  split_ifs with hb <;> norm_num

theorem convertText_none_level (prefs : EnginePrefs) (hour : Nat)
    (rho : Nat → ℚ) (r ptime : Nat) (ts : String) (text : Str)
    (opts : Options) {sel : Candidate}
    (hsel : selectBestConversion prefs
      (generateConversions text (ContextAnalyzer.analyzeContext hour text)
        (determineTargetLevel prefs (ContextAnalyzer.analyzeContext hour text)
          opts) rho r).1
      (ContextAnalyzer.analyzeContext hour text) opts = some sel) :
    (convertText prefs hour rho r ptime ts text opts none).level = sel.level := by
  unfold convertText
  simp only [hsel]

end Engine

/-- Claim C1: convertText is total for every input (the result is well
    formed and keeps the original text in both branches); when the
    generation throws, the caught-error result is exactly the fallback,
    whose converted text appends をお願いします。, whose level is 2, whose
    confidence is 0.3, whose suggestions are a single error-type entry, and
    whose metadata carries the error message; and the fallback itself is a
    total constructor. -/
theorem c1_convert_never_throws (prefs : Engine.EnginePrefs) (hour : Nat)
    (rho : Nat → ℚ) (r ptime : Nat) (ts : String) (text : Str)
    (opts : Engine.Options) (exc : Option String) :
    (Engine.convertText prefs hour rho r ptime ts text opts exc).original =
      text ∧
    (∀ e, exc = some e →
      Engine.convertText prefs hour rho r ptime ts text opts exc =
        Engine.createFallbackResponse ts text e ∧
      (Engine.createFallbackResponse ts text e).converted =
        text ++ lit "をお願いします。" ∧
      (Engine.createFallbackResponse ts text e).level = 2 ∧
      (Engine.createFallbackResponse ts text e).confidence = 3/10 ∧
      (Engine.createFallbackResponse ts text e).suggestions.length = 1 ∧
      (∀ s ∈ (Engine.createFallbackResponse ts text e).suggestions,
        s.type = "error") ∧
      (Engine.createFallbackResponse ts text e).metaError = some e) := by
  constructor
  · cases exc with
    | some e => rfl
    | none =>
      unfold Engine.convertText
      cases hsel : Engine.selectBestConversion prefs
          (Engine.generateConversions text
            (ContextAnalyzer.analyzeContext hour text)
            (Engine.determineTargetLevel prefs
              (ContextAnalyzer.analyzeContext hour text) opts) rho r).1
          (ContextAnalyzer.analyzeContext hour text) opts with
      | some sel => simp only [hsel]
      | none => simp only [hsel]; rfl
  · intro e he
    subst he
    refine ⟨rfl, rfl, rfl, rfl, rfl, ?_, rfl⟩
    intro s hs
    have hs2 : s ∈
        [({ type := "error",
            message :=
              "システムエラーが発生しました。シンプルな変換を適用しました。" } :
              Suggestion)] := hs
    rw [List.mem_singleton] at hs2
    subst hs2
    rfl

theorem c1_convert_never_throws_witness :
    (Engine.convertText Engine.initialPrefs 0 (fun _ => 0) 0 0 "t"
      (lit "やって") { level := none, preferredApproach := none }
      (some "boom")).original = lit "やって" ∧
    Engine.convertText Engine.initialPrefs 0 (fun _ => 0) 0 0 "t"
      (lit "やって") { level := none, preferredApproach := none }
      (some "boom") =
      Engine.createFallbackResponse "t" (lit "やって") "boom" :=
  ⟨(c1_convert_never_throws Engine.initialPrefs 0 (fun _ => 0) 0 0 "t"
      (lit "やって") { level := none, preferredApproach := none }
      (some "boom")).1,
   ((c1_convert_never_throws Engine.initialPrefs 0 (fun _ => 0) 0 0 "t"
      (lit "やって") { level := none, preferredApproach := none }
      (some "boom")).2 "boom" rfl).1⟩

/-- Claim C2 counterexample: an explicitly given but out-of-range
    options.level is NOT returned outright; the guard
    options.level && options.level >= 1 && options.level <= 5 silently
    falls back to the automatic level. -/
theorem c2_counterexample :
    ({ level := some 7, preferredApproach := none } : Engine.Options).level =
      some 7 ∧
    Engine.determineTargetLevel Engine.initialPrefs
      (ContextAnalyzer.analyzeContext 0 (lit "了解"))
      { level := some 7, preferredApproach := none } ≠ 7 :=
  ⟨rfl, by decide⟩

set_option maxHeartbeats 2000000

/-- Claim C2 (amended): an explicit options.level between 1 and 5 is
    returned outright (out-of-range or falsy levels are ignored); otherwise
    the level starts at 3, is only raised (to at least 4 for superior, 2 for
    subordinate, 3 for urgent, 3 for business, 4 for very-casual, and to at
    least the learned default level capped by the clamp), and is clamped to
    at most 5.  In the scenario, input アプデしといてくれる？ with options
    level 2 yields a result whose level is 2. -/
theorem c2_target_level (prefs : Engine.EnginePrefs)
    (ctx : ContextAnalyzer.Context) (opts : Engine.Options) :
    (∀ l, opts.level = some l → 1 ≤ l → l ≤ 5 →
      Engine.determineTargetLevel prefs ctx opts = l) ∧
    (opts.level = none →
      3 ≤ Engine.determineTargetLevel prefs ctx opts ∧
      Engine.determineTargetLevel prefs ctx opts ≤ 5 ∧
      (ctx.relationship = "superior" →
        4 ≤ Engine.determineTargetLevel prefs ctx opts) ∧
      (ctx.relationship = "subordinate" →
        2 ≤ Engine.determineTargetLevel prefs ctx opts) ∧
      (ctx.urgency = "urgent" →
        3 ≤ Engine.determineTargetLevel prefs ctx opts) ∧
      (ctx.situation = "business" →
        3 ≤ Engine.determineTargetLevel prefs ctx opts) ∧
      (ctx.formalityLevel = "very-casual" →
        4 ≤ Engine.determineTargetLevel prefs ctx opts) ∧
      (prefs.defaultLevel ≠ 0 →
        min 5 prefs.defaultLevel ≤ Engine.determineTargetLevel prefs ctx opts)) ∧
    (∀ (hour : Nat) (rho : Nat → ℚ) (r ptime : Nat) (ts : String),
      (Engine.convertText prefs hour rho r ptime ts
        (lit "アプデしといてくれる？")
        { level := some 2, preferredApproach := none } none).level = 2) := by
  refine ⟨?_, ?_, ?_⟩
  · intro l hl h1 h5
    unfold Engine.determineTargetLevel
    rw [hl]
    show (if l ≠ 0 ∧ 1 ≤ l ∧ l ≤ 5 then l
      else Engine.determineTargetLevel.autoLevel prefs ctx) = l
    rw [if_pos ⟨by omega, h1, h5⟩]
  · intro h
    have he : Engine.determineTargetLevel prefs ctx opts =
        Engine.determineTargetLevel.autoLevel prefs ctx := by
      unfold Engine.determineTargetLevel
      rw [h]
    rw [he]
    refine ⟨?_, ?_, ?_, ?_, ?_, ?_, ?_, ?_⟩
    · unfold Engine.determineTargetLevel.autoLevel
      dsimp only
      split_ifs <;> omega
    · unfold Engine.determineTargetLevel.autoLevel
      dsimp only
      split_ifs <;> omega
    · intro hcond
      unfold Engine.determineTargetLevel.autoLevel
      dsimp only
      split_ifs <;> try omega
      all_goals exact absurd hcond (by assumption)
    · intro _
      unfold Engine.determineTargetLevel.autoLevel
      dsimp only
      split_ifs <;> omega
    · intro _
      unfold Engine.determineTargetLevel.autoLevel
      dsimp only
      split_ifs <;> omega
    · intro _
      unfold Engine.determineTargetLevel.autoLevel
      dsimp only
      split_ifs <;> omega
    · intro hcond
      unfold Engine.determineTargetLevel.autoLevel
      dsimp only
      split_ifs <;> try omega
      all_goals exact absurd hcond (by assumption)
    · intro hcond
      unfold Engine.determineTargetLevel.autoLevel
      dsimp only
      split_ifs <;> try omega
      all_goals exact absurd hcond (by assumption)
  · intro hour rho r ptime ts
    obtain ⟨⟨cs, hcsm, hcsa, hcsc, hcsl⟩, hall⟩ :=
      Engine.generateConversions_char (lit "アプデしといてくれる？")
        (ContextAnalyzer.analyzeContext hour (lit "アプデしといてくれる？"))
        2 rho r
    have htl2 : Engine.determineTargetLevel prefs
        (ContextAnalyzer.analyzeContext hour (lit "アプデしといてくれる？"))
        { level := some 2, preferredApproach := none } = 2 := rfl
    have hx := List.mem_map_of_mem
      (fun c => (c, Engine.scoreConversion prefs c
        (ContextAnalyzer.analyzeContext hour (lit "アプデしといてくれる？"))
        { level := some 2, preferredApproach := none })) hcsm
    obtain ⟨b, hb, hbmem, hbge⟩ := Engine.pickBest_spec hx
    obtain ⟨c0, hc0m, hc0e⟩ := List.mem_map.mp hbmem
    have hscs : 100 ≤ Engine.scoreConversion prefs cs
        (ContextAnalyzer.analyzeContext hour (lit "アプデしといてくれる？"))
        { level := some 2, preferredApproach := none } :=
      Engine.score_sent_ge prefs _ _ cs htl2 hcsa hcsc hcsl
    have h100 : 100 ≤ b.2 := le_trans hscs (hbge _ hx)
    have hlev : c0.level = 2 := by
      by_contra hne
      rcases hall c0 hc0m with h2 | ⟨ha, hc, hl245⟩
      · exact hne h2
      · have h345 : c0.level = 3 ∨ c0.level = 4 ∨ c0.level = 5 := by
          rcases hl245 with hz | hz | hz | hz
          · exact absurd hz hne
          · exact Or.inl hz
          · exact Or.inr (Or.inl hz)
          · exact Or.inr (Or.inr hz)
        have hb95 := Engine.score_lv_bound prefs _ _ c0 htl2 ha hc h345
        rw [← hc0e] at h100
        simp only at h100
        linarith
    have hselb : Engine.selectBestConversion prefs
        (Engine.generateConversions (lit "アプデしといてくれる？")
          (ContextAnalyzer.analyzeContext hour (lit "アプデしといてくれる？"))
          2 rho r).1
        (ContextAnalyzer.analyzeContext hour (lit "アプデしといてくれる？"))
        { level := some 2, preferredApproach := none } = some c0 := by
      show (Engine.pickBest
        ((Engine.generateConversions (lit "アプデしといてくれる？")
          (ContextAnalyzer.analyzeContext hour (lit "アプデしといてくれる？"))
          2 rho r).1.map
          (fun c => (c, Engine.scoreConversion prefs c
            (ContextAnalyzer.analyzeContext hour (lit "アプデしといてくれる？"))
            { level := some 2, preferredApproach := none })))).map Prod.fst =
        some c0
      rw [hb, Option.map_some', ← hc0e]
    have hfin := Engine.convertText_none_level prefs hour rho r ptime ts
      (lit "アプデしといてくれる？")
      { level := some 2, preferredApproach := none } hselb
    rw [hfin, hlev]

theorem c2_target_level_witness :
    ({ level := some 4, preferredApproach := none } : Engine.Options).level =
      some 4 ∧
    Engine.determineTargetLevel Engine.initialPrefs
      (ContextAnalyzer.analyzeContext 0 (lit "了解"))
      { level := some 4, preferredApproach := none } = 4 ∧
    (Engine.convertText Engine.initialPrefs 9 (fun _ => 0) 0 0 "t"
      (lit "アプデしといてくれる？")
      { level := some 2, preferredApproach := none } none).level = 2 :=
  ⟨rfl,
   (c2_target_level Engine.initialPrefs
     (ContextAnalyzer.analyzeContext 0 (lit "了解"))
     { level := some 4, preferredApproach := none }).1 4 rfl
     (by decide) (by decide),
   (c2_target_level Engine.initialPrefs
     (ContextAnalyzer.analyzeContext 9 (lit "了解"))
     { level := some 2, preferredApproach := none }).2.2 9 (fun _ => 0) 0 0 "t"⟩

namespace FeedbackLearning

/-- mapGet models JavaScript Map.prototype.get over an insertion-ordered
    association list. -/
def mapGet {α : Type} (m : List (Str × α)) (k : Str) : Option α :=
  (m.find? (fun kv => decide (kv.1 = k))).map Prod.snd

/-- mapSet models Map.prototype.set: an existing key keeps its position and
    gets the new value, a new key is appended. -/
def mapSet {α : Type} (m : List (Str × α)) (k : Str) (v : α) : List (Str × α) :=
  if m.any (fun kv => decide (kv.1 = k)) then
    m.map (fun kv => if kv.1 = k then (k, v) else kv)
  else m ++ [(k, v)]

/-- LearningPattern is one value of this.learningPatterns; negative and
    positive entries use pattern/patternType, correction entries use
    lfrom/lto/correctionType (from and to in the source). -/
structure LearningPattern where
  type : String
  pattern : Option Str
  patternType : Option String
  lfrom : Option Str
  lto : Option Str
  correctionType : Option String
  occurrences : Nat
  contexts : List String
  confidence : ℚ
deriving DecidableEq, Repr

structure FeedbackPayload where
  originalText : Str
  convertedText : Str
  userRating : Nat
  userCorrection : Option Str
  context : String
  optionsLevel : Option Nat
  timestamp : Nat
deriving DecidableEq, Repr

/-- seqTest a b c s is /a.*b.*c/.test(s): the three literals in order with
    only dot characters (no line terminators) between them. -/
def seqTest (a b c : Str) (s : Str) : Bool :=
  (List.range (s.length + 1)).any (fun i =>
    WordConverter.occursAtB a s i &&
    (List.range (s.length + 1)).any (fun j =>
      decide (i + a.length ≤ j) && WordConverter.occursAtB b s j &&
        ((s.drop (i + a.length)).take (j - (i + a.length))).all WordConverter.dotChar &&
      (List.range (s.length + 1)).any (fun k =>
        decide (j + b.length ≤ k) && WordConverter.occursAtB c s k &&
          ((s.drop (j + b.length)).take (k - (j + b.length))).all
            WordConverter.dotChar)))

/-- dotRunLen is how many regexp-dot characters run from position i. -/
def dotRunLen (s : Str) (i : Nat) : Nat :=
  ((s.drop i).takeWhile WordConverter.dotChar).length

/-- maxReps s i len: the largest k ≥ 1 such that k further copies of the
    group s[i..i+len) follow it, or 0 when no copy follows. -/
def maxReps (s : Str) (i len : Nat) : Nat :=
  (((List.range (s.length + 1)).reverse.find? (fun k =>
    decide (1 ≤ k) && (List.range k).all (fun j =>
      WordConverter.occursAtB ((s.drop i).take len) s (i + len * (1 + j))))).getD 0)

/-- jsRepMatchAt models /(.{3,})\1+/ anchored at i: the greedy group takes
    the longest dot run that still leaves at least one full copy, then the
    backreference takes as many copies as possible. -/
def jsRepMatchAt (s : Str) (i : Nat) : Option Str :=
  match (List.range (dotRunLen s i + 1)).reverse.find? (fun len =>
      decide (3 ≤ len) && decide (1 ≤ maxReps s i len)) with
  | some len => some ((s.drop i).take (len * (1 + maxReps s i len)))
  | none => none

/-- jsRepMatch is the first (leftmost) match of /(.{3,})\1+/. -/
def jsRepMatch (s : Str) : Option Str :=
  (List.range s.length).findSome? (fun i => jsRepMatchAt s i)

/-- kanaBeforeTest is /[ぁ-んァ-ヶー]+いただけますでしょうか/.test. -/
def kanaBeforeTest (s : Str) : Bool :=
  (List.range (s.length + 1)).any (fun j =>
    decide (1 ≤ j) && WordConverter.occursAtB (lit "いただけますでしょうか") s j &&
      ((s.drop (j - 1)).take 1).all WordConverter.kanaRange)

/-- lengthRatioBig is converted.length / original.length > 4; on natural
    lengths the float comparison is exactly 4*|o| < |c|, and an empty
    original gives Infinity (true unless converted is empty, where 0/0 is
    NaN and the comparison is false). -/
def lengthRatioBig (o c : Str) : Bool :=
  if o.length = 0 then decide (0 < c.length) else decide (4 * o.length < c.length)

/-- lengthRatioName is 'length_ratio_' + Math.floor(ratio). -/
def lengthRatioName (o c : Str) : Str :=
  lit "length_ratio_" ++
    (if o.length = 0 then lit "Infinity" else lit (toString (c.length / o.length)))

def identifyProblematicPatterns (original converted : Str) : List (String × Str) :=
  (if seqTest (lit "恐れ入ります") (lit "恐縮") (lit "申し訳") converted then
    [("excessive_politeness", lit "multiple_apologies")] else []) ++
  (match jsRepMatch converted with
   | some m => [("unnatural_repetition", m)]
   | none => []) ++
  (if kanaBeforeTest converted then
    [("incomplete_conversion", lit "casual_formal_mix")] else []) ++
  (if lengthRatioBig original converted then
    [("excessive_expansion", lengthRatioName original converted)] else [])

def hasAppropriatePolitenesss (t : Str) : Bool :=
  (containsB t (lit "いただけ") || containsB t (lit "お願い") ||
   containsB t (lit "恐縮") || containsB t (lit "申し訳")) &&
  !(seqTest (lit "恐れ入ります") (lit "恐縮") (lit "申し訳") t)

/-- hasNaturalFlow is !/です。。+|ます。です/.test: the first alternative
    matches exactly when です。。 occurs. -/
def hasNaturalFlow (t : Str) : Bool :=
  !(containsB t (lit "です。。") || containsB t (lit "ます。です"))

def identifySuccessfulPatterns (original converted : Str) : List (String × Str) :=
  (if (containsB original (lit "やん") || containsB original (lit "やで") ||
       containsB original (lit "だべ")) &&
      (containsB converted (lit "です") || containsB converted (lit "ます")) then
    [("dialect_conversion", lit "successful_standardization")] else []) ++
  (if hasAppropriatePolitenesss converted then
    [("politeness_level", lit "appropriate_keigo")] else []) ++
  (if hasNaturalFlow converted then
    [("sentence_flow", lit "natural_transition")] else [])

/-- splitWsAux splits on /\s+/ the way String.prototype.split does: a leading
    or trailing whitespace run yields an empty piece. -/
def splitWsAux : Nat → Str → Str → List Str
  | _, [], cur => [cur.reverse]
  | 0, s, cur => [cur.reverse ++ s]
  | fuel + 1, c :: cs, cur =>
    if SentenceGenerator.jsWs c then
      cur.reverse :: splitWsAux fuel (cs.dropWhile SentenceGenerator.jsWs) []
    else splitWsAux fuel cs (c :: cur)

def jsSplitWs (s : Str) : List Str := splitWsAux s.length s []

/-- analyzeCorrectionDifferences: positional word substitutions, then the
    three fixed phrase corrections; each correction is (type, from, to). -/
def analyzeCorrectionDifferences (aiOutput userCorrection : Str) :
    List (String × Str × Str) :=
  let aiWords := jsSplitWs aiOutput
  let userWords := jsSplitWs userCorrection
  ((List.range (max aiWords.length userWords.length)).filterMap (fun i =>
    let a := (aiWords[i]?).getD []
    let u := (userWords[i]?).getD []
    if a ≠ u ∧ a ≠ [] ∧ u ≠ [] then some ("word_substitution", a, u) else none)) ++
  ((if containsB aiOutput (lit "いただけますでしょうか") &&
       containsB userCorrection (lit "お願いします") then
     [("phrase_correction", lit "いただけますでしょうか", lit "お願いします")]
    else []) ++
   (if containsB aiOutput (lit "恐れ入りますが") &&
       containsB userCorrection (lit "すみませんが") then
     [("phrase_correction", lit "恐れ入りますが", lit "すみませんが")]
    else []) ++
   (if containsB aiOutput (lit "よろしくお願いいたします") &&
       containsB userCorrection (lit "よろしくお願いします") then
     [("phrase_correction", lit "よろしくお願いいたします", lit "よろしくお願いします")]
    else []))

def negKey (tp : String × Str) : Str :=
  lit "negative_" ++ lit tp.1 ++ lit "_" ++ tp.2

def posKey (tp : String × Str) : Str :=
  lit "positive_" ++ lit tp.1 ++ lit "_" ++ tp.2

def corrKey (c : String × Str × Str) : Str :=
  lit "correction_" ++ lit c.1 ++ lit "_" ++ c.2.1

def negInit (tp : String × Str) : LearningPattern :=
  { type := "negative", pattern := some tp.2, patternType := some tp.1,
    lfrom := none, lto := none, correctionType := none,
    occurrences := 0, contexts := [], confidence := 0 }

def posInit (tp : String × Str) : LearningPattern :=
  { type := "positive", pattern := some tp.2, patternType := some tp.1,
    lfrom := none, lto := none, correctionType := none,
    occurrences := 0, contexts := [], confidence := 0 }

def corrInit (c : String × Str × Str) : LearningPattern :=
  { type := "correction", pattern := none, patternType := none,
    lfrom := some c.2.1, lto := some c.2.2, correctionType := some c.1,
    occurrences := 0, contexts := [], confidence := 0 }

/-- bumpWith is the shared update of one learning pattern: create the entry
    if absent, then increment occurrences, push the context, and set
    confidence to min(cap, occurrences*step). -/
def bumpWith (init : LearningPattern) (step cap : ℚ) (ctx : String)
    (m : List (Str × LearningPattern)) (key : Str) :
    List (Str × LearningPattern) :=
  let m1 := if (mapGet m key).isSome then m else mapSet m key init
  match mapGet m1 key with
  | some p =>
    mapSet m1 key
      { p with occurrences := p.occurrences + 1,
               contexts := p.contexts ++ [ctx],
               confidence := min cap (((p.occurrences + 1 : Nat) : ℚ) * step) }
  | none => m1

def extractNegativeFeedbackPatterns (fb : FeedbackPayload)
    (m : List (Str × LearningPattern)) : List (Str × LearningPattern) :=
  (identifyProblematicPatterns fb.originalText fb.convertedText).foldl
    (fun acc tp => bumpWith (negInit tp) (1/10) (19/20) fb.context acc (negKey tp)) m

def extractPositiveFeedbackPatterns (fb : FeedbackPayload)
    (m : List (Str × LearningPattern)) : List (Str × LearningPattern) :=
  (identifySuccessfulPatterns fb.originalText fb.convertedText).foldl
    (fun acc tp => bumpWith (posInit tp) (3/20) (19/20) fb.context acc (posKey tp)) m

def extractCorrectionPatterns (fb : FeedbackPayload) (corr : Str)
    (m : List (Str × LearningPattern)) : List (Str × LearningPattern) :=
  (analyzeCorrectionDifferences fb.convertedText corr).foldl
    (fun acc c => bumpWith (corrInit c) (1/5) (9/10) fb.context acc (corrKey c)) m

structure ContextPrefEntry where
  pattern : String
  timestamp : Nat
deriving DecidableEq, Repr

structure ContextPref where
  successfulPatterns : List ContextPrefEntry
  problematicPatterns : List ContextPrefEntry
deriving DecidableEq, Repr

structure Prefs where
  preferredLevel : ℚ
  preferredStyle : String
  avoidPatterns : List Str
  favoritePatterns : List Str
  contextPreferences : List (Str × ContextPref)
deriving DecidableEq, Repr

def defaultPrefs : Prefs :=
  { preferredLevel := 3, preferredStyle := "balanced", avoidPatterns := [],
    favoritePatterns := [], contextPreferences := [] }

/-- jsRound is Math.round: floor of q + 1/2. -/
def jsRound (q : ℚ) : ℚ := (⌊q + 1/2⌋ : ℤ)

def updateUserPreferences (fb : FeedbackPayload)
    (u : List (Str × Prefs)) : List (Str × Prefs) :=
  let uid := lit "default"
  let u1 := if (mapGet u uid).isSome then u else mapSet u uid defaultPrefs
  match mapGet u1 uid with
  | some p =>
    let p1 := if 4 ≤ fb.userRating then
        { p with preferredLevel := jsRound ((p.preferredLevel +
            (((match fb.optionsLevel with
               | some l => if l = 0 then 3 else l
               | none => 3) : Nat) : ℚ)) / 2) }
      else p
    let ctxKey := lit (if fb.context = "" then "general" else fb.context)
    let cp := (mapGet p1.contextPreferences ctxKey).getD
      { successfulPatterns := [], problematicPatterns := [] }
    let cp1 := if fb.userRating ≤ 2 then
        { cp with problematicPatterns := cp.problematicPatterns ++
            [{ pattern := "low_rating", timestamp := fb.timestamp }] }
      else if 4 ≤ fb.userRating then
        { cp with successfulPatterns := cp.successfulPatterns ++
            [{ pattern := "high_rating", timestamp := fb.timestamp }] }
      else cp
    let cps := mapSet p1.contextPreferences ctxKey cp1
    mapSet u1 uid { p1 with contextPreferences := cps }
  | none => u1

def utf8Char (c : Char) : List Nat :=
  let n := c.toNat
  if n < 128 then [n]
  else if n < 2048 then [192 + n / 64, 128 + n % 64]
  else if n < 65536 then
    [224 + n / 4096, 128 + (n / 64) % 64, 128 + n % 64]
  else
    [240 + n / 262144, 128 + (n / 4096) % 64, 128 + (n / 64) % 64, 128 + n % 64]

def utf8Bytes (s : Str) : List Nat := s.foldr (fun c acc => utf8Char c ++ acc) []

def b64Table : Str :=
  lit "ABCDEFGHIJKLMNOPQRSTUVWXYZabcdefghijklmnopqrstuvwxyz0123456789+/"

def b64Char (n : Nat) : Char := b64Table.getD n 'A'

def b64Aux : Nat → List Nat → List Char
  | _, [] => []
  | 0, _ => []
  | fuel + 1, b1 :: rest =>
    match rest with
    | [] => [b64Char (b1 / 4), b64Char (b1 % 4 * 16), '=', '=']
    | [b2] => [b64Char (b1 / 4), b64Char (b1 % 4 * 16 + b2 / 16),
               b64Char (b2 % 16 * 4), '=']
    | b2 :: b3 :: rest2 =>
      b64Char (b1 / 4) :: b64Char (b1 % 4 * 16 + b2 / 16) ::
        b64Char (b2 % 16 * 4 + b3 / 64) :: b64Char (b3 % 64) :: b64Aux fuel rest2

/-- generateFeedbackId: base64 of the UTF-8 bytes of original + converted +
    timestamp, truncated to 12 characters. -/
def generateFeedbackId (o c : Str) (ts : Nat) : Str :=
  let bytes := utf8Bytes (o ++ c ++ lit (toString ts))
  (b64Aux bytes.length bytes).take 12

def getRatingCategory (rating : Nat) : String :=
  if 4 ≤ rating then "positive" else if rating ≤ 2 then "negative" else "neutral"

/-- Feedback is the stored entry of this.feedbackData; conversionRatio is
    none when the original is empty (the float would be non-finite). -/
structure Feedback where
  id : Str
  originalText : Str
  convertedText : Str
  userRating : Nat
  userCorrection : Option Str
  context : String
  optionsLevel : Option Nat
  timestamp : Nat
  feedbackType : String
  processed : Bool
  textLength : Nat
  conversionRatio : Option ℚ
  hasCorrection : Bool
  ratingCategory : String
deriving DecidableEq, Repr

structure LearnState where
  feedbackData : List (Str × Feedback)
  learningPatterns : List (Str × LearningPattern)
  userPreferences : List (Str × Prefs)
deriving DecidableEq, Repr

def emptyState : LearnState :=
  { feedbackData := [], learningPatterns := [], userPreferences := [] }

/-- applyRate is the rating-driven pattern extraction of processFeedback. -/
def applyRate (fb : FeedbackPayload) (m : List (Str × LearningPattern)) :
    List (Str × LearningPattern) :=
  if fb.userRating ≤ 2 then extractNegativeFeedbackPatterns fb m
  else if 4 ≤ fb.userRating then extractPositiveFeedbackPatterns fb m
  else m

/-- applyCorr is the correction-driven pattern extraction of
    processFeedback; a missing or empty correction is falsy. -/
def applyCorr (fb : FeedbackPayload) (m : List (Str × LearningPattern)) :
    List (Str × LearningPattern) :=
  match fb.userCorrection with
  | some c => if c ≠ [] then extractCorrectionPatterns fb c m else m
  | none => m

/-- collectFeedback stores the feedback entry under its generated id,
    processes it immediately (pattern extraction and preference update, with
    processed set to true), and returns the id. -/
def collectFeedback (st : LearnState) (fb : FeedbackPayload) :
    LearnState × Str :=
  let fid := generateFeedbackId fb.originalText fb.convertedText fb.timestamp
  let entry : Feedback :=
    { id := fid, originalText := fb.originalText,
      convertedText := fb.convertedText, userRating := fb.userRating,
      userCorrection := fb.userCorrection, context := fb.context,
      optionsLevel := fb.optionsLevel, timestamp := fb.timestamp,
      feedbackType := "rating", processed := false,
      textLength := fb.originalText.length,
      conversionRatio := if fb.originalText.length = 0 then none
        else some ((fb.convertedText.length : ℚ) / fb.originalText.length),
      hasCorrection := (match fb.userCorrection with
        | some c => c ≠ []
        | none => False) ,
      ratingCategory := getRatingCategory fb.userRating }
  let fd1 := mapSet st.feedbackData fid entry
  let up1 := updateUserPreferences fb st.userPreferences
  let fd2 := mapSet fd1 fid { entry with processed := true }
  ({ feedbackData := fd2,
     learningPatterns := applyCorr fb (applyRate fb st.learningPatterns),
     userPreferences := up1 }, fid)

/-- triggeredKeys lists the learning-pattern keys a payload touches. -/
def triggeredKeys (fb : FeedbackPayload) : List Str :=
  (if fb.userRating ≤ 2 then
    (identifyProblematicPatterns fb.originalText fb.convertedText).map negKey
   else if 4 ≤ fb.userRating then
    (identifySuccessfulPatterns fb.originalText fb.convertedText).map posKey
   else []) ++
  (match fb.userCorrection with
   | some c => if c ≠ [] then
       (analyzeCorrectionDifferences fb.convertedText c).map corrKey
     else []
   | none => [])

theorem find_set_self {α : Type} (k : Str) (v : α) :
    ∀ m : List (Str × α), m.any (fun kv => decide (kv.1 = k)) = true →
      (m.map (fun kv => if kv.1 = k then (k, v) else kv)).find?
        (fun kv => decide (kv.1 = k)) = some (k, v) := by
  intro m
  induction m with
  | nil => intro h; simp at h
  | cons kv rest ih =>
    intro h
    rw [List.map_cons]
    by_cases hk : kv.1 = k
    · rw [if_pos hk, List.find?_cons_of_pos _ (by simp)]
    · rw [if_neg hk, List.find?_cons_of_neg _ (by simp [hk])]
      apply ih
      rw [List.any_cons, Bool.or_eq_true] at h
      rcases h with h3 | h3
      · exact absurd (of_decide_eq_true h3) hk
      · exact h3

theorem mapGet_set_self {α : Type} (m : List (Str × α)) (k : Str) (v : α) :
    mapGet (mapSet m k v) k = some v := by
  unfold mapGet mapSet
  by_cases h : m.any (fun kv => decide (kv.1 = k))
  · rw [if_pos h, find_set_self k v m h]
    rfl
  · rw [if_neg h, List.find?_append]
    have h1 : m.find? (fun kv => decide (kv.1 = k)) = none := by
      rw [List.find?_eq_none]
      intro x hx
      simp only [decide_eq_true_eq]
      intro he
      exact h (List.any_eq_true.mpr ⟨x, hx, by simp [he]⟩)
    rw [h1, List.find?_cons_of_pos _ (by simp)]
    rfl

theorem mapGet_set_other {α : Type} (m : List (Str × α)) (k k' : Str) (v : α)
    (h : k' ≠ k) : mapGet (mapSet m k v) k' = mapGet m k' := by
  unfold mapGet mapSet
  by_cases ha : m.any (fun kv => decide (kv.1 = k))
  · rw [if_pos ha]
    clear ha
    induction m with
    | nil => rfl
    | cons kv rest ih =>
      rw [List.map_cons]
      by_cases hk : kv.1 = k
      · rw [if_pos hk]
        rw [List.find?_cons_of_neg _ (by simp [Ne.symm h]),
          List.find?_cons_of_neg _ (by simp [hk, Ne.symm h])]
        exact ih
      · rw [if_neg hk]
        by_cases hk' : kv.1 = k'
        · rw [List.find?_cons_of_pos _ (by simp [hk']),
            List.find?_cons_of_pos _ (by simp [hk'])]
        · rw [List.find?_cons_of_neg _ (by simp [hk']),
            List.find?_cons_of_neg _ (by simp [hk'])]
          exact ih
  · rw [if_neg ha, List.find?_append]
    cases hf : m.find? (fun kv => decide (kv.1 = k')) with
    | some x => rfl
    | none =>
      rw [List.find?_cons_of_neg _ (by simp [Ne.symm h])]
      rfl

theorem bumpWith_get_other {init : LearningPattern} {step cap : ℚ}
    {ctx : String} {m : List (Str × LearningPattern)} {key k' : Str}
    (h : k' ≠ key) :
    mapGet (bumpWith init step cap ctx m key) k' = mapGet m k' := by
  unfold bumpWith
  by_cases hs : (mapGet m key).isSome
  · obtain ⟨p, hp⟩ := Option.isSome_iff_exists.mp hs
    simp only [hp, Option.isSome_some, if_true]
    exact mapGet_set_other m key k' _ h
  · have hn : mapGet m key = none := by
      cases hmk : mapGet m key with
      | none => rfl
      | some x => rw [hmk] at hs; simp at hs
    simp only [hn, Option.isSome_none, Bool.false_eq_true, if_false,
      mapGet_set_self]
    rw [mapGet_set_other _ key k' _ h, mapGet_set_other m key k' _ h]

theorem bumpWith_get_self {init : LearningPattern} {step cap : ℚ}
    {ctx : String} {m : List (Str × LearningPattern)} {key : Str}
    (hinit : init.occurrences = 0) :
    ∃ p', mapGet (bumpWith init step cap ctx m key) key = some p' ∧
      p'.confidence = min cap ((p'.occurrences : ℚ) * step) ∧
      1 ≤ p'.occurrences ∧
      (∀ p, mapGet m key = some p →
        p'.occurrences = p.occurrences + 1 ∧ p'.type = p.type) ∧
      (mapGet m key = none →
        p'.occurrences = init.occurrences + 1 ∧ p'.type = init.type) := by
  unfold bumpWith
  by_cases hs : (mapGet m key).isSome
  · obtain ⟨p, hp⟩ := Option.isSome_iff_exists.mp hs
    simp only [hp, Option.isSome_some, if_true]
    refine ⟨_, mapGet_set_self _ _ _, by simp, by simp, ?_, ?_⟩
    · intro q hq
      cases hq
      exact ⟨rfl, rfl⟩
    · intro hn
      exact Option.noConfusion hn
  · have hn : mapGet m key = none := by
      cases hmk : mapGet m key with
      | none => rfl
      | some x => rw [hmk] at hs; simp at hs
    simp only [hn, Option.isSome_none, Bool.false_eq_true, if_false,
      mapGet_set_self]
    refine ⟨_, rfl, by simp, by simp, ?_, ?_⟩
    · intro p hp
      exact Option.noConfusion hp
    · intro _
      exact ⟨rfl, rfl⟩

theorem bump_fold_other {X : Type} (keyOf : X → Str) (initOf : X → LearningPattern)
    (step cap : ℚ) (ctx : String) :
    ∀ (ts : List X) (m : List (Str × LearningPattern)) (k' : Str),
      (∀ x ∈ ts, k' ≠ keyOf x) →
      mapGet (ts.foldl (fun acc x => bumpWith (initOf x) step cap ctx acc (keyOf x)) m) k' =
        mapGet m k' := by
  intro ts
  induction ts with
  | nil => intro m k' _; rfl
  | cons x rest ih =>
    intro m k' h
    rw [List.foldl_cons, ih _ _ (fun y hy => h y (List.mem_cons_of_mem _ hy)),
      bumpWith_get_other (h x (List.mem_cons_self _ _))]

theorem bump_fold_mem {X : Type} (keyOf : X → Str) (initOf : X → LearningPattern)
    (step cap : ℚ) (ctx : String)
    (hinit : ∀ x, (initOf x).occurrences = 0) :
    ∀ (ts : List X) (m : List (Str × LearningPattern)) (key : Str),
      (∃ x ∈ ts, keyOf x = key) →
      ∃ p', mapGet (ts.foldl
          (fun acc x => bumpWith (initOf x) step cap ctx acc (keyOf x)) m) key =
          some p' ∧
        p'.confidence = min cap ((p'.occurrences : ℚ) * step) ∧
        1 ≤ p'.occurrences ∧
        ∀ p, mapGet m key = some p → p.occurrences < p'.occurrences := by
  intro ts
  induction ts with
  | nil =>
    intro m key hmem
    obtain ⟨x, hx, _⟩ := hmem
    exact absurd hx (List.not_mem_nil x)
  | cons x rest ih =>
    intro m key hmem
    rw [List.foldl_cons]
    by_cases hx : keyOf x = key
    · subst hx
      obtain ⟨p1, hp1, hf1, ho1, hrel1, _⟩ :=
        @bumpWith_get_self (initOf x) step cap ctx m (keyOf x) (hinit x)
      by_cases hrest : ∃ y ∈ rest, keyOf y = keyOf x
      · obtain ⟨p2, hp2, hf2, ho2, hrel2⟩ := ih _ _ hrest
        refine ⟨p2, hp2, hf2, ho2, ?_⟩
        intro p hp
        have h1 := (hrel1 p hp).1
        have h2 := hrel2 p1 hp1
        omega
      · push_neg at hrest
        rw [bump_fold_other keyOf initOf step cap ctx rest _ _
          (fun y hy he => hrest y hy he.symm)]
        refine ⟨p1, hp1, hf1, ho1, ?_⟩
        intro p hp
        rw [(hrel1 p hp).1]
        omega
    · have hmem' : ∃ y ∈ rest, keyOf y = key := by
        rcases hmem with ⟨y, hy, he⟩
        rcases List.mem_cons.mp hy with rfl | hyr
        · exact absurd he hx
        · exact ⟨y, hyr, he⟩
      obtain ⟨p2, hp2, hf2, ho2, hrel2⟩ := ih _ _ hmem'
      refine ⟨p2, hp2, hf2, ho2, ?_⟩
      intro p hp
      apply hrel2
      rw [bumpWith_get_other (fun he => hx he.symm)]
      exact hp

theorem conf_step_mono {step cap : ℚ} (hstep : 0 < step) (o1 o2 : Nat)
    (h : o1 < o2) :
    min cap ((o1 : ℚ) * step) < min cap ((o2 : ℚ) * step) ∨
      (min cap ((o1 : ℚ) * step) = min cap ((o2 : ℚ) * step) ∧
        min cap ((o2 : ℚ) * step) = cap) := by
  have hle : (o1 : ℚ) ≤ (o2 : ℚ) := by exact_mod_cast le_of_lt h
  rcases le_or_lt cap ((o1 : ℚ) * step) with h1 | h1
  · right
    have h2 : cap ≤ (o2 : ℚ) * step :=
      le_trans h1 (mul_le_mul_of_nonneg_right hle (le_of_lt hstep))
    rw [min_eq_left h1, min_eq_left h2]
    exact ⟨rfl, rfl⟩
  · left
    rw [min_eq_right (le_of_lt h1)]
    have hlt : (o1 : ℚ) * step < (o2 : ℚ) * step := by
      apply mul_lt_mul_of_pos_right _ hstep
      exact_mod_cast h
    exact lt_min h1 hlt

theorem negKey_head (tp : String × Str) : (negKey tp).head? = some 'n' := rfl

theorem posKey_head (tp : String × Str) : (posKey tp).head? = some 'p' := rfl

theorem corrKey_head (c : String × Str × Str) : (corrKey c).head? = some 'c' := rfl

theorem key_head_ne {k1 k2 : Str} {a b : Char} (h1 : k1.head? = some a)
    (h2 : k2.head? = some b) (hab : a ≠ b) : k1 ≠ k2 := by
  intro he
  rw [he, h2] at h1
  exact hab (Option.some_injective _ h1).symm

theorem applyCorr_pres (fb : FeedbackPayload) {key : Str}
    (h : ∀ y, key ≠ corrKey y) :
    ∀ m, mapGet (applyCorr fb m) key = mapGet m key := by
  intro m
  unfold applyCorr
  cases fb.userCorrection with
  | none => rfl
  | some c =>
    show mapGet (if c ≠ [] then extractCorrectionPatterns fb c m else m) key =
      mapGet m key
    by_cases hcne : c ≠ []
    · rw [if_pos hcne]
      unfold extractCorrectionPatterns
      exact bump_fold_other _ _ _ _ _ _ _ _ (fun y _ => h y)
    · rw [if_neg hcne]

theorem applyRate_pres (fb : FeedbackPayload) {key : Str}
    (hn : ∀ y, key ≠ negKey y) (hp : ∀ y, key ≠ posKey y) :
    ∀ m, mapGet (applyRate fb m) key = mapGet m key := by
  intro m
  unfold applyRate
  split_ifs with h1 h2
  · unfold extractNegativeFeedbackPatterns
    exact bump_fold_other _ _ _ _ _ _ _ _ (fun y _ => hn y)
  · unfold extractPositiveFeedbackPatterns
    exact bump_fold_other _ _ _ _ _ _ _ _ (fun y _ => hp y)
  · rfl

/-- scenarioPayload is the rating-1 feedback of the C7 scenario. -/
def scenarioPayload : FeedbackPayload :=
  { originalText := lit "確認をやってほしいです",
    convertedText := lit "やっていただけますでしょうか",
    userRating := 1, userCorrection := none, context := "general",
    optionsLevel := none, timestamp := 0 }

end FeedbackLearning

/-- Claim C7: collecting the same feedback payload twice never decreases the
    confidence of any learning pattern the payload produces: the second
    application strictly increases that pattern's confidence or leaves it at
    its saturation cap (0.95 for rating patterns, 0.9 for correction
    patterns).  In particular, two collect calls with rating 1 and the given
    texts produce the negative pattern negative_incomplete_conversion_casual_formal_mix
    with occurrences 2 and confidence min(0.95, 2*0.10) = 0.20. -/
theorem c7_feedback_confidence (st : FeedbackLearning.LearnState)
    (fb : FeedbackLearning.FeedbackPayload) :
    (∀ key p1 p2, key ∈ FeedbackLearning.triggeredKeys fb →
      FeedbackLearning.mapGet
        ((FeedbackLearning.collectFeedback st fb).1).learningPatterns key =
        some p1 →
      FeedbackLearning.mapGet
        ((FeedbackLearning.collectFeedback
          ((FeedbackLearning.collectFeedback st fb).1) fb).1).learningPatterns
        key = some p2 →
      p1.confidence < p2.confidence ∨
        (p1.confidence = p2.confidence ∧
          (p2.confidence = 19/20 ∨ p2.confidence = 9/10))) ∧
    (FeedbackLearning.mapGet
       ((FeedbackLearning.collectFeedback
         ((FeedbackLearning.collectFeedback FeedbackLearning.emptyState
           FeedbackLearning.scenarioPayload).1)
         FeedbackLearning.scenarioPayload).1).learningPatterns
       (lit "negative_incomplete_conversion_casual_formal_mix")).map
      (fun p => (p.type, p.occurrences, p.confidence)) =
      some ("negative", 2, 1/5) := by
  constructor
  · intro key p1 p2 hkey h1 h2
    have e1 : ((FeedbackLearning.collectFeedback st fb).1).learningPatterns =
        FeedbackLearning.applyCorr fb
          (FeedbackLearning.applyRate fb st.learningPatterns) := rfl
    have e2 : ((FeedbackLearning.collectFeedback
        ((FeedbackLearning.collectFeedback st fb).1) fb).1).learningPatterns =
        FeedbackLearning.applyCorr fb (FeedbackLearning.applyRate fb
          (FeedbackLearning.applyCorr fb
            (FeedbackLearning.applyRate fb st.learningPatterns))) := rfl
    rw [e1] at h1
    rw [e2] at h2
    unfold FeedbackLearning.triggeredKeys at hkey
    rw [List.mem_append] at hkey
    rcases hkey with hA | hB
    · by_cases hr2 : fb.userRating ≤ 2
      · rw [if_pos hr2] at hA
        obtain ⟨tp, htp, hkeq⟩ := List.mem_map.mp hA
        subst hkeq
        have hAR : ∀ m, FeedbackLearning.applyRate fb m =
            FeedbackLearning.extractNegativeFeedbackPatterns fb m := by
          intro m
          unfold FeedbackLearning.applyRate
          rw [if_pos hr2]
        have hkc : ∀ y, FeedbackLearning.negKey tp ≠ FeedbackLearning.corrKey y :=
          fun y => FeedbackLearning.key_head_ne (FeedbackLearning.negKey_head tp)
            (FeedbackLearning.corrKey_head y) (by decide)
        have h1n := h1
        rw [FeedbackLearning.applyCorr_pres fb hkc, hAR,
          FeedbackLearning.extractNegativeFeedbackPatterns] at h1n
        have h2n := h2
        rw [FeedbackLearning.applyCorr_pres fb hkc, hAR,
          FeedbackLearning.extractNegativeFeedbackPatterns] at h2n
        obtain ⟨q1, hq1, hqf1, _, _⟩ := FeedbackLearning.bump_fold_mem
          FeedbackLearning.negKey FeedbackLearning.negInit (1/10) (19/20)
          fb.context (fun _ => rfl)
          (FeedbackLearning.identifyProblematicPatterns fb.originalText
            fb.convertedText) st.learningPatterns
          (FeedbackLearning.negKey tp) ⟨tp, htp, rfl⟩
        rw [h1n] at hq1
        obtain rfl : p1 = q1 := Option.some.inj hq1
        obtain ⟨q2, hq2, hqf2, _, hrel2⟩ := FeedbackLearning.bump_fold_mem
          FeedbackLearning.negKey FeedbackLearning.negInit (1/10) (19/20)
          fb.context (fun _ => rfl)
          (FeedbackLearning.identifyProblematicPatterns fb.originalText
            fb.convertedText)
          (FeedbackLearning.applyCorr fb
            (FeedbackLearning.applyRate fb st.learningPatterns))
          (FeedbackLearning.negKey tp) ⟨tp, htp, rfl⟩
        rw [h2n] at hq2
        obtain rfl : p2 = q2 := Option.some.inj hq2
        have hlt : p1.occurrences < p2.occurrences := hrel2 p1 h1
        rcases FeedbackLearning.conf_step_mono (by norm_num : (0:ℚ) < 1/10)
          p1.occurrences p2.occurrences hlt with hcs | ⟨hc1, hc2⟩
        · left
          rw [hqf1, hqf2]
          exact hcs
        · right
          rw [hqf1, hqf2]
          exact ⟨hc1, Or.inl hc2⟩
      · rw [if_neg hr2] at hA
        by_cases hr4 : 4 ≤ fb.userRating
        · rw [if_pos hr4] at hA
          obtain ⟨tp, htp, hkeq⟩ := List.mem_map.mp hA
          subst hkeq
          have hAR : ∀ m, FeedbackLearning.applyRate fb m =
              FeedbackLearning.extractPositiveFeedbackPatterns fb m := by
            intro m
            unfold FeedbackLearning.applyRate
            rw [if_neg hr2, if_pos hr4]
          have hkc : ∀ y, FeedbackLearning.posKey tp ≠ FeedbackLearning.corrKey y :=
            fun y => FeedbackLearning.key_head_ne (FeedbackLearning.posKey_head tp)
              (FeedbackLearning.corrKey_head y) (by decide)
          have h1n := h1
          rw [FeedbackLearning.applyCorr_pres fb hkc, hAR,
            FeedbackLearning.extractPositiveFeedbackPatterns] at h1n
          have h2n := h2
          rw [FeedbackLearning.applyCorr_pres fb hkc, hAR,
            FeedbackLearning.extractPositiveFeedbackPatterns] at h2n
          obtain ⟨q1, hq1, hqf1, _, _⟩ := FeedbackLearning.bump_fold_mem
            FeedbackLearning.posKey FeedbackLearning.posInit (3/20) (19/20)
            fb.context (fun _ => rfl)
            (FeedbackLearning.identifySuccessfulPatterns fb.originalText
              fb.convertedText) st.learningPatterns
            (FeedbackLearning.posKey tp) ⟨tp, htp, rfl⟩
          rw [h1n] at hq1
          obtain rfl : p1 = q1 := Option.some.inj hq1
          obtain ⟨q2, hq2, hqf2, _, hrel2⟩ := FeedbackLearning.bump_fold_mem
            FeedbackLearning.posKey FeedbackLearning.posInit (3/20) (19/20)
            fb.context (fun _ => rfl)
            (FeedbackLearning.identifySuccessfulPatterns fb.originalText
              fb.convertedText)
            (FeedbackLearning.applyCorr fb
              (FeedbackLearning.applyRate fb st.learningPatterns))
            (FeedbackLearning.posKey tp) ⟨tp, htp, rfl⟩
          rw [h2n] at hq2
          obtain rfl : p2 = q2 := Option.some.inj hq2
          have hlt : p1.occurrences < p2.occurrences := hrel2 p1 h1
          rcases FeedbackLearning.conf_step_mono (by norm_num : (0:ℚ) < 3/20)
            p1.occurrences p2.occurrences hlt with hcs | ⟨hc1, hc2⟩
          · left
            rw [hqf1, hqf2]
            exact hcs
          · right
            rw [hqf1, hqf2]
            exact ⟨hc1, Or.inl hc2⟩
        · rw [if_neg hr4] at hA
          exact absurd hA (List.not_mem_nil _)
    · cases hc : fb.userCorrection with
      | none =>
        rw [hc] at hB
        exact absurd (show key ∈ ([] : List Str) from hB) (List.not_mem_nil _)
      | some c =>
        rw [hc] at hB
        have hB2 : key ∈ (if c ≠ [] then
            List.map FeedbackLearning.corrKey
              (FeedbackLearning.analyzeCorrectionDifferences fb.convertedText c)
          else []) := hB
        by_cases hcne : c ≠ []
        · rw [if_pos hcne] at hB2
          obtain ⟨y0, hy0, hkeq⟩ := List.mem_map.mp hB2
          subst hkeq
          have hAC : ∀ m, FeedbackLearning.applyCorr fb m =
              FeedbackLearning.extractCorrectionPatterns fb c m := by
            intro m
            unfold FeedbackLearning.applyCorr
            rw [hc]
            show (if c ≠ [] then FeedbackLearning.extractCorrectionPatterns fb c m
              else m) = _
            rw [if_pos hcne]
          have hkr1 : ∀ y, FeedbackLearning.corrKey y0 ≠ FeedbackLearning.negKey y :=
            fun y => FeedbackLearning.key_head_ne (FeedbackLearning.corrKey_head y0)
              (FeedbackLearning.negKey_head y) (by decide)
          have hkr2 : ∀ y, FeedbackLearning.corrKey y0 ≠ FeedbackLearning.posKey y :=
            fun y => FeedbackLearning.key_head_ne (FeedbackLearning.corrKey_head y0)
              (FeedbackLearning.posKey_head y) (by decide)
          have h1n := h1
          rw [hAC, FeedbackLearning.extractCorrectionPatterns] at h1n
          have h2n := h2
          rw [hAC, FeedbackLearning.extractCorrectionPatterns] at h2n
          obtain ⟨q1, hq1, hqf1, _, _⟩ := FeedbackLearning.bump_fold_mem
            FeedbackLearning.corrKey FeedbackLearning.corrInit (1/5) (9/10)
            fb.context (fun _ => rfl)
            (FeedbackLearning.analyzeCorrectionDifferences fb.convertedText c)
            (FeedbackLearning.applyRate fb st.learningPatterns)
            (FeedbackLearning.corrKey y0) ⟨y0, hy0, rfl⟩
          rw [h1n] at hq1
          obtain rfl : p1 = q1 := Option.some.inj hq1
          obtain ⟨q2, hq2, hqf2, _, hrel2⟩ := FeedbackLearning.bump_fold_mem
            FeedbackLearning.corrKey FeedbackLearning.corrInit (1/5) (9/10)
            fb.context (fun _ => rfl)
            (FeedbackLearning.analyzeCorrectionDifferences fb.convertedText c)
            (FeedbackLearning.applyRate fb
              (FeedbackLearning.applyCorr fb
                (FeedbackLearning.applyRate fb st.learningPatterns)))
            (FeedbackLearning.corrKey y0) ⟨y0, hy0, rfl⟩
          rw [h2n] at hq2
          obtain rfl : p2 = q2 := Option.some.inj hq2
          have hl : FeedbackLearning.mapGet
              (FeedbackLearning.applyRate fb
                (FeedbackLearning.applyCorr fb
                  (FeedbackLearning.applyRate fb st.learningPatterns)))
              (FeedbackLearning.corrKey y0) = some p1 := by
            rw [FeedbackLearning.applyRate_pres fb hkr1 hkr2]
            exact h1
          have hlt : p1.occurrences < p2.occurrences := hrel2 p1 hl
          rcases FeedbackLearning.conf_step_mono (by norm_num : (0:ℚ) < 1/5)
            p1.occurrences p2.occurrences hlt with hcs | ⟨hc1, hc2⟩
          · left
            rw [hqf1, hqf2]
            exact hcs
          · right
            rw [hqf1, hqf2]
            exact ⟨hc1, Or.inr hc2⟩
        · rw [if_neg hcne] at hB2
          exact absurd hB2 (List.not_mem_nil _)
  · -- scenario: two collect calls on the concrete payload
    have hpl : FeedbackLearning.identifyProblematicPatterns
        FeedbackLearning.scenarioPayload.originalText
        FeedbackLearning.scenarioPayload.convertedText =
        [("incomplete_conversion", lit "casual_formal_mix")] := by decide
    have hkey0 : FeedbackLearning.negKey
        ("incomplete_conversion", lit "casual_formal_mix") =
        lit "negative_incomplete_conversion_casual_formal_mix" := by decide
    have e1 : ((FeedbackLearning.collectFeedback FeedbackLearning.emptyState
        FeedbackLearning.scenarioPayload).1).learningPatterns =
        FeedbackLearning.extractNegativeFeedbackPatterns
          FeedbackLearning.scenarioPayload [] := rfl
    have e2 : ((FeedbackLearning.collectFeedback
        ((FeedbackLearning.collectFeedback FeedbackLearning.emptyState
          FeedbackLearning.scenarioPayload).1)
        FeedbackLearning.scenarioPayload).1).learningPatterns =
        FeedbackLearning.extractNegativeFeedbackPatterns
          FeedbackLearning.scenarioPayload
          (FeedbackLearning.extractNegativeFeedbackPatterns
            FeedbackLearning.scenarioPayload []) := rfl
    rw [e2]
    unfold FeedbackLearning.extractNegativeFeedbackPatterns
    rw [hpl, List.foldl_cons, List.foldl_nil, List.foldl_cons, List.foldl_nil,
      hkey0]
    obtain ⟨p1, hp1, _, _, _, hn1⟩ := @FeedbackLearning.bumpWith_get_self
      (FeedbackLearning.negInit
        ("incomplete_conversion", lit "casual_formal_mix"))
      (1/10) (19/20) FeedbackLearning.scenarioPayload.context
      ([] : List (Str × FeedbackLearning.LearningPattern))
      (lit "negative_incomplete_conversion_casual_formal_mix") rfl
    obtain ⟨ho1, ht1⟩ := hn1 rfl
    obtain ⟨p2, hp2, hf2, _, hs2, _⟩ := @FeedbackLearning.bumpWith_get_self
      (FeedbackLearning.negInit
        ("incomplete_conversion", lit "casual_formal_mix"))
      (1/10) (19/20) FeedbackLearning.scenarioPayload.context
      (FeedbackLearning.bumpWith
        (FeedbackLearning.negInit
          ("incomplete_conversion", lit "casual_formal_mix"))
        (1/10) (19/20) FeedbackLearning.scenarioPayload.context []
        (lit "negative_incomplete_conversion_casual_formal_mix"))
      (lit "negative_incomplete_conversion_casual_formal_mix") rfl
    obtain ⟨ho2, ht2⟩ := hs2 p1 hp1
    rw [hp2, Option.map_some']
    have htype : p2.type = "negative" := by
      rw [ht2, ht1]
      rfl
    have hocc : p2.occurrences = 2 := by
      rw [ho2, ho1]
      rfl
    have hconf : p2.confidence = 1/5 := by
      rw [hf2, hocc]
      norm_num
    rw [htype, hocc, hconf]

/-- c7p1 and c7p2 are the concrete learning-pattern values after the first
    and second collect call of the C7 scenario. -/
def c7p1 : FeedbackLearning.LearningPattern :=
  { type := "negative", pattern := some (lit "casual_formal_mix"),
    patternType := some "incomplete_conversion", lfrom := none, lto := none,
    correctionType := none, occurrences := 1, contexts := ["general"],
    confidence := min (19/20) (((0 + 1 : Nat) : ℚ) * (1/10)) }

def c7p2 : FeedbackLearning.LearningPattern :=
  { type := "negative", pattern := some (lit "casual_formal_mix"),
    patternType := some "incomplete_conversion", lfrom := none, lto := none,
    correctionType := none, occurrences := 2,
    contexts := ["general", "general"],
    confidence := min (19/20) (((1 + 1 : Nat) : ℚ) * (1/10)) }

theorem c7_feedback_confidence_witness :
    c7p1.confidence < c7p2.confidence ∨
      (c7p1.confidence = c7p2.confidence ∧
        (c7p2.confidence = 19/20 ∨ c7p2.confidence = 9/10)) :=
  (c7_feedback_confidence FeedbackLearning.emptyState
    FeedbackLearning.scenarioPayload).1
    (lit "negative_incomplete_conversion_casual_formal_mix") c7p1 c7p2
    (by decide) (by rfl) (by rfl)

/-- Claim C5 counterexample: the claim fails as stated.  On a concrete run,
    generateVariations returns six candidates, not seven: the level loop
    contributes four (levels 2..5) and generateStyleVariations two. -/
theorem c5_counterexample :
    (SentenceGenerator.generateVariations (lit "確認して")
      (ContextAnalyzer.analyzeContext 0 (lit "確認して")) 3
      (fun _ => 0) 0).1.length = 6 ∧
    (SentenceGenerator.generateVariations (lit "確認して")
      (ContextAnalyzer.analyzeContext 0 (lit "確認して")) 3
      (fun _ => 0) 0).1.length ≠ 7 := by
  have h6 : (SentenceGenerator.generateVariations (lit "確認して")
      (ContextAnalyzer.analyzeContext 0 (lit "確認して")) 3
      (fun _ => 0) 0).1.length = 6 := rfl
  exact ⟨h6, by rw [h6]; decide⟩

/-- Claim C5 (amended): for every input text, context, base level, random
    stream and stream position, generateVariations returns exactly six
    candidates: one per level 2..5 generated from the same input and context,
    carrying that level's description and characteristics, then two style
    variants at the base level, one with forced business/superior framing and
    one with forced casual/colleague framing, each text produced by
    generatePoliteVersion at the advancing stream position. -/
theorem c5_six_variations (text : Str) (ctx : ContextAnalyzer.Context)
    (baseLevel r : Nat) (rho : Nat → ℚ) :
    (SentenceGenerator.generateVariations text ctx baseLevel rho r).1.length = 6 ∧
    ∃ r3 r4 r5 r6 r7,
      (SentenceGenerator.generateVariations text ctx baseLevel rho r).1 =
        [SentenceGenerator.levelVariation 2
           (SentenceGenerator.generatePoliteVersion text ctx 2 rho r).1,
         SentenceGenerator.levelVariation 3
           (SentenceGenerator.generatePoliteVersion text ctx 3 rho r3).1,
         SentenceGenerator.levelVariation 4
           (SentenceGenerator.generatePoliteVersion text ctx 4 rho r4).1,
         SentenceGenerator.levelVariation 5
           (SentenceGenerator.generatePoliteVersion text ctx 5 rho r5).1,
         { level := baseLevel,
           text := (SentenceGenerator.generatePoliteVersion text
             { ctx with situation := "business", relationship := "superior" }
             baseLevel rho r6).1,
           description := "ビジネス調", characteristics := none,
           style := some "business" },
         { level := baseLevel,
           text := (SentenceGenerator.generatePoliteVersion text
             { ctx with situation := "casual", relationship := "colleague" }
             baseLevel rho r7).1,
           description := "親しみやすい丁寧調", characteristics := none,
           style := some "friendly" }] := by
  refine ⟨rfl,
    (SentenceGenerator.generatePoliteVersion text ctx 2 rho r).2, ?_, ?_, ?_, ?_, ?_⟩
  · exact (SentenceGenerator.generatePoliteVersion text ctx 3 rho
      (SentenceGenerator.generatePoliteVersion text ctx 2 rho r).2).2
  · exact (SentenceGenerator.generatePoliteVersion text ctx 4 rho
      (SentenceGenerator.generatePoliteVersion text ctx 3 rho
        (SentenceGenerator.generatePoliteVersion text ctx 2 rho r).2).2).2
  · exact (SentenceGenerator.generatePoliteVersion text ctx 5 rho
      (SentenceGenerator.generatePoliteVersion text ctx 4 rho
        (SentenceGenerator.generatePoliteVersion text ctx 3 rho
          (SentenceGenerator.generatePoliteVersion text ctx 2 rho r).2).2).2).2
  · exact (SentenceGenerator.generatePoliteVersion text
      { ctx with situation := "business", relationship := "superior" }
      baseLevel rho
      (SentenceGenerator.generatePoliteVersion text ctx 5 rho
        (SentenceGenerator.generatePoliteVersion text ctx 4 rho
          (SentenceGenerator.generatePoliteVersion text ctx 3 rho
            (SentenceGenerator.generatePoliteVersion text ctx 2 rho r).2).2).2).2).2
  · rfl

end JGC
